import Mathlib

/-!
# krud: the audit-integrated access layer

A shallow embedding of `postgres.go` (package `krud`): the authorizer, the
transactional wrapper, the author and book repositories and the audit query,
over an explicit model of the storage collaborator (`database/sql` on top of
the relational schema); of the validation of `model.go`; and of the handlers
of `controller.go` that read and update authors and books and list events,
with the authorization middleware.

Go values are modelled as follows.
* `error` is `Option GoError` (`none` is `nil`).
* `int64` identities are `Int`; they are produced by the storage sequence and
  are never the subject of arithmetic in this package.
* A method that touches the storage takes the storage state `DB` and returns
  the new one next to its Go results.
* A closure that assigns to variables of the enclosing function receives and
  returns those variables explicitly.
* An HTTP handler takes the response as written so far, the request and the
  state of the data layer, and returns the response and the new state; `int`
  has 64 bits.
-/

namespace Krud

/-! ## Errors -/

/-- Go error value: `new` is the result of `errors.New` (and of `fmt.Errorf`
without a wrapped operand), `wrap` the result of `fmt.Errorf` with one `%w`
operand; `msg` is the full text returned by `Error()`. -/
inductive GoError where
  | new (msg : String)
  | wrap (msg : String) (cause : GoError)
deriving DecidableEq, Repr

/-- Text of an error, `err.Error()`. -/
def GoError.Error : GoError → String
  | .new msg => msg
  | .wrap msg _ => msg

/-- Go `errors.Is(err, target)`: `err` or some error in its `Unwrap` chain
equals `target`. -/
def errorsIs : GoError → GoError → Bool
  | .new msg, target => decide (GoError.new msg = target)
  | .wrap msg cause, target => decide (GoError.wrap msg cause = target) || errorsIs cause target

/-- Go `fmt.Errorf(pre + "%w", err)` with a non-nil `err`. -/
def Errorf (pre : String) (err : GoError) : GoError :=
  .wrap (pre ++ err.Error) err

/-- Go `fmt.Errorf(pre + "%w", err)` where `err` may be nil: a nil operand is
printed as a bad verb and nothing is wrapped. -/
def ErrorfOpt (pre : String) (err : Option GoError) : GoError :=
  match err with
  | some e => Errorf pre e
  | none => .new (pre ++ "%!w(<nil>)")

def AUDIT_OP_CREATE : String := "CREATE"

def AUDIT_OP_READ : String := "READ"

def AUDIT_OP_UPDATE : String := "UPDATE"

def AUDIT_OP_DELETE : String := "DELETE"

def ErrUnauthorized : GoError := .new "unauthorized"

def ErrDoesNotExist : GoError := .new "object not found"

/-- The `sql.ErrTxDone` sentinel of `database/sql`. -/
def ErrTxDone : GoError := .new "sql: transaction has already been committed or rolled back"

/-- The `sql.ErrNoRows` sentinel of `database/sql`. -/
def ErrNoRows : GoError := .new "sql: no rows in result set"

/-! ## Data model (`model.go`, `Event` of `postgres.go`) -/

/-- Go `Date` (a `time.Time`): the instant counted from the zero time, so that
`IsZero` is `wall = 0`. The storage is taken to hand a date back as it was
written. -/
structure Date where
  wall : Int
deriving DecidableEq, Repr

/-- Go `time.Time`: an instant together with the location it is shown in. -/
structure Time where
  unix : Int
  loc : Int
deriving DecidableEq, Repr

/-- Go `t.UTC()`: the same instant, location UTC. -/
def Time.UTC (t : Time) : Time :=
  { t with loc := 0 }

structure Author where
  ID : Int
  Name : String
  DateOfBirth : Date
deriving DecidableEq, Repr

structure Book where
  ID : Int
  Title : String
  Published : Date
deriving DecidableEq, Repr

/-- Audit event. `ObjType` is the Go field `Type` (a reserved word here) and
`ID` is the nullable `*int64`. -/
structure Event where
  When : Time
  User : String
  Operation : String
  ObjType : String
  ID : Option Int
deriving DecidableEq, Repr

/-! ## The storage collaborator -/

/-- Row of the `books` table: the book columns and the `author_id` column. -/
structure BookRow where
  author_id : Int
  book : Book
deriving DecidableEq, Repr

/-- Modelled from the spec: the relational schema (`initdb/init.sql`, which is
not among the sources): a `users` table with a name column, the `authors` and
`books` tables with storage-assigned identity columns, and the `events` table.
Rows are kept in insertion order. -/
structure Store where
  users : List String
  authors : List Author
  books : List BookRow
  events : List Event
deriving DecidableEq, Repr

/-- Data-changing statement issued by this package, with its parameters
bound. -/
inductive Write where
  | insertAuthor (row : Author)
  | updateAuthor (id : Int) (name : String) (dateOfBirth : Date)
  | deleteAuthor (id : Int)
  | insertBook (row : BookRow)
  | updateBook (id : Int) (title : String) (published : Date)
  | deleteBook (bookID authorID : Int)
  | insertEvent (e : Event)
deriving DecidableEq, Repr

/-- Effect of a statement on the tables. -/
def Write.apply (w : Write) (s : Store) : Store :=
  match w with
  | .insertAuthor row => { s with authors := s.authors ++ [row] }
  | .updateAuthor id name dob =>
    { s with authors := s.authors.map (fun r =>
        if r.ID = id then { r with Name := name, DateOfBirth := dob } else r) }
  | .deleteAuthor id => { s with authors := s.authors.filter (fun r => decide (r.ID ≠ id)) }
  | .insertBook row => { s with books := s.books ++ [row] }
  | .updateBook id title published =>
    { s with books := s.books.map (fun r =>
        if r.book.ID = id then { r with book := { r.book with Title := title, Published := published } }
        else r) }
  | .deleteBook bookID authorID =>
    { s with books := s.books.filter (fun r => decide (¬ (r.book.ID = bookID ∧ r.author_id = authorID))) }
  | .insertEvent e => { s with events := s.events ++ [e] }

/-- Number of rows a statement touches, the value behind `RowsAffected`. -/
def Write.affected (w : Write) (s : Store) : Int :=
  match w with
  | .insertAuthor _ => 1
  | .updateAuthor id _ _ => ((s.authors.filter (fun r => decide (r.ID = id))).length : Int)
  | .deleteAuthor id => ((s.authors.filter (fun r => decide (r.ID = id))).length : Int)
  | .insertBook _ => 1
  | .updateBook id _ _ => ((s.books.filter (fun r => decide (r.book.ID = id))).length : Int)
  | .deleteBook bookID authorID =>
    ((s.books.filter (fun r => decide (r.book.ID = bookID ∧ r.author_id = authorID))).length : Int)
  | .insertEvent _ => 1

/-- Call on a transaction boundary, recorded in the order it is made. -/
inductive TxCall where
  | begin
  | commit
  | rollback
deriving DecidableEq, Repr

/-- Modelled from the spec: the storage collaborator behind a `*sql.DB`
(`database/sql` with the schema of `initdb/init.sql`, neither among the
sources), as seen by one caller at a time.

* `handle` identifies the `*sql.DB` pointer.
* `committed` holds the tables every session sees.
* `authorSeq`, `bookSeq` are the identity sequences; like the storage clock
  they are not transactional.
* `pending` are the statements of the transaction handle `tx` that are not
  committed yet, `txDone` says that `tx` was committed or rolled back and
  `txStart` is what `NOW()` gives inside `tx`.
* `faults` is the fault plan: every storage step takes the next entry, and
  `some e` makes that step fail with `e`; an exhausted plan means no failure.
* `calls` records the calls to `BeginTx`, `Commit` and `Rollback`. -/
structure DB where
  handle : Nat
  committed : Store
  authorSeq : Int
  bookSeq : Int
  clock : Int
  txStart : Int
  txDone : Bool
  pending : List Write
  faults : List (Option GoError)
  calls : List TxCall
deriving Repr

/-- Tables as the open transaction reads them: the committed rows with its own
statements applied. -/
def DB.view (db : DB) : Store :=
  db.pending.foldl (fun s w => w.apply s) db.committed

/-- Takes the next entry of the fault plan. -/
def DB.fault (db : DB) : Option GoError × DB :=
  match db.faults with
  | [] => (none, db)
  | f :: rest => (f, { db with faults := rest })

/-- No storage failure is planned. -/
def DB.NoFaults (db : DB) : Prop :=
  ∀ f ∈ db.faults, f = none

instance (db : DB) : Decidable db.NoFaults := by
  unfold DB.NoFaults
  infer_instance

/-- Error of a primary-key violation raised by the storage. -/
def ErrUniqueViolation : GoError := .new "duplicate key value violates unique constraint"

/-- Model of `db.BeginTx(ctx, nil)`: a fresh transaction handle. -/
def BeginTx (db : DB) : Option GoError × DB :=
  match ({ db with calls := db.calls ++ [TxCall.begin] } : DB).fault with
  | (some e, db1) => (some e, db1)
  | (none, db1) =>
    (none, { db1 with clock := db1.clock + 1, txStart := db1.clock + 1, txDone := false, pending := [] })

/-- Model of `tx.Commit()`: publishes the pending statements; a handle that is
done answers `sql.ErrTxDone`, and a failed commit publishes nothing. -/
def Commit (db : DB) : Option GoError × DB :=
  let db0 : DB := { db with calls := db.calls ++ [TxCall.commit] }
  if db0.txDone then (some ErrTxDone, db0)
  else
    match db0.fault with
    | (some e, db1) => (some e, { db1 with txDone := true, pending := [] })
    | (none, db1) => (none, { db1 with txDone := true, committed := db1.view, pending := [] })

/-- Model of `tx.Rollback()`: drops the pending statements; a handle that is
done answers `sql.ErrTxDone`. -/
def Rollback (db : DB) : Option GoError × DB :=
  let db0 : DB := { db with calls := db.calls ++ [TxCall.rollback] }
  if db0.txDone then (some ErrTxDone, db0)
  else
    match db0.fault with
    | (some e, db1) => (some e, { db1 with txDone := true, pending := [] })
    | (none, db1) => (none, { db1 with txDone := true, pending := [] })

/-- Model of `tx.ExecContext` for a statement without a result row: the
statement joins the transaction; the second component is the row count of the
`sql.Result`. -/
def txExec (w : Write) (db : DB) : Option GoError × Int × DB :=
  if db.txDone then (some ErrTxDone, 0, db)
  else
    match db.fault with
    | (some e, db1) => (some e, 0, db1)
    | (none, db1) => (none, w.affected db1.view, { db1 with pending := db1.pending ++ [w] })

/-- Model of `res.RowsAffected()`. -/
def RowsAffected (n : Int) (db : DB) : Option GoError × Int × DB :=
  match db.fault with
  | (some e, db1) => (some e, 0, db1)
  | (none, db1) => (none, n, db1)

/-- Model of `db.ExecContext` on the `*sql.DB` itself: the statement runs
outside any transaction handle and is committed at once. -/
def dbExec (w : Int → Write) (db : DB) : Option GoError × DB :=
  match db.fault with
  | (some e, db1) => (some e, db1)
  | (none, db1) =>
    (none, { db1 with clock := db1.clock + 1, committed := (w (db1.clock + 1)).apply db1.committed })

/-- Go `*sql.Row`: the deferred error of the query and its first row. -/
structure Row (α : Type) where
  err : Option GoError
  first : Option α

/-- Model of `row.Scan(...)`: the deferred error, else a failure reading or
converting the row, else `sql.ErrNoRows` when there is no row. -/
def Row.Scan {α : Type} (row : Row α) (db : DB) : Except GoError α × DB :=
  match row.err with
  | some e => (.error e, db)
  | none =>
    match db.fault with
    | (some e, db1) => (.error e, db1)
    | (none, db1) =>
      match row.first with
      | none => (.error ErrNoRows, db1)
      | some v => (.ok v, db1)

/-- Model of `tx.QueryRowContext` for a select of at most one row. -/
def txQueryRow {α : Type} (sel : Store → Option α) (db : DB) : Row α × DB :=
  if db.txDone then ({ err := some ErrTxDone, first := none }, db)
  else
    match db.fault with
    | (some e, db1) => ({ err := some e, first := none }, db1)
    | (none, db1) => ({ err := none, first := sel db1.view }, db1)

/-- Model of `INSERT INTO authors (name, date_of_birth) VALUES($1,$2) RETURNING id`
through `tx.QueryRowContext`: the identity is the next value of the sequence,
which must not be taken by a stored row. -/
def txInsertAuthor (name : String) (dob : Date) (db : DB) : Row Int × DB :=
  if db.txDone then ({ err := some ErrTxDone, first := none }, db)
  else
    match db.fault with
    | (some e, db1) => ({ err := some e, first := none }, db1)
    | (none, db1) =>
      let id := db1.authorSeq + 1
      let db2 : DB := { db1 with authorSeq := id }
      if db2.view.authors.any (fun r => decide (r.ID = id)) then
        ({ err := some ErrUniqueViolation, first := none }, db2)
      else
        ({ err := none, first := some id },
          { db2 with pending := db2.pending ++ [Write.insertAuthor ⟨id, name, dob⟩] })

/-- Model of `INSERT INTO books (author_id, title, published) VALUES($1, $2, $3) RETURNING id`
through `tx.QueryRowContext`. -/
def txInsertBook (author : Int) (title : String) (published : Date) (db : DB) : Row Int × DB :=
  if db.txDone then ({ err := some ErrTxDone, first := none }, db)
  else
    match db.fault with
    | (some e, db1) => ({ err := some e, first := none }, db1)
    | (none, db1) =>
      let id := db1.bookSeq + 1
      let db2 : DB := { db1 with bookSeq := id }
      if db2.view.books.any (fun r => decide (r.book.ID = id)) then
        ({ err := some ErrUniqueViolation, first := none }, db2)
      else
        ({ err := none, first := some id },
          { db2 with pending := db2.pending ++ [Write.insertBook ⟨author, ⟨id, title, published⟩⟩] })

/-- Model of `tx.QueryContext` for a select of many rows. -/
def txQuery {α : Type} (sel : Store → List α) (db : DB) : Option GoError × List α × DB :=
  if db.txDone then (some ErrTxDone, [], db)
  else
    match db.fault with
    | (some e, db1) => (some e, [], db1)
    | (none, db1) => (none, sel db1.view, db1)

/-- Model of `db.QueryContext` on the `*sql.DB` itself: reads the committed
rows. -/
def dbQuery {α : Type} (sel : Store → List α) (db : DB) : Option GoError × List α × DB :=
  match db.fault with
  | (some e, db1) => (some e, [], db1)
  | (none, db1) => (none, sel db1.committed, db1)

/-- Go `append(s, x)` on a slice that may be nil (`none`). -/
def goAppend {α : Type} (s : Option (List α)) (x : α) : Option (List α) :=
  some (s.getD [] ++ [x])

/-- Outcome of a `for rows.Next() { ... rows.Scan ... }` loop that collects
every row: the error of a failed `Scan` (the loop body returned), the slice
collected, and the error `rows.Err()` reports afterwards. -/
structure Scanned (α : Type) where
  scanErr : Option GoError
  got : Option (List α)
  rowsErr : Option GoError

/-- The collecting loop over a result set. `rows.Next()` and `rows.Scan` each
take a fault: a failed `Next` ends the loop and is what `rows.Err()` reports. -/
def scanAll {α : Type} : List α → Option (List α) → DB → Scanned α × DB
  | rest, acc, db =>
    match db.fault with
    | (some e, db1) => ({ scanErr := none, got := acc, rowsErr := some e }, db1)
    | (none, db1) =>
      match rest with
      | [] => ({ scanErr := none, got := acc, rowsErr := none }, db1)
      | r :: tl =>
        match db1.fault with
        | (some e, db2) => ({ scanErr := some e, got := acc, rowsErr := none }, db2)
        | (none, db2) => scanAll tl (goAppend acc r) db2

/-- Model of `tx.ExecContext` with the statement
`INSERT INTO events (username, obj_type, obj_id, operation, ts) VALUES (..., NOW())`
(`obj_id` is left out, hence NULL, when `id` is `none`). -/
def txInsertEvent (user objType : String) (id : Option Int) (op : String) (db : DB) :
    Option GoError × Int × DB :=
  txExec (.insertEvent
    { When := ⟨db.txStart, 0⟩, User := user, Operation := op, ObjType := objType, ID := id }) db

/-! ## `postgres.go` -/

/-- Go `AuditDB`: the `*sql.DB` it is bound to and the user. -/
structure AuditDB where
  db : Nat
  user : String
deriving DecidableEq, Repr

/-- Go `wrapInTransaction`: `vars` are the variables of the caller the closure
`action` assigns to. -/
def wrapInTransaction {σ : Type} (action : σ → DB → Option GoError × σ × DB) (vars : σ) (db : DB) :
    Option GoError × σ × DB :=
  match BeginTx db with
  | (some err, db1) => (some (Errorf "create transaction: " err), vars, db1)
  | (none, db1) =>
    match action vars db1 with
    | (some err, vars1, db2) =>
      match Rollback db2 with
      | (some rbErr, db3) =>
        (some (.wrap ("rollback failed because '" ++ rbErr.Error ++ "' after err: " ++ err.Error) err),
          vars1, db3)
      | (none, db3) => (some err, vars1, db3)
    | (none, vars1, db2) =>
      match Commit db2 with
      | (r, db3) => (r, vars1, db3)

/-- Variables of a repository method that its closure assigns to: the output
variable of the method (`id`, `author`, `n`, `authors`, ...) and the named
result `err`. -/
structure Captured (α : Type) where
  out : α
  err : Option GoError

/-- The closure passed to `wrapInTransaction` by `AddAuthor`. The first failure
branch formats the captured `err`, not `row.Err()`. -/
def AddAuthor.action (adb : AuditDB) (author : Author) (v : Captured Int) (db : DB) :
    Option GoError × Captured Int × DB :=
  match txInsertAuthor author.Name author.DateOfBirth db with
  | (row, db1) =>
    if row.err ≠ none then (some (ErrorfOpt "insert author: " v.err), v, db1)
    else
      match row.Scan db1 with
      | (.error err, db2) => (some (Errorf "scanning id: " err), { v with err := some err }, db2)
      | (.ok id, db2) =>
        match txInsertEvent adb.user "authors" (some id) AUDIT_OP_CREATE db2 with
        | (some err, _, db3) => (some (Errorf "insert event: " err), { out := id, err := some err }, db3)
        | (none, _, db3) => (none, { out := id, err := none }, db3)

/-- Go `AddAuthor`. -/
def AddAuthor (adb : AuditDB) (author : Author) (db : DB) : Int × Option GoError × DB :=
  match wrapInTransaction (AddAuthor.action adb author) { out := 0, err := none } db with
  | (some err, _, db1) => (-1, some (Errorf "transaction: " err), db1)
  | (none, v, db1) => (v.out, none, db1)

/-- The closure passed to `wrapInTransaction` by `GetAuthor`; `out` is the
`*Author` result (`none` is nil). -/
def GetAuthor.action (adb : AuditDB) (id : Int) (v : Captured (Option Author)) (db : DB) :
    Option GoError × Captured (Option Author) × DB :=
  match txInsertEvent adb.user "authors" (some id) AUDIT_OP_READ db with
  | (some err, _, db1) => (some (Errorf "insert event: " err), { v with err := some err }, db1)
  | (none, _, db1) =>
    match txQueryRow (fun s => s.authors.find? (fun r => decide (r.ID = id))) db1 with
    | (row, db2) =>
      match row.err with
      | some rerr => (some (Errorf "select authors: " rerr), { v with err := none }, db2)
      | none =>
        match row.Scan db2 with
        | (.error err, db3) =>
          if errorsIs err ErrNoRows then
            (some ErrDoesNotExist, { out := some ⟨0, "", ⟨0⟩⟩, err := none }, db3)
          else (some (Errorf "scanning row: " err), { out := some ⟨0, "", ⟨0⟩⟩, err := none }, db3)
        | (.ok a, db3) => (none, { out := some a, err := none }, db3)

/-- Go `GetAuthor`. -/
def GetAuthor (adb : AuditDB) (id : Int) (db : DB) : Option Author × Option GoError × DB :=
  match wrapInTransaction (GetAuthor.action adb id) { out := none, err := none } db with
  | (some err, _, db1) => (none, some (Errorf "transaction: " err), db1)
  | (none, v, db1) => (v.out, none, db1)

/-- The closure passed to `wrapInTransaction` by `UpdateAuthor`; `out` is `n`. -/
def UpdateAuthor.action (adb : AuditDB) (author : Author) (v : Captured Int) (db : DB) :
    Option GoError × Captured Int × DB :=
  match txInsertEvent adb.user "authors" (some author.ID) AUDIT_OP_UPDATE db with
  | (some err, _, db1) => (some (Errorf "insert event: " err), { v with err := some err }, db1)
  | (none, _, db1) =>
    match txExec (.updateAuthor author.ID author.Name author.DateOfBirth) db1 with
    | (some err, _, db2) => (some (Errorf "update author: " err), { v with err := none }, db2)
    | (none, res, db2) =>
      match RowsAffected res db2 with
      | (some err, n, db3) => (some (Errorf "affected rows: " err), { out := n, err := none }, db3)
      | (none, n, db3) => (none, { out := n, err := none }, db3)

/-- Go `UpdateAuthor`. -/
def UpdateAuthor (adb : AuditDB) (author : Author) (db : DB) : Option GoError × DB :=
  match wrapInTransaction (UpdateAuthor.action adb author) { out := 0, err := none } db with
  | (some err, _, db1) => (some (Errorf "transaction: " err), db1)
  | (none, v, db1) => if v.out = 0 then (some ErrDoesNotExist, db1) else (none, db1)

/-- The closure passed to `wrapInTransaction` by `AllAuthors`; `out` is the
slice `authors` (`none` is nil). -/
def AllAuthors.action (adb : AuditDB) (v : Captured (Option (List Author))) (db : DB) :
    Option GoError × Captured (Option (List Author)) × DB :=
  match txInsertEvent adb.user "authors" none AUDIT_OP_READ db with
  | (some err, _, db1) => (some (Errorf "insert event: " err), { v with err := some err }, db1)
  | (none, _, db1) =>
    match txQuery (fun s => s.authors) db1 with
    | (some err, _, db2) => (some (Errorf "select authors: " err), { v with err := none }, db2)
    | (none, rows, db2) =>
      match scanAll rows v.out db2 with
      | (sc, db3) =>
        match sc.scanErr with
        | some err => (some (Errorf "scanning row: " err), { out := sc.got, err := none }, db3)
        | none =>
          match sc.rowsErr with
          | some err => (some (Errorf "going over rows: " err), { out := sc.got, err := none }, db3)
          | none => (none, { out := sc.got, err := none }, db3)

/-- Go `AllAuthors`. -/
def AllAuthors (adb : AuditDB) (db : DB) : Option (List Author) × Option GoError × DB :=
  match wrapInTransaction (AllAuthors.action adb) { out := none, err := none } db with
  | (some err, _, db1) => (none, some (Errorf "transaction: " err), db1)
  | (none, v, db1) => (v.out, none, db1)

/-- The closure passed to `wrapInTransaction` by `DeleteAuthor`; `out` is `n`. -/
def DeleteAuthor.action (adb : AuditDB) (id : Int) (v : Captured Int) (db : DB) :
    Option GoError × Captured Int × DB :=
  match txInsertEvent adb.user "authors" (some id) AUDIT_OP_DELETE db with
  | (some err, _, db1) => (some (Errorf "insert event: " err), { v with err := some err }, db1)
  | (none, _, db1) =>
    match txExec (.deleteAuthor id) db1 with
    | (some err, _, db2) => (some (Errorf "delete author: " err), { v with err := none }, db2)
    | (none, res, db2) =>
      match RowsAffected res db2 with
      | (some err, n, db3) => (some (Errorf "affected rows: " err), { out := n, err := none }, db3)
      | (none, n, db3) => (none, { out := n, err := none }, db3)

/-- Go `DeleteAuthor`. -/
def DeleteAuthor (adb : AuditDB) (id : Int) (db : DB) : Option GoError × DB :=
  match wrapInTransaction (DeleteAuthor.action adb id) { out := 0, err := none } db with
  | (some err, _, db1) => (some (Errorf "transaction: " err), db1)
  | (none, v, db1) => if v.out = 0 then (some ErrDoesNotExist, db1) else (none, db1)

/-- The closure passed to `wrapInTransaction` by `AddBook`. The first failure
branch formats the captured `err`, not `row.Err()`. -/
def AddBook.action (adb : AuditDB) (author : Int) (book : Book) (v : Captured Int) (db : DB) :
    Option GoError × Captured Int × DB :=
  match txInsertBook author book.Title book.Published db with
  | (row, db1) =>
    if row.err ≠ none then (some (ErrorfOpt "insert book: " v.err), v, db1)
    else
      match row.Scan db1 with
      | (.error err, db2) => (some (Errorf "scanning id: " err), { v with err := some err }, db2)
      | (.ok id, db2) =>
        match txInsertEvent adb.user "books" (some id) AUDIT_OP_CREATE db2 with
        | (some err, _, db3) => (some (Errorf "insert event: " err), { out := id, err := some err }, db3)
        | (none, _, db3) => (none, { out := id, err := none }, db3)

/-- Go `AddBook`. -/
def AddBook (adb : AuditDB) (author : Int) (book : Book) (db : DB) : Int × Option GoError × DB :=
  match wrapInTransaction (AddBook.action adb author book) { out := 0, err := none } db with
  | (some err, _, db1) => (-1, some (Errorf "transaction: " err), db1)
  | (none, v, db1) => (v.out, none, db1)

/-- The closure passed to `wrapInTransaction` by `GetBook`; `out` is the
`*Book` result (`none` is nil). -/
def GetBook.action (adb : AuditDB) (authorID bookID : Int) (v : Captured (Option Book)) (db : DB) :
    Option GoError × Captured (Option Book) × DB :=
  match txInsertEvent adb.user "books" (some bookID) AUDIT_OP_READ db with
  | (some err, _, db1) => (some (Errorf "insert event: " err), { v with err := some err }, db1)
  | (none, _, db1) =>
    match txQueryRow (fun s =>
      (s.books.find? (fun r => decide (r.book.ID = bookID ∧ r.author_id = authorID))).map
        (fun r => r.book)) db1 with
    | (row, db2) =>
      match row.err with
      | some rerr => (some (Errorf "select books: " rerr), { v with err := none }, db2)
      | none =>
        match row.Scan db2 with
        | (.error err, db3) =>
          if errorsIs err ErrNoRows then
            (some ErrDoesNotExist, { out := some ⟨0, "", ⟨0⟩⟩, err := none }, db3)
          else (some (Errorf "scanning row: " err), { out := some ⟨0, "", ⟨0⟩⟩, err := none }, db3)
        | (.ok b, db3) => (none, { out := some b, err := none }, db3)

/-- Go `GetBook`. -/
def GetBook (adb : AuditDB) (authorID bookID : Int) (db : DB) : Option Book × Option GoError × DB :=
  match wrapInTransaction (GetBook.action adb authorID bookID) { out := none, err := none } db with
  | (some err, _, db1) => (none, some (Errorf "transaction: " err), db1)
  | (none, v, db1) => (v.out, none, db1)

/-- The closure passed to `wrapInTransaction` by `UpdateBook`; `out` is `n`.
The statement is `UPDATE books SET title=$2, published=$3 WHERE id=$1`. -/
def UpdateBook.action (adb : AuditDB) (book : Book) (v : Captured Int) (db : DB) :
    Option GoError × Captured Int × DB :=
  match txInsertEvent adb.user "books" (some book.ID) AUDIT_OP_UPDATE db with
  | (some err, _, db1) => (some (Errorf "insert event: " err), { v with err := some err }, db1)
  | (none, _, db1) =>
    match txExec (.updateBook book.ID book.Title book.Published) db1 with
    | (some err, _, db2) => (some (Errorf "update book: " err), { v with err := none }, db2)
    | (none, res, db2) =>
      match RowsAffected res db2 with
      | (some err, n, db3) => (some (Errorf "affected rows: " err), { out := n, err := none }, db3)
      | (none, n, db3) => (none, { out := n, err := none }, db3)

/-- Go `UpdateBook`; the parameter `authorID` is not used by the body. -/
def UpdateBook (adb : AuditDB) (_authorID : Int) (book : Book) (db : DB) : Option GoError × DB :=
  match wrapInTransaction (UpdateBook.action adb book) { out := 0, err := none } db with
  | (some err, _, db1) => (some (Errorf "transaction: " err), db1)
  | (none, v, db1) => if v.out = 0 then (some ErrDoesNotExist, db1) else (none, db1)

/-- The closure passed to `wrapInTransaction` by `AllBooks`; `out` is the
slice `books` (`none` is nil). -/
def AllBooks.action (adb : AuditDB) (v : Captured (Option (List Book))) (db : DB) :
    Option GoError × Captured (Option (List Book)) × DB :=
  match txInsertEvent adb.user "books" none AUDIT_OP_READ db with
  | (some err, _, db1) => (some (Errorf "insert event: " err), { v with err := some err }, db1)
  | (none, _, db1) =>
    match txQuery (fun s => s.books.map (fun r => r.book)) db1 with
    | (some err, _, db2) => (some (Errorf "select books: " err), { v with err := none }, db2)
    | (none, rows, db2) =>
      match scanAll rows v.out db2 with
      | (sc, db3) =>
        match sc.scanErr with
        | some err => (some (Errorf "scanning row: " err), { out := sc.got, err := none }, db3)
        | none =>
          match sc.rowsErr with
          | some err => (some (Errorf "going over rows: " err), { out := sc.got, err := none }, db3)
          | none => (none, { out := sc.got, err := none }, db3)

/-- Go `AllBooks`. -/
def AllBooks (adb : AuditDB) (db : DB) : Option (List Book) × Option GoError × DB :=
  match wrapInTransaction (AllBooks.action adb) { out := none, err := none } db with
  | (some err, _, db1) => (none, some (Errorf "transaction: " err), db1)
  | (none, v, db1) => (v.out, none, db1)

/-- The closure passed to `wrapInTransaction` by `DeleteBook`; `out` is `n`. -/
def DeleteBook.action (adb : AuditDB) (authorID bookID : Int) (v : Captured Int) (db : DB) :
    Option GoError × Captured Int × DB :=
  match txInsertEvent adb.user "books" (some bookID) AUDIT_OP_DELETE db with
  | (some err, _, db1) => (some (Errorf "insert event: " err), { v with err := some err }, db1)
  | (none, _, db1) =>
    match txExec (.deleteBook bookID authorID) db1 with
    | (some err, _, db2) => (some (Errorf "delete books: " err), { v with err := none }, db2)
    | (none, res, db2) =>
      match RowsAffected res db2 with
      | (some err, n, db3) => (some (Errorf "affected rows: " err), { out := n, err := none }, db3)
      | (none, n, db3) => (none, { out := n, err := none }, db3)

/-- Go `DeleteBook`. -/
def DeleteBook (adb : AuditDB) (authorID bookID : Int) (db : DB) : Option GoError × DB :=
  match wrapInTransaction (DeleteBook.action adb authorID bookID) { out := 0, err := none } db with
  | (some err, _, db1) => (some (Errorf "transaction: " err), db1)
  | (none, v, db1) => if v.out = 0 then (some ErrDoesNotExist, db1) else (none, db1)

/-- Outcome of the `for rows.Next()` loop of `authorize`: the error of a failed
`Scan` (the loop body returned), the flag `ok`, and what `rows.Err()` reports
afterwards. -/
structure UserScan where
  scanErr : Option GoError
  ok : Bool
  rowsErr : Option GoError

/-- The loop of `authorize` over the names of the users table; it stops at the
first name equal to `user`. -/
def authorize.loop (user : String) : List String → DB → UserScan × DB
  | rest, db =>
    match db.fault with
    | (some e, db1) => ({ scanErr := none, ok := false, rowsErr := some e }, db1)
    | (none, db1) =>
      match rest with
      | [] => ({ scanErr := none, ok := false, rowsErr := none }, db1)
      | name :: tl =>
        match db1.fault with
        | (some e, db2) => ({ scanErr := some e, ok := false, rowsErr := none }, db2)
        | (none, db2) =>
          if user = name then ({ scanErr := none, ok := true, rowsErr := none }, db2)
          else authorize.loop user tl db2

/-- The deferred function of `authorize`: given the result `err` at the return
and `err2`, the result of `tx.Rollback()`, the `err` that is returned. -/
def authorize.deferred (err err2 : Option GoError) : Option GoError :=
  match err, err2 with
  | none, some e2 => if !errorsIs e2 ErrTxDone then some e2 else none
  | _, _ => err

/-- The statements of `authorize` after the transaction is open and up to its
`return`. The event insert and the users query go through `db`, not `tx`. -/
def authorize.body (user : String) (db : DB) : Bool × Option GoError × DB :=
  match dbExec (fun now => .insertEvent
      { When := ⟨now, 0⟩, User := user, Operation := AUDIT_OP_READ, ObjType := "auth", ID := none })
      db with
  | (some err, db1) => (false, some (Errorf "insert event: " err), db1)
  | (none, db1) =>
    match dbQuery (fun s => s.users) db1 with
    | (some err, _, db2) => (false, some (Errorf "query users: " err), db2)
    | (none, rows, db2) =>
      match authorize.loop user rows db2 with
      | (sc, db3) =>
        match sc.scanErr with
        | some err => (false, some (Errorf "scanning row: " err), db3)
        | none =>
          match sc.rowsErr with
          | some err => (false, some (Errorf "going over rows: " err), db3)
          | none =>
            match Commit db3 with
            | (some err, db4) => (false, some (Errorf "commit transaction: " err), db4)
            | (none, db4) => (sc.ok, none, db4)

/-- Go `authorize`: checks if `user` is allowed to use `db`. -/
def authorize (db : DB) (user : String) : Bool × Option GoError × DB :=
  match BeginTx db with
  | (some err, db1) => (false, some (Errorf "create transaction: " err), db1)
  | (none, db1) =>
    match authorize.body user db1 with
    | (ok, err, db2) =>
      match Rollback db2 with
      | (err2, db3) => (ok, authorize.deferred err err2, db3)

/-- Go `NewAuditDB`. -/
def NewAuditDB (db : DB) (user : String) : Option AuditDB × Option GoError × DB :=
  match authorize db user with
  | (_, some err, db1) => (none, some (Errorf "authorization: " err), db1)
  | (ok, none, db1) =>
    if ok then (some { db := db.handle, user := user }, none, db1)
    else (none, some ErrUnauthorized, db1)

/-- Go `whereFilter`: sets up for a `WHERE lhs=rhs` to add to a SQL query. -/
structure whereFilter where
  lhs : List String
  rhs : List Time
deriving DecidableEq, Repr

/-- Go `Filter`, a function that extends the accumulator. -/
abbrev Filter := whereFilter → whereFilter

/-- Go `EventsAfter`. -/
def EventsAfter (t : Time) : Filter := fun f =>
  { lhs := f.lhs ++ ["ts > $" ++ toString (f.lhs.length + 1) ++ "::timestamp"],
    rhs := f.rhs ++ [t.UTC] }

/-- Go `EventsBefore`. -/
def EventsBefore (t : Time) : Filter := fun f =>
  { lhs := f.lhs ++ ["ts < $" ++ toString (f.lhs.length + 1)],
    rhs := f.rhs ++ [t.UTC] }

/-- The `for i, left := range wf.lhs` loop of `where`, writing to the builder
`b`. -/
def whereFilter.build : Nat → List String → String → String
  | _, [], b => b
  | i, left :: tl, b => whereFilter.build (i + 1) tl ((if i ≠ 0 then b ++ " AND " else b) ++ left)

/-- Go `whereFilter.where` (the name is a reserved word here). -/
def whereFilter.where_ (wf : whereFilter) : String × List Time :=
  if wf.lhs.length = 0 then ("", [])
  else (whereFilter.build 0 wf.lhs "WHERE ", wf.rhs)

/-- Removes the prefix `p` from `s`, if `s` starts with it. -/
def stripPrefix? (p s : List Char) : Option (List Char) :=
  if p.isPrefixOf s then some (s.drop p.length) else none

/-- Modelled from the spec: how the storage reads the conjunction this package
puts after `WHERE `: clause number `i` compares the `ts` column with the
placeholder `$i`, strictly, and is bound to the `i`-th parameter. The result
is the predicate on events, or `none` for any other text. -/
def matchClauses : Nat → List Time → List Char → Option (Event → Bool)
  | _, [], _ => none
  | i, t :: ts, s =>
    let clause : Option ((Event → Bool) × List Char) :=
      match stripPrefix? ("ts > $" ++ toString i ++ "::timestamp").data s with
      | some rest => some (fun e => decide (e.When.unix > t.unix), rest)
      | none =>
        match stripPrefix? ("ts < $" ++ toString i).data s with
        | some rest => some (fun e => decide (e.When.unix < t.unix), rest)
        | none => none
    match clause with
    | none => none
    | some (p, rest) =>
      match rest, ts with
      | [], [] => some p
      | [], _ :: _ => none
      | _ :: _, _ =>
        match stripPrefix? " AND ".data rest with
        | none => none
        | some rest1 =>
          match matchClauses (i + 1) ts rest1 with
          | none => none
          | some q => some (fun e => p e && q e)

/-- Error of the storage for a query text it cannot read. -/
def ErrSyntax : GoError := .new "syntax error"

/-- Model of `db.QueryContext` with the text
`SELECT ts, username, operation, obj_type, obj_id FROM events ` followed by
`clause`, on the `*sql.DB` itself. -/
def dbQueryEvents (clause : String) (args : List Time) (db : DB) : Option GoError × List Event × DB :=
  match db.fault with
  | (some e, db1) => (some e, [], db1)
  | (none, db1) =>
    if clause = "" then
      if args = [] then (none, db1.committed.events, db1) else (some ErrSyntax, [], db1)
    else
      match stripPrefix? "WHERE ".data clause.data with
      | none => (some ErrSyntax, [], db1)
      | some rest =>
        match matchClauses 1 args rest with
        | none => (some ErrSyntax, [], db1)
        | some p => (none, db1.committed.events.filter p, db1)

/-- Go `QueryEvents`. -/
def QueryEvents (_adb : AuditDB) (filters : List Filter) (db : DB) :
    Option (List Event) × Option GoError × DB :=
  let wfs : whereFilter := filters.foldl (fun w f => f w) { lhs := [], rhs := [] }
  match wfs.where_ with
  | (clause, args) =>
    match dbQueryEvents clause args db with
    | (some err, _, db1) => (none, some (Errorf "select events: " err), db1)
    | (none, rows, db1) =>
      match scanAll rows none db1 with
      | (sc, db2) =>
        match sc.scanErr with
        | some err => (none, some (Errorf "scanning row: " err), db2)
        | none =>
          match sc.rowsErr with
          | some err => (none, some (Errorf "going over rows: " err), db2)
          | none => (sc.got, none, db2)

/-! ## Vocabulary of the properties -/

/-- State `d1` is `d` with some entries of the fault plan taken. -/
def DB.Quiet (d d1 : DB) : Prop :=
  ∃ k, d1 = { d with faults := d.faults.drop k }

/-- State `d1` is `d` after statements `ws` joined the open transaction: apart
from the fault plan and the sequences nothing else differs. -/
def DB.TxStep (d d1 : DB) (ws : List Write) : Prop :=
  ∃ k a b, d1 = { d with faults := d.faults.drop k, pending := d.pending ++ ws,
                         authorSeq := a, bookSeq := b }

/-- A call of one of the ten repository methods, with its arguments. -/
inductive Call where
  | addAuthor (author : Author)
  | getAuthor (id : Int)
  | updateAuthor (author : Author)
  | allAuthors
  | deleteAuthor (id : Int)
  | addBook (author : Int) (book : Book)
  | getBook (authorID bookID : Int)
  | updateBook (authorID : Int) (book : Book)
  | allBooks
  | deleteBook (authorID bookID : Int)
deriving Repr

/-- The error a repository call returns and the storage it leaves. -/
def Call.run (c : Call) (adb : AuditDB) (db : DB) : Option GoError × DB :=
  match c with
  | .addAuthor a => (AddAuthor adb a db).2
  | .getAuthor id => (GetAuthor adb id db).2
  | .updateAuthor a => UpdateAuthor adb a db
  | .allAuthors => (AllAuthors adb db).2
  | .deleteAuthor id => DeleteAuthor adb id db
  | .addBook author b => (AddBook adb author b db).2
  | .getBook authorID bookID => (GetBook adb authorID bookID db).2
  | .updateBook authorID b => UpdateBook adb authorID b db
  | .allBooks => (AllBooks adb db).2
  | .deleteBook authorID bookID => DeleteBook adb authorID bookID db

/-- The error of the transactional action (the closure) of a repository call
when it runs on the open transaction of `d`. -/
def Call.actionErr (c : Call) (adb : AuditDB) (d : DB) : Option GoError :=
  match c with
  | .addAuthor a => (AddAuthor.action adb a { out := 0, err := none } d).1
  | .getAuthor id => (GetAuthor.action adb id { out := none, err := none } d).1
  | .updateAuthor a => (UpdateAuthor.action adb a { out := 0, err := none } d).1
  | .allAuthors => (AllAuthors.action adb { out := none, err := none } d).1
  | .deleteAuthor id => (DeleteAuthor.action adb id { out := 0, err := none } d).1
  | .addBook author b => (AddBook.action adb author b { out := 0, err := none } d).1
  | .getBook authorID bookID =>
    (GetBook.action adb authorID bookID { out := none, err := none } d).1
  | .updateBook _ b => (UpdateBook.action adb b { out := 0, err := none } d).1
  | .allBooks => (AllBooks.action adb { out := none, err := none } d).1
  | .deleteBook authorID bookID =>
    (DeleteBook.action adb authorID bookID { out := 0, err := none } d).1

/-- Operation kind a call is expected to log. -/
def Call.operation : Call → String
  | .addAuthor _ | .addBook _ _ => AUDIT_OP_CREATE
  | .getAuthor _ | .getBook _ _ | .allAuthors | .allBooks => AUDIT_OP_READ
  | .updateAuthor _ | .updateBook _ _ => AUDIT_OP_UPDATE
  | .deleteAuthor _ | .deleteBook _ _ => AUDIT_OP_DELETE

/-- Object type a call is expected to log. -/
def Call.objType : Call → String
  | .addAuthor _ | .getAuthor _ | .updateAuthor _ | .allAuthors | .deleteAuthor _ => "authors"
  | .addBook _ _ | .getBook _ _ | .updateBook _ _ | .allBooks | .deleteBook _ _ => "books"

/-- Object identity a call is expected to log: the target identity, the
identity the call returns for the `Add` methods, none for the `All` methods. -/
def Call.objID (c : Call) (adb : AuditDB) (db : DB) : Option Int :=
  match c with
  | .addAuthor a => some (AddAuthor adb a db).1
  | .getAuthor id => some id
  | .updateAuthor a => some a.ID
  | .allAuthors => none
  | .deleteAuthor id => some id
  | .addBook author b => some (AddBook adb author b db).1
  | .getBook _ bookID => some bookID
  | .updateBook _ b => some b.ID
  | .allBooks => none
  | .deleteBook _ bookID => some bookID

/-- Whether the call is one of the four that report NotFound from the row
count, after their transaction. -/
def Call.countsRows : Call → Bool
  | .updateAuthor _ | .deleteAuthor _ | .updateBook _ _ | .deleteBook _ _ => true
  | _ => false

/-- Runs `AddAuthor` for each author in turn; `none` as soon as one call
fails. -/
def addAuthors (adb : AuditDB) : List Author → DB → Option DB
  | [], db => some db
  | a :: rest, db =>
    match AddAuthor adb a db with
    | (_, none, db1) => addAuthors adb rest db1
    | (_, some _, _) => none

/-- A storage with the single user `bill`, nothing else stored, no transaction
open and the given fault plan. -/
def sampleDB (faults : List (Option GoError)) : DB :=
  { handle := 7, committed := { users := ["bill"], authors := [], books := [], events := [] },
    authorSeq := 0, bookSeq := 0, clock := 0, txStart := 0, txDone := true, pending := [],
    faults := faults, calls := [] }

/-- Handle of the user `bill` on `sampleDB`. -/
def sampleADB : AuditDB := { db := 7, user := "bill" }

/-- A filter as a caller can build it: `EventsAfter t` or `EventsBefore t`. -/
inductive FilterSpec where
  | after (t : Time)
  | before (t : Time)
deriving DecidableEq, Repr

/-- The Go filter a description stands for. -/
def FilterSpec.filter : FilterSpec → Filter
  | .after t => EventsAfter t
  | .before t => EventsBefore t

/-- The time given to the filter. -/
def FilterSpec.time : FilterSpec → Time
  | .after t => t
  | .before t => t

/-- The clause expected of the filter when it is applied as number `i`. -/
def FilterSpec.clause (i : Nat) : FilterSpec → String
  | .after _ => "ts > $" ++ toString i ++ "::timestamp"
  | .before _ => "ts < $" ++ toString i

/-- The clauses expected of a list of filters, the first one being number
`i`. -/
def clausesFrom (i : Nat) : List FilterSpec → List String
  | [] => []
  | f :: fs => f.clause i :: clausesFrom (i + 1) fs

/-- The predicate on events the filter stands for: a strict comparison of the
timestamp with the instant given. -/
def FilterSpec.holds (f : FilterSpec) (e : Event) : Bool :=
  match f with
  | .after t => decide (e.When.unix > t.unix)
  | .before t => decide (e.When.unix < t.unix)

/-- The accumulator `wfs` of `QueryEvents`: the filters applied in order to an
empty one. -/
def applyFilters (filters : List Filter) : whereFilter :=
  filters.foldl (fun w f => f w) { lhs := [], rhs := [] }

/-- A storage like `sampleDB` whose events log holds three events, at the
instants 10, 20 and 30. -/
def sampleLog (faults : List (Option GoError)) : DB :=
  { sampleDB faults with
    committed := { users := ["bill"], authors := [], books := [],
                   events := [⟨⟨10, 0⟩, "bill", "READ", "auth", none⟩,
                              ⟨⟨20, 0⟩, "bill", "CREATE", "authors", some 1⟩,
                              ⟨⟨30, 0⟩, "bill", "CREATE", "authors", some 2⟩] } }

/-- The predicate on events that `dbQueryEvents` reads from the text after
`FROM events ` and the parameters, `none` when it reports a syntax error. -/
def readWhere (clause : String) (args : List Time) : Option (Event → Bool) :=
  if clause = "" then
    if args = [] then some (fun _ => true) else none
  else
    match stripPrefix? "WHERE ".data clause.data with
    | none => none
    | some rest => matchClauses 1 args rest

/-- A storage like `sampleDB` that holds the author 1 and, under that author,
the book 1. -/
def sampleShelf (faults : List (Option GoError)) : DB :=
  { sampleDB faults with
    committed := { users := ["bill"], authors := [⟨1, "Virginia Woolf", ⟨702000⟩⟩],
                   books := [⟨1, ⟨1, "To the Lighthouse", ⟨703500⟩⟩⟩], events := [] },
    authorSeq := 1, bookSeq := 1 }

/-! ## `model.go`: validation -/

/-- Go `time.Time(d).IsZero()` for a `Date`. -/
def Date.IsZero (d : Date) : Bool :=
  decide (d.wall = 0)

/-- Go `t.IsZero()`: the instant is January 1, year 1, 00:00 UTC, which lies
62135596800 seconds before the Unix epoch. -/
def Time.IsZero (t : Time) : Bool :=
  decide (t.unix = -62135596800)

/-- The `for _, r := range a.Name` loop of `Author.Validate`: the error for the
first rune that is neither a letter nor a space nor a period. `isLetter` stands
for `unicode.IsLetter`. -/
def Author.Validate.loop (isLetter : Char → Bool) : List Char → Option GoError
  | [] => none
  | r :: rest =>
    if isLetter r then Author.Validate.loop isLetter rest
    else if r = ' ' ∨ r = '.' then Author.Validate.loop isLetter rest
    else some (.new ("name contains unexpected rune: " ++ String.singleton r))

/-- Go `Author.Validate`; `none` is the nil error. The byte length `len(a.Name)`
is zero exactly when the name has no rune. -/
def Author.Validate (isLetter : Char → Bool) (a : Author) : Option GoError :=
  if a.Name.length = 0 then some (.new "name empty")
  else
    match Author.Validate.loop isLetter a.Name.data with
    | some err => some err
    | none =>
      if a.DateOfBirth.IsZero then some (.new "birthdate before the start of civilization")
      else none

/-- Go `Book.Validate`. -/
def Book.Validate (b : Book) : Option GoError :=
  if b.Title.length = 0 then some (.new "title empty")
  else if b.Published.IsZero then some (.new "published before the start of civilization")
  else none

/-! ## Library functions used by `controller.go` -/

/-- Go `io.EOF`. -/
def EOF : GoError := .new "EOF"

/-- Go `strconv.ErrSyntax`. -/
def strconv.ErrSyntax : GoError := .new "invalid syntax"

/-- Go `strconv.ErrRange`. -/
def strconv.ErrRange : GoError := .new "value out of range"

/-- Go `*strconv.NumError` of `Atoi` for the input `num`; it unwraps to `err`.
The input is quoted as it stands, which is what `strconv.Quote` does for text
of printable characters without quotes and backslashes. -/
def strconv.NumError (num : String) (err : GoError) : GoError :=
  .wrap ("strconv.Atoi: parsing \"" ++ num ++ "\": " ++ err.Error) err

/-- Go `strconv.Atoi` on a platform with 64-bit `int`: an optional sign and
decimal digits. Both results are returned: next to a syntax error the value is
0, next to a range error it is the nearest bound. -/
def strconv.Atoi (s : String) : Int × Option GoError :=
  let neg : Bool := s.data.head? = some '-'
  let digits : List Char :=
    match s.data with
    | '-' :: rest => rest
    | '+' :: rest => rest
    | cs => cs
  if digits = [] ∨ ¬ digits.all Char.isDigit then (0, some (strconv.NumError s strconv.ErrSyntax))
  else
    let n : Nat := digits.foldl (fun acc c => 10 * acc + (c.toNat - 48)) 0
    let v : Int := if neg then -(n : Int) else (n : Int)
    if v < -9223372036854775808 then (-9223372036854775808, some (strconv.NumError s strconv.ErrRange))
    else if v > 9223372036854775807 then (9223372036854775807, some (strconv.NumError s strconv.ErrRange))
    else (v, none)

/-- Model of `http.ResponseWriter`: the status code once the header was
written (`none` before), the header map and the bytes written to the body. -/
structure ResponseWriter where
  status : Option Nat
  header : List (String × String)
  body : String
deriving DecidableEq, Repr

/-- A response to which nothing was written yet. -/
def ResponseWriter.fresh : ResponseWriter :=
  { status := none, header := [], body := "" }

/-- Go `w.WriteHeader(code)`: the first call fixes the status, a later call is
superfluous and changes nothing. -/
def ResponseWriter.WriteHeader (w : ResponseWriter) (code : Nat) : ResponseWriter :=
  match w.status with
  | some _ => w
  | none => { w with status := some code }

/-- Go `w.Header().Set(key, value)`. -/
def ResponseWriter.Set (w : ResponseWriter) (key value : String) : ResponseWriter :=
  { w with header := (key, value) :: w.header.filter (fun kv => kv.1 ≠ key) }

/-- Go `w.Write(b)`: writes the header with status 200 when it was not written
before, then appends to the body. -/
def ResponseWriter.Write (w : ResponseWriter) (b : String) : ResponseWriter :=
  let w1 := w.WriteHeader 200
  { w1 with body := w1.body ++ b }

/-- Go `http.Error(w, error, code)`. -/
def http.Error (w : ResponseWriter) (error : String) (code : Nat) : ResponseWriter :=
  (((w.Set "Content-Type" "text/plain; charset=utf-8").Set "X-Content-Type-Options"
    "nosniff").WriteHeader code).Write (error ++ "\n")

/-- Behaviour of library functions that is left open: `unicode.IsLetter`, and
of `encoding/json` the indented encoding of an error object, of an error value
and of the records and non-empty lists of this package (`none` when the encoder
reports an error), and the decoding of a request body that is not blank into the
`changes` of `UpdateAuthor` (name, date of birth) and into the `queries` of
`Events` (before, after). -/
structure Lib where
  IsLetter : Char → Bool
  errorObject : String → String
  errorValue : GoError → Option String
  author : Author → Option String
  authors : List Author → Option String
  book : Book → Option String
  books : List Book → Option String
  events : List Event → Option String
  decodeChanges : String → Except GoError (String × Date)
  decodeQueries : String → Except GoError (Time × Time)

/-- Go `dec.Decode(&v)` of a fresh `json.Decoder` on the request body: a body of
nothing but JSON white space gives `io.EOF`. -/
def jsonDecode {α : Type} (dec : String → Except GoError α) (body : String) : Except GoError α :=
  if body.data.all (fun c => c = ' ' ∨ c = '\t' ∨ c = '\r' ∨ c = '\n') then .error EOF
  else dec body

/-- The values the handlers pass to `WriteJson` as `item`; `none` is a nil
pointer or a nil slice, `some []` an empty slice that is not nil. -/
inductive Item where
  | error (err : GoError)
  | author (a : Option Author)
  | authors (l : Option (List Author))
  | book (b : Option Book)
  | books (l : Option (List Book))
  | events (l : Option (List Event))

/-- Text of `enc.Encode(item)` without the closing newline: nil encodes as
`null`, an empty slice as `[]` (also when indented). -/
def Lib.encode (lib : Lib) : Item → Option String
  | .error err => lib.errorValue err
  | .author none => some "null"
  | .author (some a) => lib.author a
  | .authors none => some "null"
  | .authors (some []) => some "[]"
  | .authors (some (a :: l)) => lib.authors (a :: l)
  | .book none => some "null"
  | .book (some b) => lib.book b
  | .books none => some "null"
  | .books (some []) => some "[]"
  | .books (some (b :: l)) => lib.books (b :: l)
  | .events none => some "null"
  | .events (some []) => some "[]"
  | .events (some (e :: l)) => lib.events (e :: l)

/-! ## `controller.go` -/

/-- Go interface `Databaser` over a data layer with states `σ`: every method
takes the state and returns its results and the new state. -/
structure Databaser (σ : Type) where
  AddAuthor : Author → σ → Int × Option GoError × σ
  GetAuthor : Int → σ → Option Author × Option GoError × σ
  UpdateAuthor : Author → σ → Option GoError × σ
  AllAuthors : σ → Option (List Author) × Option GoError × σ
  DeleteAuthor : Int → σ → Option GoError × σ
  AddBook : Int → Book → σ → Int × Option GoError × σ
  GetBook : Int → Int → σ → Option Book × Option GoError × σ
  UpdateBook : Int → Book → σ → Option GoError × σ
  AllBooks : σ → Option (List Book) × Option GoError × σ
  DeleteBook : Int → Int → σ → Option GoError × σ
  QueryEvents : List Filter → σ → Option (List Event) × Option GoError × σ

/-- `*AuditDB` as a `Databaser`. -/
def AuditDB.Databaser (adb : AuditDB) : Databaser DB :=
  { AddAuthor := Krud.AddAuthor adb
    GetAuthor := Krud.GetAuthor adb
    UpdateAuthor := Krud.UpdateAuthor adb
    AllAuthors := Krud.AllAuthors adb
    DeleteAuthor := Krud.DeleteAuthor adb
    AddBook := Krud.AddBook adb
    GetBook := Krud.GetBook adb
    UpdateBook := Krud.UpdateBook adb
    AllBooks := Krud.AllBooks adb
    DeleteBook := Krud.DeleteBook adb
    QueryEvents := Krud.QueryEvents adb }

/-- A call the controller makes on its collaborators: `Dial` of the `Dialer` or
a method of the `Databaser`, with the arguments. -/
inductive DbCall where
  | dial (user : String)
  | addAuthor (author : Author)
  | getAuthor (id : Int)
  | updateAuthor (author : Author)
  | allAuthors
  | deleteAuthor (id : Int)
  | addBook (author : Int) (book : Book)
  | getBook (authorID bookID : Int)
  | updateBook (authorID : Int) (book : Book)
  | allBooks
  | deleteBook (authorID bookID : Int)
  | queryEvents (filters : List Filter)

/-- What a handler acts on besides the response: the state of the data layer,
the calls made on the collaborators so far, in order, and whether the handler
was ended by a run-time panic. -/
structure World (σ : Type) where
  st : σ
  calls : List DbCall
  panicked : Bool

/-- The world after the call `c` that left the data layer in state `st`. -/
def World.did {σ : Type} (world : World σ) (c : DbCall) (st : σ) : World σ :=
  { world with st := st, calls := world.calls ++ [c] }

/-- The parts of `*http.Request` the handlers read: `r.Header.Get`, the route
variables `mux.Vars(r)`, the body, and the value stored in the context under
`contextKrudDatabaser` (`none` when there is none or the assertion to
`Databaser` fails). -/
structure Request (σ : Type) where
  header : String → String
  vars : List (String × String)
  body : String
  db : Option (Databaser σ)

/-- Go `http.Handler`. -/
abbrev Handler (σ : Type) := ResponseWriter → Request σ → World σ → ResponseWriter × World σ

/-- Go `Controller`: the `Dialer`. The logger is left out. -/
structure Controller (σ : Type) where
  dial : String → σ → Option (Databaser σ) × Option GoError × σ

/-- Go `AuthMiddleware`. -/
def Controller.AuthMiddleware {σ : Type} (api : Controller σ) (next : Handler σ) : Handler σ :=
  fun w r world =>
    let user := r.header "user"
    match api.dial user world.st with
    | (_, some _, st1) =>
      (http.Error w "specify approved user in header" 401, world.did (.dial user) st1)
    | (db, none, st1) =>
      next w { r with db := db } (world.did (.dial user) st1)

/-- Go `WriteJsonError`. -/
def WriteJsonError (lib : Lib) (w : ResponseWriter) (cause : GoError) (code : Nat) :
    ResponseWriter :=
  ((w.WriteHeader code).Set "Content-Type" "application/json").Write
    (lib.errorObject cause.Error ++ "\n")

/-- Go `WriteJson`: nothing is written to the body when the encoder fails. -/
def WriteJson (lib : Lib) (w : ResponseWriter) (item : Item) (code : Nat) : ResponseWriter :=
  let w1 := (w.WriteHeader code).Set "Content-Type" "application/json"
  match lib.encode item with
  | some text => w1.Write (text ++ "\n")
  | none => w1

/-- Go `GetIntFromRequest`. -/
def GetIntFromRequest {σ : Type} (r : Request σ) (key : String) : Int × Option GoError :=
  match r.vars.lookup key with
  | none => (0, some (.new ("handler did not populate: " ++ key)))
  | some id => strconv.Atoi id

/-- Go `Controller.ReadAuthor`. -/
def Controller.ReadAuthor {σ : Type} (lib : Lib) : Handler σ := fun w r world =>
  match r.db with
  | none => (WriteJson lib w (.error (.new "internal error")) 500, world)
  | some db =>
    if (r.vars.lookup "authorID").isSome then
      match GetIntFromRequest r "authorID" with
      | (_, some err) => (WriteJsonError lib w err 500, world)
      | (id, none) =>
        match db.GetAuthor id world.st with
        | (_, some err, st1) =>
          if errorsIs err ErrDoesNotExist then
            (WriteJsonError lib w err 404, world.did (.getAuthor id) st1)
          else (WriteJsonError lib w err 500, world.did (.getAuthor id) st1)
        | (author, none, st1) =>
          (WriteJson lib w (.author author) 200, world.did (.getAuthor id) st1)
    else
      match db.AllAuthors world.st with
      | (_, some err, st1) => (WriteJsonError lib w err 500, world.did .allAuthors st1)
      | (authors, none, st1) =>
        let authors1 := if authors.isNone then some [] else authors
        (WriteJson lib w (.authors authors1) 200, world.did .allAuthors st1)

/-- Go `Controller.UpdateAuthor`. A nil `author` next to a nil error makes the
handler panic at the first use of the pointer. -/
def Controller.UpdateAuthor {σ : Type} (lib : Lib) : Handler σ := fun w r world =>
  match GetIntFromRequest r "authorID" with
  | (_, some err) => (WriteJsonError lib w err 500, world)
  | (id, none) =>
    match r.db with
    | none => (WriteJson lib w (.error (.new "internal error")) 500, world)
    | some db =>
      match db.GetAuthor id world.st with
      | (_, some err, st1) =>
        if errorsIs err ErrDoesNotExist then
          (WriteJsonError lib w err 404, world.did (.getAuthor id) st1)
        else (WriteJsonError lib w err 500, world.did (.getAuthor id) st1)
      | (author, none, st1) =>
        let world1 := world.did (.getAuthor id) st1
        match jsonDecode lib.decodeChanges r.body with
        | .error err => (WriteJsonError lib w (Errorf "json decode body: " err) 400, world1)
        | .ok (name, dateOfBirth) =>
          match author with
          | none => (w, { world1 with panicked := true })
          | some a =>
            let a1 : Author := if name ≠ "" then { a with Name := name } else a
            let a2 : Author :=
              if !dateOfBirth.IsZero then { a1 with DateOfBirth := dateOfBirth } else a1
            match a2.Validate lib.IsLetter with
            | some err => (WriteJsonError lib w err 400, world1)
            | none =>
              match db.UpdateAuthor a2 world1.st with
              | (some err, st2) =>
                if errorsIs err ErrDoesNotExist then
                  (WriteJsonError lib w err 404, world1.did (.updateAuthor a2) st2)
                else (WriteJson lib w (.error err) 500, world1.did (.updateAuthor a2) st2)
              | (none, st2) =>
                (WriteJson lib w (.author (some a2)) 200, world1.did (.updateAuthor a2) st2)

/-- Go `Controller.ReadBook`. The branch for a failed `authorID` writes the
error and has no `return`, so the handler goes on with the value `Atoi` gave
back. -/
def Controller.ReadBook {σ : Type} (lib : Lib) : Handler σ := fun w r world =>
  match r.db with
  | none => (WriteJson lib w (.error (.new "internal error")) 500, world)
  | some db =>
    match GetIntFromRequest r "authorID" with
    | (authorID, err) =>
      let w1 : ResponseWriter :=
        match err with
        | some e => WriteJsonError lib w e 500
        | none => w
      if (r.vars.lookup "bookID").isSome then
        match GetIntFromRequest r "bookID" with
        | (_, some err) => (WriteJsonError lib w1 err 500, world)
        | (bookID, none) =>
          match db.GetBook authorID bookID world.st with
          | (_, some err, st1) =>
            if errorsIs err ErrDoesNotExist then
              (WriteJsonError lib w1 err 404, world.did (.getBook authorID bookID) st1)
            else (WriteJsonError lib w1 err 500, world.did (.getBook authorID bookID) st1)
          | (book, none, st1) =>
            (WriteJson lib w1 (.book book) 200, world.did (.getBook authorID bookID) st1)
      else
        match db.AllBooks world.st with
        | (_, some err, st1) => (WriteJsonError lib w1 err 500, world.did .allBooks st1)
        | (books, none, st1) =>
          let books1 := if books.isNone then some [] else books
          (WriteJson lib w1 (.books books1) 200, world.did .allBooks st1)

/-- Go `Controller.UpdateBook`. -/
def Controller.UpdateBook {σ : Type} : Handler σ := fun w _ world =>
  (w.WriteHeader 503, world)

/-- The filters `Events` reads from the request body: none for an absent body,
else `EventsBefore` and then `EventsAfter` for the instants that are not zero;
an error for a body that does not decode. -/
def Controller.Events.filters (lib : Lib) (body : String) : Except GoError (List Filter) :=
  match jsonDecode lib.decodeQueries body with
  | .error err => if err = EOF then .ok [] else .error err
  | .ok (before, after) =>
    .ok ((if !before.IsZero then [EventsBefore before] else []) ++
      (if !after.IsZero then [EventsAfter after] else []))

/-- Go `Controller.Events`. The branch for a failed `QueryEvents` writes the
error and has no `return`. -/
def Controller.Events {σ : Type} (lib : Lib) : Handler σ := fun w r world =>
  match r.db with
  | none => (WriteJson lib w (.error (.new "internal error")) 500, world)
  | some db =>
    match Controller.Events.filters lib r.body with
    | .error err => (WriteJsonError lib w err 400, world)
    | .ok filters =>
      match db.QueryEvents filters world.st with
      | (events, err, st1) =>
        let w1 : ResponseWriter :=
          match err with
          | some e => WriteJsonError lib w e 500
          | none => w
        (WriteJson lib w1 (.events events) 200, world.did (.queryEvents filters) st1)

/-! ## `cmd/main.go` -/

/-- The `dial` closure of `main`: `NewAuditDB` on the one `*sql.DB`. -/
def dial (user : String) (db : DB) : Option (Databaser DB) × Option GoError × DB :=
  match NewAuditDB db user with
  | (adb, err, db1) => (adb.map AuditDB.Databaser, err, db1)

/-- A library stand-in for the examples: the letters are the ASCII letters, the
encodings of records and of lists that hold rows are short placeholders, and
the decoders know one request body each. -/
def sampleLib : Lib :=
  { IsLetter := Char.isAlpha
    errorObject := fun msg => "\x7b\n    \"error\": \"" ++ msg ++ "\"\n\x7d"
    errorValue := fun _ => some "\x7b\x7d"
    author := fun a => some ("author " ++ a.Name)
    authors := fun l => some ("authors " ++ toString l.length)
    book := fun b => some ("book " ++ b.Title)
    books := fun l => some ("books " ++ toString l.length)
    events := fun l => some ("events " ++ toString l.length)
    decodeChanges := fun body =>
      if body = "\x7b\"name\": \"V. Woolf\"\x7d" then .ok ("V. Woolf", ⟨0⟩)
      else if body = "\x7b\"name\": \"Woolf 2\"\x7d" then .ok ("Woolf 2", ⟨0⟩)
      else .error (.new "unexpected end of JSON input")
    decodeQueries := fun body =>
      if body = "\x7b\"after\": \"1970-01-01T00:00:15Z\"\x7d" then .ok (⟨-62135596800, 0⟩, ⟨15, 0⟩)
      else .error (.new "unexpected end of JSON input") }

/-- A request with the given `user` header, route variables and body, and no
`Databaser` in its context. -/
def sampleRequest (user : String) (vars : List (String × String)) (body : String) : Request DB :=
  { header := fun key => if key = "user" then user else "", vars := vars, body := body, db := none }

/-- A request like `sampleRequest` whose context carries the handle of `bill`. -/
def billRequest (vars : List (String × String)) (body : String) : Request DB :=
  { sampleRequest "bill" vars body with db := some sampleADB.Databaser }

/-- The world at the start of a request: the data layer in state `db` and no
call made. -/
def sampleWorld (db : DB) : World DB :=
  { st := db, calls := [], panicked := false }

/-! ## Storage steps: what they leave alone -/

theorem DB.Quiet.refl (d : DB) : d.Quiet d := ⟨0, by cases d; simp⟩

theorem DB.Quiet.seq {d d1 d2 : DB} (h1 : d.Quiet d1) (h2 : d1.Quiet d2) : d.Quiet d2 := by
  obtain ⟨k1, rfl⟩ := h1
  obtain ⟨k2, rfl⟩ := h2
  exact ⟨k1 + k2, by simp [Nat.add_comm]⟩

theorem DB.Quiet.txStep {d d1 : DB} (h : d.Quiet d1) : d.TxStep d1 [] := by
  obtain ⟨k, rfl⟩ := h
  exact ⟨k, d.authorSeq, d.bookSeq, by simp⟩

theorem DB.TxStep.append {d d1 d2 : DB} {ws ws1 : List Write} (h1 : d.TxStep d1 ws) (h2 : d1.TxStep d2 ws1) :
    d.TxStep d2 (ws ++ ws1) := by
  obtain ⟨k1, a1, b1, rfl⟩ := h1
  obtain ⟨k2, a2, b2, rfl⟩ := h2
  exact ⟨k1 + k2, a2, b2, by simp [Nat.add_comm]⟩

theorem DB.NoFaults.drop {d : DB} (h : d.NoFaults) (k : Nat) (d1 : DB) (hd : d1.faults = d.faults.drop k) :
    d1.NoFaults := by
  intro f hf
  rw [hd] at hf
  exact h f (List.mem_of_mem_drop hf)

theorem DB.Quiet.keepsNoFaults {d d1 : DB} (h : d.Quiet d1) (hn : d.NoFaults) : d1.NoFaults := by
  obtain ⟨k, rfl⟩ := h
  exact hn.drop k _ rfl

theorem DB.TxStep.stillNoFaults {d d1 : DB} {ws : List Write} (h : d.TxStep d1 ws) (hn : d.NoFaults) :
    d1.NoFaults := by
  obtain ⟨k, a, b, rfl⟩ := h
  exact hn.drop k _ rfl

theorem DB.Quiet.sameView {d d1 : DB} (h : d.Quiet d1) : d1.view = d.view := by
  obtain ⟨k, rfl⟩ := h
  rfl

theorem DB.TxStep.newView {d d1 : DB} {ws : List Write} (h : d.TxStep d1 ws) :
    d1.view = ws.foldl (fun s w => w.apply s) d.view := by
  obtain ⟨k, a, b, rfl⟩ := h
  simp [DB.view]

theorem fault_spec {d d1 : DB} {r : Option GoError} (h : d.fault = (r, d1)) :
    d.Quiet d1 ∧ (d.NoFaults → r = none) := by
  unfold DB.fault at h
  cases hf : d.faults with
  | nil =>
    rw [hf] at h
    simp only [Prod.mk.injEq] at h
    obtain ⟨rfl, rfl⟩ := h
    exact ⟨DB.Quiet.refl d, fun _ => rfl⟩
  | cons f rest =>
    rw [hf] at h
    simp only [Prod.mk.injEq] at h
    obtain ⟨rfl, rfl⟩ := h
    exact ⟨⟨1, by simp [hf]⟩, fun hn => hn f (by simp [hf])⟩

theorem BeginTx_spec {d d1 : DB} {r : Option GoError} (h : BeginTx d = (r, d1)) :
    d1.committed = d.committed ∧ d1.calls = d.calls ++ [TxCall.begin] ∧ d1.handle = d.handle ∧
    (∃ k, d1.faults = d.faults.drop k) ∧
    (r = none → d1.txDone = false ∧ d1.pending = [] ∧ d1.txStart = d.clock + 1 ∧
      d1.clock = d.clock + 1) ∧
    (d.NoFaults → r = none) := by
  unfold BeginTx at h
  split at h
  · next e d0 hf =>
    obtain ⟨⟨k, rfl⟩, hn⟩ := fault_spec hf
    simp only [Prod.mk.injEq] at h
    obtain ⟨rfl, rfl⟩ := h
    refine ⟨rfl, rfl, rfl, ⟨k, rfl⟩, by simp, fun hd => ?_⟩
    exact absurd (hn hd) (by simp)
  · next d0 hf =>
    obtain ⟨⟨k, rfl⟩, _⟩ := fault_spec hf
    simp only [Prod.mk.injEq] at h
    obtain ⟨rfl, rfl⟩ := h
    exact ⟨rfl, rfl, rfl, ⟨k, rfl⟩, fun _ => ⟨rfl, rfl, rfl, rfl⟩, fun _ => rfl⟩

theorem Commit_spec {d d1 : DB} {r : Option GoError} (h : Commit d = (r, d1)) :
    d1.calls = d.calls ++ [TxCall.commit] ∧ d1.handle = d.handle ∧
    (∃ k, d1.faults = d.faults.drop k) ∧
    (d.txDone = true → r = some ErrTxDone ∧ d1.committed = d.committed) ∧
    (d.txDone = false → d1.txDone = true) ∧
    (r ≠ none → d1.committed = d.committed) ∧
    (r = none → d.txDone = false ∧ d1.committed = d.view ∧ d1.txDone = true) ∧
    (d.NoFaults → d.txDone = false → r = none) := by
  unfold Commit at h
  simp only at h
  split at h
  · next ht =>
    simp only [Prod.mk.injEq] at h
    obtain ⟨rfl, rfl⟩ := h
    refine ⟨rfl, rfl, ⟨0, by simp⟩, fun _ => ⟨rfl, rfl⟩, by simp [ht], fun _ => rfl, by simp, by simp [ht]⟩
  · next ht =>
    simp only [Bool.not_eq_true] at ht
    split at h
    · next e d0 hf =>
      obtain ⟨⟨k, rfl⟩, hn⟩ := fault_spec hf
      simp only [Prod.mk.injEq] at h
      obtain ⟨rfl, rfl⟩ := h
      refine ⟨rfl, rfl, ⟨k, rfl⟩, by simp [ht], fun _ => rfl, fun _ => rfl, by simp, fun hd _ => ?_⟩
      exact absurd (hn hd) (by simp)
    · next d0 hf =>
      obtain ⟨⟨k, rfl⟩, _⟩ := fault_spec hf
      simp only [Prod.mk.injEq] at h
      obtain ⟨rfl, rfl⟩ := h
      exact ⟨rfl, rfl, ⟨k, rfl⟩, by simp [ht], fun _ => rfl, by simp, fun _ => ⟨ht, rfl, rfl⟩,
        fun _ _ => rfl⟩

theorem Rollback_spec {d d1 : DB} {r : Option GoError} (h : Rollback d = (r, d1)) :
    d1.calls = d.calls ++ [TxCall.rollback] ∧ d1.handle = d.handle ∧
    (∃ k, d1.faults = d.faults.drop k) ∧
    d1.committed = d.committed ∧
    (d.txDone = true → r = some ErrTxDone) ∧
    (d.NoFaults → d.txDone = false → r = none) := by
  unfold Rollback at h
  simp only at h
  split at h
  · next ht =>
    simp only [Prod.mk.injEq] at h
    obtain ⟨rfl, rfl⟩ := h
    exact ⟨rfl, rfl, ⟨0, by simp⟩, rfl, fun _ => rfl, by simp [ht]⟩
  · next ht =>
    simp only [Bool.not_eq_true] at ht
    split at h
    · next e d0 hf =>
      obtain ⟨⟨k, rfl⟩, hn⟩ := fault_spec hf
      simp only [Prod.mk.injEq] at h
      obtain ⟨rfl, rfl⟩ := h
      exact ⟨rfl, rfl, ⟨k, rfl⟩, rfl, by simp [ht], fun hd _ => absurd (hn hd) (by simp)⟩
    · next d0 hf =>
      obtain ⟨⟨k, rfl⟩, _⟩ := fault_spec hf
      simp only [Prod.mk.injEq] at h
      obtain ⟨rfl, rfl⟩ := h
      exact ⟨rfl, rfl, ⟨k, rfl⟩, rfl, by simp [ht], fun _ _ => rfl⟩

theorem txExec_spec {w : Write} {d d1 : DB} {r : Option GoError} {n : Int}
    (h : txExec w d = (r, n, d1)) :
    (r ≠ none → d.Quiet d1) ∧
    (r = none → d.TxStep d1 [w] ∧ n = w.affected d.view ∧ d.txDone = false) ∧
    (d.NoFaults → d.txDone = false → r = none) := by
  unfold txExec at h
  split at h
  · next ht =>
    simp only [Prod.mk.injEq] at h
    obtain ⟨rfl, rfl, rfl⟩ := h
    exact ⟨fun _ => DB.Quiet.refl _, by simp, by simp [ht]⟩
  · next ht =>
    simp only [Bool.not_eq_true] at ht
    split at h
    · next e d0 hf =>
      obtain ⟨hq, hn⟩ := fault_spec hf
      simp only [Prod.mk.injEq] at h
      obtain ⟨rfl, rfl, rfl⟩ := h
      exact ⟨fun _ => hq, by simp, fun hd _ => absurd (hn hd) (by simp)⟩
    · next d0 hf =>
      obtain ⟨⟨k, rfl⟩, _⟩ := fault_spec hf
      simp only [Prod.mk.injEq] at h
      obtain ⟨rfl, rfl, rfl⟩ := h
      exact ⟨by simp, fun _ => ⟨⟨k, d.authorSeq, d.bookSeq, rfl⟩, rfl, ht⟩, fun _ _ => rfl⟩

theorem txInsertEvent_spec {user objType op : String} {id : Option Int} {d d1 : DB}
    {r : Option GoError} {n : Int} (h : txInsertEvent user objType id op d = (r, n, d1)) :
    (r ≠ none → d.Quiet d1) ∧
    (r = none → d.TxStep d1 [.insertEvent ⟨⟨d.txStart, 0⟩, user, op, objType, id⟩] ∧
      d.txDone = false) ∧
    (d.NoFaults → d.txDone = false → r = none) := by
  unfold txInsertEvent at h
  obtain ⟨h1, h2, h3⟩ := txExec_spec h
  exact ⟨h1, fun hr => ⟨(h2 hr).1, (h2 hr).2.2⟩, h3⟩

theorem RowsAffected_spec {n m : Int} {d d1 : DB} {r : Option GoError}
    (h : RowsAffected n d = (r, m, d1)) :
    d.Quiet d1 ∧ (r = none → m = n) ∧ (d.NoFaults → r = none) := by
  unfold RowsAffected at h
  split at h
  · next e d0 hf =>
    obtain ⟨hq, hn⟩ := fault_spec hf
    simp only [Prod.mk.injEq] at h
    obtain ⟨rfl, rfl, rfl⟩ := h
    exact ⟨hq, by simp, fun hd => absurd (hn hd) (by simp)⟩
  · next d0 hf =>
    obtain ⟨hq, _⟩ := fault_spec hf
    simp only [Prod.mk.injEq] at h
    obtain ⟨rfl, rfl, rfl⟩ := h
    exact ⟨hq, fun _ => rfl, fun _ => rfl⟩

theorem txInsertAuthor_spec {name : String} {dob : Date} {d d1 : DB} {row : Row Int}
    (h : txInsertAuthor name dob d = (row, d1)) :
    (row.err ≠ none → d.TxStep d1 []) ∧
    (row.err = none → ∃ id, row.first = some id ∧ d.TxStep d1 [.insertAuthor ⟨id, name, dob⟩] ∧
      (∀ r ∈ d.view.authors, r.ID ≠ id) ∧ d.txDone = false) := by
  unfold txInsertAuthor at h
  split at h
  · next ht =>
    simp only [Prod.mk.injEq] at h
    obtain ⟨rfl, rfl⟩ := h
    exact ⟨fun _ => (DB.Quiet.refl _).txStep, by simp⟩
  · next ht =>
    simp only [Bool.not_eq_true] at ht
    split at h
    · next e d0 hf =>
      obtain ⟨hq, _⟩ := fault_spec hf
      simp only [Prod.mk.injEq] at h
      obtain ⟨rfl, rfl⟩ := h
      exact ⟨fun _ => hq.txStep, by simp⟩
    · next d0 hf =>
      obtain ⟨⟨k, rfl⟩, _⟩ := fault_spec hf
      simp only at h
      split at h
      · simp only [Prod.mk.injEq] at h
        obtain ⟨rfl, rfl⟩ := h
        exact ⟨fun _ => ⟨k, d.authorSeq + 1, d.bookSeq, by simp⟩, by simp⟩
      · next hu =>
        simp only [Prod.mk.injEq] at h
        obtain ⟨rfl, rfl⟩ := h
        refine ⟨by simp, fun _ => ⟨d.authorSeq + 1, rfl, ⟨k, d.authorSeq + 1, d.bookSeq, rfl⟩, ?_, ht⟩⟩
        intro r hr hid
        apply hu
        simp only [List.any_eq_true, decide_eq_true_eq]
        exact ⟨r, hr, hid⟩

theorem txInsertBook_spec {author : Int} {title : String} {published : Date} {d d1 : DB}
    {row : Row Int} (h : txInsertBook author title published d = (row, d1)) :
    (row.err ≠ none → d.TxStep d1 []) ∧
    (row.err = none → ∃ id, row.first = some id ∧
      d.TxStep d1 [.insertBook ⟨author, ⟨id, title, published⟩⟩] ∧
      (∀ r ∈ d.view.books, r.book.ID ≠ id) ∧ d.txDone = false) := by
  unfold txInsertBook at h
  split at h
  · next ht =>
    simp only [Prod.mk.injEq] at h
    obtain ⟨rfl, rfl⟩ := h
    exact ⟨fun _ => (DB.Quiet.refl _).txStep, by simp⟩
  · next ht =>
    simp only [Bool.not_eq_true] at ht
    split at h
    · next e d0 hf =>
      obtain ⟨hq, _⟩ := fault_spec hf
      simp only [Prod.mk.injEq] at h
      obtain ⟨rfl, rfl⟩ := h
      exact ⟨fun _ => hq.txStep, by simp⟩
    · next d0 hf =>
      obtain ⟨⟨k, rfl⟩, _⟩ := fault_spec hf
      simp only at h
      split at h
      · simp only [Prod.mk.injEq] at h
        obtain ⟨rfl, rfl⟩ := h
        exact ⟨fun _ => ⟨k, d.authorSeq, d.bookSeq + 1, by simp⟩, by simp⟩
      · next hu =>
        simp only [Prod.mk.injEq] at h
        obtain ⟨rfl, rfl⟩ := h
        refine ⟨by simp, fun _ => ⟨d.bookSeq + 1, rfl, ⟨k, d.authorSeq, d.bookSeq + 1, rfl⟩, ?_, ht⟩⟩
        intro r hr hid
        apply hu
        simp only [List.any_eq_true, decide_eq_true_eq]
        exact ⟨r, hr, hid⟩

theorem Row.Scan_spec {α : Type} {row : Row α} {d d1 : DB} {r : Except GoError α}
    (h : row.Scan d = (r, d1)) :
    d.Quiet d1 ∧
    (∀ v, r = .ok v → row.err = none ∧ row.first = some v) ∧
    (d.NoFaults → row.err = none → ∀ v, row.first = some v → r = .ok v) ∧
    (d.NoFaults → row.err = none → row.first = none → r = .error ErrNoRows) := by
  unfold Row.Scan at h
  split at h
  · next e he =>
    simp only [Prod.mk.injEq] at h
    obtain ⟨rfl, rfl⟩ := h
    exact ⟨DB.Quiet.refl _, by simp, by simp [he], by simp [he]⟩
  · next he =>
    split at h
    · next e d0 hf =>
      obtain ⟨hq, hn⟩ := fault_spec hf
      simp only [Prod.mk.injEq] at h
      obtain ⟨rfl, rfl⟩ := h
      exact ⟨hq, by simp, fun hd => absurd (hn hd) (by simp), fun hd => absurd (hn hd) (by simp)⟩
    · next d0 hf =>
      obtain ⟨hq, _⟩ := fault_spec hf
      split at h
      · next hv =>
        simp only [Prod.mk.injEq] at h
        obtain ⟨rfl, rfl⟩ := h
        exact ⟨hq, by simp, by simp [hv], fun _ _ _ => rfl⟩
      · next v hv =>
        simp only [Prod.mk.injEq] at h
        obtain ⟨rfl, rfl⟩ := h
        refine ⟨hq, ?_, ?_, by simp [hv]⟩
        · intro v1 h1
          simp only [Except.ok.injEq] at h1
          exact ⟨he, by rw [hv, h1]⟩
        · intro _ _ v1 h1
          rw [hv] at h1
          simp only [Option.some.injEq] at h1
          rw [h1]

theorem txQueryRow_spec {α : Type} {sel : Store → Option α} {d d1 : DB} {row : Row α}
    (h : txQueryRow sel d = (row, d1)) :
    d.Quiet d1 ∧ (row.err = none → row.first = sel d.view) ∧
    (d.NoFaults → d.txDone = false → row.err = none) := by
  unfold txQueryRow at h
  split at h
  · next ht =>
    simp only [Prod.mk.injEq] at h
    obtain ⟨rfl, rfl⟩ := h
    exact ⟨DB.Quiet.refl _, by simp, by simp [ht]⟩
  · next ht =>
    split at h
    · next e d0 hf =>
      obtain ⟨hq, hn⟩ := fault_spec hf
      simp only [Prod.mk.injEq] at h
      obtain ⟨rfl, rfl⟩ := h
      exact ⟨hq, by simp, fun hd _ => absurd (hn hd) (by simp)⟩
    · next d0 hf =>
      obtain ⟨hq, _⟩ := fault_spec hf
      simp only [Prod.mk.injEq] at h
      obtain ⟨rfl, rfl⟩ := h
      exact ⟨hq, fun _ => by rw [hq.sameView], fun _ _ => rfl⟩

theorem txQuery_spec {α : Type} {sel : Store → List α} {d d1 : DB} {r : Option GoError}
    {rows : List α} (h : txQuery sel d = (r, rows, d1)) :
    d.Quiet d1 ∧ (r = none → rows = sel d.view) ∧ (d.NoFaults → d.txDone = false → r = none) := by
  unfold txQuery at h
  split at h
  · next ht =>
    simp only [Prod.mk.injEq] at h
    obtain ⟨rfl, rfl, rfl⟩ := h
    exact ⟨DB.Quiet.refl _, by simp, by simp [ht]⟩
  · next ht =>
    split at h
    · next e d0 hf =>
      obtain ⟨hq, hn⟩ := fault_spec hf
      simp only [Prod.mk.injEq] at h
      obtain ⟨rfl, rfl, rfl⟩ := h
      exact ⟨hq, by simp, fun hd _ => absurd (hn hd) (by simp)⟩
    · next d0 hf =>
      obtain ⟨hq, _⟩ := fault_spec hf
      simp only [Prod.mk.injEq] at h
      obtain ⟨rfl, rfl, rfl⟩ := h
      exact ⟨hq, fun _ => by rw [hq.sameView], fun _ _ => rfl⟩

theorem dbQuery_spec {α : Type} {sel : Store → List α} {d d1 : DB} {r : Option GoError}
    {rows : List α} (h : dbQuery sel d = (r, rows, d1)) :
    d.Quiet d1 ∧ (r = none → rows = sel d.committed) ∧ (d.NoFaults → r = none) := by
  unfold dbQuery at h
  split at h
  · next e d0 hf =>
    obtain ⟨hq, hn⟩ := fault_spec hf
    simp only [Prod.mk.injEq] at h
    obtain ⟨rfl, rfl, rfl⟩ := h
    exact ⟨hq, by simp, fun hd => absurd (hn hd) (by simp)⟩
  · next d0 hf =>
    obtain ⟨⟨k, rfl⟩, _⟩ := fault_spec hf
    simp only [Prod.mk.injEq] at h
    obtain ⟨rfl, rfl, rfl⟩ := h
    exact ⟨⟨k, rfl⟩, fun _ => rfl, fun _ => rfl⟩

theorem dbExec_spec {w : Int → Write} {d d1 : DB} {r : Option GoError}
    (h : dbExec w d = (r, d1)) :
    (r ≠ none → d.Quiet d1) ∧
    (r = none → ∃ k, d1 = { d with faults := d.faults.drop k, clock := d.clock + 1,
                                   committed := (w (d.clock + 1)).apply d.committed }) ∧
    (d.NoFaults → r = none) := by
  unfold dbExec at h
  split at h
  · next e d0 hf =>
    obtain ⟨hq, hn⟩ := fault_spec hf
    simp only [Prod.mk.injEq] at h
    obtain ⟨rfl, rfl⟩ := h
    exact ⟨fun _ => hq, by simp, fun hd => absurd (hn hd) (by simp)⟩
  · next d0 hf =>
    obtain ⟨⟨k, rfl⟩, _⟩ := fault_spec hf
    simp only [Prod.mk.injEq] at h
    obtain ⟨rfl, rfl⟩ := h
    exact ⟨by simp, fun _ => ⟨k, rfl⟩, fun _ => rfl⟩

theorem scanAll_spec {α : Type} (rest : List α) :
    ∀ (acc : Option (List α)) (d d1 : DB) (sc : Scanned α), scanAll rest acc d = (sc, d1) →
    d.Quiet d1 ∧
    (sc.scanErr = none → sc.rowsErr = none →
      sc.got = rest.foldl goAppend acc) ∧
    (d.NoFaults → sc.scanErr = none ∧ sc.rowsErr = none) := by
  induction rest with
  | nil =>
    intro acc d d1 sc h
    unfold scanAll at h
    split at h
    · next e d0 hf =>
      obtain ⟨hq, hn⟩ := fault_spec hf
      simp only [Prod.mk.injEq] at h
      obtain ⟨rfl, rfl⟩ := h
      exact ⟨hq, by simp, fun hd => absurd (hn hd) (by simp)⟩
    · next d0 hf =>
      obtain ⟨hq, _⟩ := fault_spec hf
      simp only [Prod.mk.injEq] at h
      obtain ⟨rfl, rfl⟩ := h
      exact ⟨hq, by simp, fun _ => ⟨rfl, rfl⟩⟩
  | cons x tl ih =>
    intro acc d d1 sc h
    unfold scanAll at h
    split at h
    · next e d0 hf =>
      obtain ⟨hq, hn⟩ := fault_spec hf
      simp only [Prod.mk.injEq] at h
      obtain ⟨rfl, rfl⟩ := h
      exact ⟨hq, by simp, fun hd => absurd (hn hd) (by simp)⟩
    · next d0 hf =>
      obtain ⟨hq, _⟩ := fault_spec hf
      simp only at h
      split at h
      · next e d2 hf2 =>
        obtain ⟨hq2, hn2⟩ := fault_spec hf2
        simp only [Prod.mk.injEq] at h
        obtain ⟨rfl, rfl⟩ := h
        exact ⟨hq.seq hq2, by simp, fun hd => absurd (hn2 (hq.keepsNoFaults hd)) (by simp)⟩
      · next d2 hf2 =>
        obtain ⟨hq2, _⟩ := fault_spec hf2
        obtain ⟨h1, h2, h3⟩ := ih _ _ _ _ h
        refine ⟨(hq.seq hq2).seq h1, ?_, fun hd => h3 (hq2.keepsNoFaults (hq.keepsNoFaults hd))⟩
        intro hs hr
        rw [h2 hs hr]
        rfl

theorem authorize.loop_spec (user : String) (rest : List String) :
    ∀ (d d1 : DB) (sc : UserScan), authorize.loop user rest d = (sc, d1) →
    d.Quiet d1 ∧ (sc.ok = true → user ∈ rest) ∧
    (sc.scanErr = none → sc.rowsErr = none → user ∈ rest → sc.ok = true) ∧
    (d.NoFaults → sc.scanErr = none ∧ sc.rowsErr = none) := by
  induction rest with
  | nil =>
    intro d d1 sc h
    unfold authorize.loop at h
    split at h
    · next e d0 hf =>
      obtain ⟨hq, hn⟩ := fault_spec hf
      simp only [Prod.mk.injEq] at h
      obtain ⟨rfl, rfl⟩ := h
      exact ⟨hq, by simp, by simp, fun hd => absurd (hn hd) (by simp)⟩
    · next d0 hf =>
      obtain ⟨hq, _⟩ := fault_spec hf
      simp only [Prod.mk.injEq] at h
      obtain ⟨rfl, rfl⟩ := h
      exact ⟨hq, by simp, by simp, fun _ => ⟨rfl, rfl⟩⟩
  | cons x tl ih =>
    intro d d1 sc h
    unfold authorize.loop at h
    split at h
    · next e d0 hf =>
      obtain ⟨hq, hn⟩ := fault_spec hf
      simp only [Prod.mk.injEq] at h
      obtain ⟨rfl, rfl⟩ := h
      exact ⟨hq, by simp, by simp, fun hd => absurd (hn hd) (by simp)⟩
    · next d0 hf =>
      obtain ⟨hq, _⟩ := fault_spec hf
      simp only at h
      split at h
      · next e d2 hf2 =>
        obtain ⟨hq2, hn2⟩ := fault_spec hf2
        simp only [Prod.mk.injEq] at h
        obtain ⟨rfl, rfl⟩ := h
        exact ⟨hq.seq hq2, by simp, by simp, fun hd => absurd (hn2 (hq.keepsNoFaults hd)) (by simp)⟩
      · next d2 hf2 =>
        obtain ⟨hq2, _⟩ := fault_spec hf2
        split at h
        · next hu =>
          simp only [Prod.mk.injEq] at h
          obtain ⟨rfl, rfl⟩ := h
          exact ⟨hq.seq hq2, by simp [hu], by simp, fun _ => ⟨rfl, rfl⟩⟩
        · next hu =>
          obtain ⟨h1, h2, h3, h4⟩ := ih _ _ _ h
          refine ⟨(hq.seq hq2).seq h1, fun ho => List.mem_cons_of_mem _ (h2 ho), ?_,
            fun hd => h4 (hq2.keepsNoFaults (hq.keepsNoFaults hd))⟩
          intro hs hr hm
          rcases List.mem_cons.1 hm with hm | hm
          · exact absurd hm hu
          · exact h3 hs hr hm

theorem TxStep_txStart {d d1 : DB} {ws : List Write} (h : d.TxStep d1 ws) :
    d1.txStart = d.txStart ∧ d1.txDone = d.txDone ∧ d1.committed = d.committed ∧
    d1.calls = d.calls ∧ d1.handle = d.handle ∧ d1.pending = d.pending ++ ws := by
  obtain ⟨k, a, b, rfl⟩ := h
  exact ⟨rfl, rfl, rfl, rfl, rfl, rfl⟩

theorem wrapInTransaction_cases {σ : Type} {action : σ → DB → Option GoError × σ × DB} {v v' : σ}
    {db db' : DB} {r : Option GoError} (h : wrapInTransaction action v db = (r, v', db')) :
    (∃ e, BeginTx db = (some e, db') ∧ r = some (Errorf "create transaction: " e) ∧ v' = v) ∨
    (∃ d1 d2 err rb, BeginTx db = (none, d1) ∧ action v d1 = (some err, v', d2) ∧
      Rollback d2 = (rb, db') ∧
      r = some (match rb with
        | none => err
        | some rbErr =>
          .wrap ("rollback failed because '" ++ rbErr.Error ++ "' after err: " ++ err.Error) err)) ∨
    (∃ d1 d2, BeginTx db = (none, d1) ∧ action v d1 = (none, v', d2) ∧ Commit d2 = (r, db')) := by
  unfold wrapInTransaction at h
  split at h
  · next err d1 hb =>
    simp only [Prod.mk.injEq] at h
    obtain ⟨rfl, rfl, rfl⟩ := h
    exact Or.inl ⟨err, hb, rfl, rfl⟩
  · next d1 hb =>
    split at h
    · next err v1 d2 ha =>
      split at h
      · next rbErr d3 hr =>
        simp only [Prod.mk.injEq] at h
        obtain ⟨rfl, rfl, rfl⟩ := h
        exact Or.inr (Or.inl ⟨d1, d2, err, some rbErr, hb, ha, hr, rfl⟩)
      · next d3 hr =>
        simp only [Prod.mk.injEq] at h
        obtain ⟨rfl, rfl, rfl⟩ := h
        exact Or.inr (Or.inl ⟨d1, d2, err, none, hb, ha, hr, rfl⟩)
    · next v1 d2 ha =>
      split at h
      next rc d3 hc =>
      simp only [Prod.mk.injEq] at h
      obtain ⟨rfl, rfl, rfl⟩ := h
      exact Or.inr (Or.inr ⟨d1, d2, hb, ha, hc⟩)

/-- The transactional wrapper around a closure that only issues statements on
`tx`: a failure leaves the committed tables alone, a success publishes exactly
the statements of the closure. -/
theorem wrapInTransaction_tx {σ : Type} {action : σ → DB → Option GoError × σ × DB}
    {Q : DB → σ → List Write → Prop}
    {v v' : σ} {db db' : DB} {r : Option GoError}
    (hact : ∀ d r v' d', action v d = (r, v', d') →
      ∃ ws, d.TxStep d' ws ∧ (r = none → Q d v' ws))
    (h : wrapInTransaction action v db = (r, v', db')) :
    (r ≠ none → db'.committed = db.committed) ∧
    (r = none → ∃ d1 ws, BeginTx db = (none, d1) ∧ Q d1 v' ws ∧
      db'.committed = ws.foldl (fun s w => w.apply s) db.committed) ∧
    (∀ d1, BeginTx db = (none, d1) → (action v d1).1 ≠ none → r ≠ none) := by
  rcases wrapInTransaction_cases h with ⟨e, hb, rfl, rfl⟩ | ⟨d1, d2, err, rb, hb, ha, hr, rfl⟩ |
    ⟨d1, d2, hb, ha, hc⟩
  · obtain ⟨h1, -⟩ := BeginTx_spec hb
    exact ⟨fun _ => h1, by simp, fun _ _ _ => by simp⟩
  · obtain ⟨h1, -⟩ := BeginTx_spec hb
    obtain ⟨ws, hs, -⟩ := hact _ _ _ _ ha
    obtain ⟨-, -, -, h2, -⟩ := Rollback_spec hr
    refine ⟨fun _ => ?_, by simp, fun _ _ _ => by simp⟩
    rw [h2, (TxStep_txStart hs).2.2.1, h1]
  · obtain ⟨h1, -, -, -, h3, -⟩ := BeginTx_spec hb
    obtain ⟨ws, hs, hq⟩ := hact _ _ _ _ ha
    obtain ⟨-, -, -, -, -, c1, c2, -⟩ := Commit_spec hc
    refine ⟨fun hr => ?_, fun hr => ⟨d1, ws, hb, hq rfl, ?_⟩, fun d1x hbx hax => ?_⟩
    · rw [c1 hr, (TxStep_txStart hs).2.2.1, h1]
    · rw [(c2 hr).2.1, hs.newView]
      have : d1.view = db.committed := by
        unfold DB.view
        rw [(h3 rfl).2.1, h1]
        rfl
      rw [this]
    · rw [hb] at hbx
      simp only [Prod.mk.injEq, true_and] at hbx
      subst hbx
      rw [ha] at hax
      exact absurd rfl hax

/-- Absent storage failures the wrapper succeeds whenever its closure does. -/
theorem wrapInTransaction_ok {σ : Type} {action : σ → DB → Option GoError × σ × DB}
    {Q : DB → σ → List Write → Prop} {v : σ} {db : DB}
    (hact : ∀ d r v' d', action v d = (r, v', d') →
      ∃ ws, d.TxStep d' ws ∧ (r = none → Q d v' ws))
    (hn : db.NoFaults)
    (hok : ∀ d1, BeginTx db = (none, d1) → d1.NoFaults → (action v d1).1 = none) :
    (wrapInTransaction action v db).1 = none := by
  rcases h : wrapInTransaction action v db with ⟨r, v', db'⟩
  rcases wrapInTransaction_cases h with ⟨e, hb, rfl, rfl⟩ | ⟨d1, d2, err, rb, hb, ha, hr, rfl⟩ |
    ⟨d1, d2, hb, ha, hc⟩
  · obtain ⟨-, -, -, -, -, h1⟩ := BeginTx_spec hb
    exact absurd (h1 hn) (by simp)
  · obtain ⟨-, -, -, ⟨k, hk⟩, -, -⟩ := BeginTx_spec hb
    have := hok d1 hb (hn.drop k d1 hk)
    rw [ha] at this
    exact absurd this (by simp)
  · obtain ⟨-, -, -, ⟨k, hk⟩, h3, -⟩ := BeginTx_spec hb
    obtain ⟨ws, hs, -⟩ := hact _ _ _ _ ha
    obtain ⟨-, -, -, -, -, -, -, c3⟩ := Commit_spec hc
    exact c3 (hs.stillNoFaults (hn.drop k d1 hk)) (by rw [(TxStep_txStart hs).2.1]; exact (h3 rfl).1)

theorem AddAuthor_action_spec {adb : AuditDB} {a : Author} {v v' : Captured Int} {d d' : DB}
    {r : Option GoError} (h : AddAuthor.action adb a v d = (r, v', d')) :
    ∃ ws, d.TxStep d' ws ∧ (r = none →
      (∀ x ∈ d.view.authors, x.ID ≠ v'.out) ∧
      ws = [.insertAuthor ⟨v'.out, a.Name, a.DateOfBirth⟩,
            .insertEvent ⟨⟨d.txStart, 0⟩, adb.user, AUDIT_OP_CREATE, "authors", some v'.out⟩]) := by
  unfold AddAuthor.action at h
  rcases h1 : txInsertAuthor a.Name a.DateOfBirth d with ⟨row, d1⟩
  rw [h1] at h
  obtain ⟨p1, p2⟩ := txInsertAuthor_spec h1
  simp only at h
  split at h
  · next he =>
    simp only [Prod.mk.injEq] at h
    obtain ⟨rfl, rfl, rfl⟩ := h
    exact ⟨[], p1 he, by simp⟩
  · next he =>
    simp only [ne_eq, Decidable.not_not] at he
    obtain ⟨id, hid, hs, hfresh, -⟩ := p2 he
    rcases h2 : row.Scan d1 with ⟨sr, d2⟩
    rw [h2] at h
    obtain ⟨q1, q2, -⟩ := Row.Scan_spec h2
    have hs2 := hs.append q1.txStep
    cases sr with
    | error err =>
      simp only [Prod.mk.injEq] at h
      obtain ⟨rfl, rfl, rfl⟩ := h
      exact ⟨_, hs2, by simp⟩
    | ok id1 =>
      have hid1 : id1 = id := by
        have := (q2 id1 rfl).2
        rw [hid] at this
        exact (Option.some.inj this).symm
      subst hid1
      simp only at h
      rcases h3 : txInsertEvent adb.user "authors" (some id1) AUDIT_OP_CREATE d2 with ⟨r3, n3, d3⟩
      rw [h3] at h
      obtain ⟨e1, e2, -⟩ := txInsertEvent_spec h3
      cases r3 with
      | some err =>
        simp only [Prod.mk.injEq] at h
        obtain ⟨rfl, rfl, rfl⟩ := h
        exact ⟨_, hs2.append (e1 (by simp)).txStep, by simp⟩
      | none =>
        simp only [Prod.mk.injEq] at h
        obtain ⟨rfl, rfl, rfl⟩ := h
        refine ⟨_, hs2.append (e2 rfl).1, fun _ => ⟨hfresh, ?_⟩⟩
        rw [(TxStep_txStart hs2).1]
        rfl

theorem AddBook_action_spec {adb : AuditDB} {author : Int} {book : Book} {v v' : Captured Int} {d d' : DB}
    {r : Option GoError} (h : AddBook.action adb author book v d = (r, v', d')) :
    ∃ ws, d.TxStep d' ws ∧ (r = none →
      (∀ x ∈ d.view.books, x.book.ID ≠ v'.out) ∧
      ws = [.insertBook ⟨author, ⟨v'.out, book.Title, book.Published⟩⟩,
            .insertEvent ⟨⟨d.txStart, 0⟩, adb.user, AUDIT_OP_CREATE, "books", some v'.out⟩]) := by
  unfold AddBook.action at h
  rcases h1 : txInsertBook author book.Title book.Published d with ⟨row, d1⟩
  rw [h1] at h
  obtain ⟨p1, p2⟩ := txInsertBook_spec h1
  simp only at h
  split at h
  · next he =>
    simp only [Prod.mk.injEq] at h
    obtain ⟨rfl, rfl, rfl⟩ := h
    exact ⟨[], p1 he, by simp⟩
  · next he =>
    simp only [ne_eq, Decidable.not_not] at he
    obtain ⟨id, hid, hs, hfresh, -⟩ := p2 he
    rcases h2 : row.Scan d1 with ⟨sr, d2⟩
    rw [h2] at h
    obtain ⟨q1, q2, -⟩ := Row.Scan_spec h2
    have hs2 := hs.append q1.txStep
    cases sr with
    | error err =>
      simp only [Prod.mk.injEq] at h
      obtain ⟨rfl, rfl, rfl⟩ := h
      exact ⟨_, hs2, by simp⟩
    | ok id1 =>
      have hid1 : id1 = id := by
        have := (q2 id1 rfl).2
        rw [hid] at this
        exact (Option.some.inj this).symm
      subst hid1
      simp only at h
      rcases h3 : txInsertEvent adb.user "books" (some id1) AUDIT_OP_CREATE d2 with ⟨r3, n3, d3⟩
      rw [h3] at h
      obtain ⟨e1, e2, -⟩ := txInsertEvent_spec h3
      cases r3 with
      | some err =>
        simp only [Prod.mk.injEq] at h
        obtain ⟨rfl, rfl, rfl⟩ := h
        exact ⟨_, hs2.append (e1 (by simp)).txStep, by simp⟩
      | none =>
        simp only [Prod.mk.injEq] at h
        obtain ⟨rfl, rfl, rfl⟩ := h
        refine ⟨_, hs2.append (e2 rfl).1, fun _ => ⟨hfresh, ?_⟩⟩
        rw [(TxStep_txStart hs2).1]
        rfl

theorem GetAuthor_action_spec {adb : AuditDB} {id : Int} {v v' : Captured (Option Author)}
    {d d' : DB} {r : Option GoError} (h : GetAuthor.action adb id v d = (r, v', d')) :
    ∃ ws, d.TxStep d' ws ∧
      (r = none →
        ws = [.insertEvent ⟨⟨d.txStart, 0⟩, adb.user, AUDIT_OP_READ, "authors", some id⟩] ∧
        v'.out = d.view.authors.find? (fun x => decide (x.ID = id)) ∧ v'.out ≠ none) ∧
      (d.NoFaults → d.txDone = false →
        (r = none ∨ (r = some ErrDoesNotExist ∧
          d.view.authors.find? (fun x => decide (x.ID = id)) = none))) := by
  unfold GetAuthor.action at h
  rcases h1 : txInsertEvent adb.user "authors" (some id) AUDIT_OP_READ d with ⟨r1, n1, d1⟩
  rw [h1] at h
  obtain ⟨e1, e2, e3⟩ := txInsertEvent_spec h1
  cases r1 with
  | some err =>
    simp only [Prod.mk.injEq] at h
    obtain ⟨rfl, rfl, rfl⟩ := h
    exact ⟨_, (e1 (by simp)).txStep, by simp, fun hn ht => absurd (e3 hn ht) (by simp)⟩
  | none =>
    obtain ⟨s1, ht1⟩ := e2 rfl
    simp only at h
    rcases h2 : txQueryRow (fun s => s.authors.find? (fun x => decide (x.ID = id))) d1 with ⟨row, d2⟩
    rw [h2] at h
    obtain ⟨q1, q2, q3⟩ := txQueryRow_spec h2
    have s2 := s1.append q1.txStep
    have hv1 : (d1.view).authors = (d.view).authors := by rw [s1.newView]; rfl
    have ht2 : d1.txDone = false := by rw [(TxStep_txStart s1).2.1]; exact ht1
    simp only at h
    cases hre : row.err with
    | some rerr =>
      rw [hre] at h
      simp only [Prod.mk.injEq] at h
      obtain ⟨rfl, rfl, rfl⟩ := h
      refine ⟨_, s2, by simp, fun hn _ => ?_⟩
      have := q3 (s1.stillNoFaults hn) ht2
      rw [hre] at this
      exact absurd this (by simp)
    | none =>
      rw [hre] at h
      simp only at h
      rcases h3 : row.Scan d2 with ⟨sr, d3⟩
      rw [h3] at h
      obtain ⟨p1, p2, p3, p4⟩ := Row.Scan_spec h3
      have s3 := s2.append p1.txStep
      have hfirst := q2 hre
      simp only [hv1] at hfirst
      cases sr with
      | error err =>
        simp only at h
        split at h
        · simp only [Prod.mk.injEq] at h
          obtain ⟨rfl, rfl, rfl⟩ := h
          refine ⟨_, s3, by simp [ErrDoesNotExist], fun hn _ => Or.inr ⟨rfl, ?_⟩⟩
          cases hf : row.first with
          | none => rw [← hfirst, hf]
          | some a =>
            have := p3 (s2.stillNoFaults hn) hre a hf
            exact absurd this (by simp)
        · next hne =>
          simp only [Prod.mk.injEq] at h
          obtain ⟨rfl, rfl, rfl⟩ := h
          refine ⟨_, s3, by simp, fun hn _ => ?_⟩
          exfalso
          cases hf : row.first with
          | none =>
            have := p4 (s2.stillNoFaults hn) hre hf
            simp only [Except.error.injEq] at this
            rw [this] at hne
            exact hne (by decide)
          | some a =>
            have := p3 (s2.stillNoFaults hn) hre a hf
            exact absurd this (by simp)
      | ok a =>
        simp only [Prod.mk.injEq] at h
        obtain ⟨rfl, rfl, rfl⟩ := h
        have := (p2 a rfl).2
        refine ⟨_, s3, fun _ => ⟨rfl, ?_, by simp⟩, fun _ _ => Or.inl rfl⟩
        simp only
        rw [← hfirst, this]

theorem GetBook_action_spec {adb : AuditDB} {authorID bookID : Int} {v v' : Captured (Option Book)}
    {d d' : DB} {r : Option GoError} (h : GetBook.action adb authorID bookID v d = (r, v', d')) :
    ∃ ws, d.TxStep d' ws ∧
      (r = none →
        ws = [.insertEvent ⟨⟨d.txStart, 0⟩, adb.user, AUDIT_OP_READ, "books", some bookID⟩] ∧
        v'.out = (d.view.books.find? (fun x => decide (x.book.ID = bookID ∧ x.author_id = authorID))).map (fun x => x.book) ∧ v'.out ≠ none) ∧
      (d.NoFaults → d.txDone = false →
        (r = none ∨ (r = some ErrDoesNotExist ∧
          (d.view.books.find? (fun x => decide (x.book.ID = bookID ∧ x.author_id = authorID))).map (fun x => x.book) = none))) := by
  unfold GetBook.action at h
  rcases h1 : txInsertEvent adb.user "books" (some bookID) AUDIT_OP_READ d with ⟨r1, n1, d1⟩
  rw [h1] at h
  obtain ⟨e1, e2, e3⟩ := txInsertEvent_spec h1
  cases r1 with
  | some err =>
    simp only [Prod.mk.injEq] at h
    obtain ⟨rfl, rfl, rfl⟩ := h
    exact ⟨_, (e1 (by simp)).txStep, by simp, fun hn ht => absurd (e3 hn ht) (by simp)⟩
  | none =>
    obtain ⟨s1, ht1⟩ := e2 rfl
    simp only at h
    rcases h2 : txQueryRow (fun s => (s.books.find? (fun x => decide (x.book.ID = bookID ∧ x.author_id = authorID))).map (fun x => x.book)) d1 with ⟨row, d2⟩
    rw [h2] at h
    obtain ⟨q1, q2, q3⟩ := txQueryRow_spec h2
    have s2 := s1.append q1.txStep
    have hv1 : (d1.view).books = (d.view).books := by rw [s1.newView]; rfl
    have ht2 : d1.txDone = false := by rw [(TxStep_txStart s1).2.1]; exact ht1
    simp only at h
    cases hre : row.err with
    | some rerr =>
      rw [hre] at h
      simp only [Prod.mk.injEq] at h
      obtain ⟨rfl, rfl, rfl⟩ := h
      refine ⟨_, s2, by simp, fun hn _ => ?_⟩
      have := q3 (s1.stillNoFaults hn) ht2
      rw [hre] at this
      exact absurd this (by simp)
    | none =>
      rw [hre] at h
      simp only at h
      rcases h3 : row.Scan d2 with ⟨sr, d3⟩
      rw [h3] at h
      obtain ⟨p1, p2, p3, p4⟩ := Row.Scan_spec h3
      have s3 := s2.append p1.txStep
      have hfirst := q2 hre
      simp only [hv1] at hfirst
      cases sr with
      | error err =>
        simp only at h
        split at h
        · simp only [Prod.mk.injEq] at h
          obtain ⟨rfl, rfl, rfl⟩ := h
          refine ⟨_, s3, by simp [ErrDoesNotExist], fun hn _ => Or.inr ⟨rfl, ?_⟩⟩
          cases hf : row.first with
          | none => rw [← hfirst, hf]
          | some a =>
            have := p3 (s2.stillNoFaults hn) hre a hf
            exact absurd this (by simp)
        · next hne =>
          simp only [Prod.mk.injEq] at h
          obtain ⟨rfl, rfl, rfl⟩ := h
          refine ⟨_, s3, by simp, fun hn _ => ?_⟩
          exfalso
          cases hf : row.first with
          | none =>
            have := p4 (s2.stillNoFaults hn) hre hf
            simp only [Except.error.injEq] at this
            rw [this] at hne
            exact hne (by decide)
          | some a =>
            have := p3 (s2.stillNoFaults hn) hre a hf
            exact absurd this (by simp)
      | ok a =>
        simp only [Prod.mk.injEq] at h
        obtain ⟨rfl, rfl, rfl⟩ := h
        have := (p2 a rfl).2
        refine ⟨_, s3, fun _ => ⟨rfl, ?_, by simp⟩, fun _ _ => Or.inl rfl⟩
        simp only
        rw [← hfirst, this]

theorem UpdateAuthor_action_spec {adb : AuditDB} {author : Author} {v v' : Captured Int} {d d' : DB}
    {r : Option GoError} (h : UpdateAuthor.action adb author v d = (r, v', d')) :
    ∃ ws, d.TxStep d' ws ∧
      (r = none →
        ws = [.insertEvent ⟨⟨d.txStart, 0⟩, adb.user, AUDIT_OP_UPDATE, "authors", some author.ID⟩, .updateAuthor author.ID author.Name author.DateOfBirth] ∧
        v'.out = (Write.updateAuthor author.ID author.Name author.DateOfBirth).affected d.view) ∧
      (d.NoFaults → d.txDone = false → r = none) := by
  unfold UpdateAuthor.action at h
  rcases h1 : txInsertEvent adb.user "authors" (some author.ID) AUDIT_OP_UPDATE d with ⟨r1, n1, d1⟩
  rw [h1] at h
  obtain ⟨e1, e2, e3⟩ := txInsertEvent_spec h1
  cases r1 with
  | some err =>
    simp only [Prod.mk.injEq] at h
    obtain ⟨rfl, rfl, rfl⟩ := h
    exact ⟨_, (e1 (by simp)).txStep, by simp, fun hn ht => absurd (e3 hn ht) (by simp)⟩
  | none =>
    obtain ⟨s1, ht1⟩ := e2 rfl
    simp only at h
    rcases h2 : txExec (.updateAuthor author.ID author.Name author.DateOfBirth) d1 with ⟨r2, n2, d2⟩
    rw [h2] at h
    obtain ⟨q1, q2, q3⟩ := txExec_spec h2
    have ht2 : d1.txDone = false := by rw [(TxStep_txStart s1).2.1]; exact ht1
    cases r2 with
    | some err =>
      simp only [Prod.mk.injEq] at h
      obtain ⟨rfl, rfl, rfl⟩ := h
      exact ⟨_, s1.append (q1 (by simp)).txStep, by simp,
        fun hn _ => absurd (q3 (s1.stillNoFaults hn) ht2) (by simp)⟩
    | none =>
      obtain ⟨s2, hn2, -⟩ := q2 rfl
      have s12 := s1.append s2
      simp only at h
      rcases h3 : RowsAffected n2 d2 with ⟨r3, n3, d3⟩
      rw [h3] at h
      obtain ⟨p1, p2, p3⟩ := RowsAffected_spec h3
      have s3 := s12.append p1.txStep
      cases r3 with
      | some err =>
        simp only [Prod.mk.injEq] at h
        obtain ⟨rfl, rfl, rfl⟩ := h
        exact ⟨_, s3, by simp, fun hn _ => absurd (p3 (s12.stillNoFaults hn)) (by simp)⟩
      | none =>
        simp only [Prod.mk.injEq] at h
        obtain ⟨rfl, rfl, rfl⟩ := h
        refine ⟨_, s3, fun _ => ⟨rfl, ?_⟩, fun _ _ => rfl⟩
        simp only
        rw [p2 rfl, hn2, s1.newView]
        rfl

theorem DeleteAuthor_action_spec {adb : AuditDB} {id : Int} {v v' : Captured Int} {d d' : DB}
    {r : Option GoError} (h : DeleteAuthor.action adb id v d = (r, v', d')) :
    ∃ ws, d.TxStep d' ws ∧
      (r = none →
        ws = [.insertEvent ⟨⟨d.txStart, 0⟩, adb.user, AUDIT_OP_DELETE, "authors", some id⟩, .deleteAuthor id] ∧
        v'.out = (Write.deleteAuthor id).affected d.view) ∧
      (d.NoFaults → d.txDone = false → r = none) := by
  unfold DeleteAuthor.action at h
  rcases h1 : txInsertEvent adb.user "authors" (some id) AUDIT_OP_DELETE d with ⟨r1, n1, d1⟩
  rw [h1] at h
  obtain ⟨e1, e2, e3⟩ := txInsertEvent_spec h1
  cases r1 with
  | some err =>
    simp only [Prod.mk.injEq] at h
    obtain ⟨rfl, rfl, rfl⟩ := h
    exact ⟨_, (e1 (by simp)).txStep, by simp, fun hn ht => absurd (e3 hn ht) (by simp)⟩
  | none =>
    obtain ⟨s1, ht1⟩ := e2 rfl
    simp only at h
    rcases h2 : txExec (.deleteAuthor id) d1 with ⟨r2, n2, d2⟩
    rw [h2] at h
    obtain ⟨q1, q2, q3⟩ := txExec_spec h2
    have ht2 : d1.txDone = false := by rw [(TxStep_txStart s1).2.1]; exact ht1
    cases r2 with
    | some err =>
      simp only [Prod.mk.injEq] at h
      obtain ⟨rfl, rfl, rfl⟩ := h
      exact ⟨_, s1.append (q1 (by simp)).txStep, by simp,
        fun hn _ => absurd (q3 (s1.stillNoFaults hn) ht2) (by simp)⟩
    | none =>
      obtain ⟨s2, hn2, -⟩ := q2 rfl
      have s12 := s1.append s2
      simp only at h
      rcases h3 : RowsAffected n2 d2 with ⟨r3, n3, d3⟩
      rw [h3] at h
      obtain ⟨p1, p2, p3⟩ := RowsAffected_spec h3
      have s3 := s12.append p1.txStep
      cases r3 with
      | some err =>
        simp only [Prod.mk.injEq] at h
        obtain ⟨rfl, rfl, rfl⟩ := h
        exact ⟨_, s3, by simp, fun hn _ => absurd (p3 (s12.stillNoFaults hn)) (by simp)⟩
      | none =>
        simp only [Prod.mk.injEq] at h
        obtain ⟨rfl, rfl, rfl⟩ := h
        refine ⟨_, s3, fun _ => ⟨rfl, ?_⟩, fun _ _ => rfl⟩
        simp only
        rw [p2 rfl, hn2, s1.newView]
        rfl

theorem UpdateBook_action_spec {adb : AuditDB} {book : Book} {v v' : Captured Int} {d d' : DB}
    {r : Option GoError} (h : UpdateBook.action adb book v d = (r, v', d')) :
    ∃ ws, d.TxStep d' ws ∧
      (r = none →
        ws = [.insertEvent ⟨⟨d.txStart, 0⟩, adb.user, AUDIT_OP_UPDATE, "books", some book.ID⟩, .updateBook book.ID book.Title book.Published] ∧
        v'.out = (Write.updateBook book.ID book.Title book.Published).affected d.view) ∧
      (d.NoFaults → d.txDone = false → r = none) := by
  unfold UpdateBook.action at h
  rcases h1 : txInsertEvent adb.user "books" (some book.ID) AUDIT_OP_UPDATE d with ⟨r1, n1, d1⟩
  rw [h1] at h
  obtain ⟨e1, e2, e3⟩ := txInsertEvent_spec h1
  cases r1 with
  | some err =>
    simp only [Prod.mk.injEq] at h
    obtain ⟨rfl, rfl, rfl⟩ := h
    exact ⟨_, (e1 (by simp)).txStep, by simp, fun hn ht => absurd (e3 hn ht) (by simp)⟩
  | none =>
    obtain ⟨s1, ht1⟩ := e2 rfl
    simp only at h
    rcases h2 : txExec (.updateBook book.ID book.Title book.Published) d1 with ⟨r2, n2, d2⟩
    rw [h2] at h
    obtain ⟨q1, q2, q3⟩ := txExec_spec h2
    have ht2 : d1.txDone = false := by rw [(TxStep_txStart s1).2.1]; exact ht1
    cases r2 with
    | some err =>
      simp only [Prod.mk.injEq] at h
      obtain ⟨rfl, rfl, rfl⟩ := h
      exact ⟨_, s1.append (q1 (by simp)).txStep, by simp,
        fun hn _ => absurd (q3 (s1.stillNoFaults hn) ht2) (by simp)⟩
    | none =>
      obtain ⟨s2, hn2, -⟩ := q2 rfl
      have s12 := s1.append s2
      simp only at h
      rcases h3 : RowsAffected n2 d2 with ⟨r3, n3, d3⟩
      rw [h3] at h
      obtain ⟨p1, p2, p3⟩ := RowsAffected_spec h3
      have s3 := s12.append p1.txStep
      cases r3 with
      | some err =>
        simp only [Prod.mk.injEq] at h
        obtain ⟨rfl, rfl, rfl⟩ := h
        exact ⟨_, s3, by simp, fun hn _ => absurd (p3 (s12.stillNoFaults hn)) (by simp)⟩
      | none =>
        simp only [Prod.mk.injEq] at h
        obtain ⟨rfl, rfl, rfl⟩ := h
        refine ⟨_, s3, fun _ => ⟨rfl, ?_⟩, fun _ _ => rfl⟩
        simp only
        rw [p2 rfl, hn2, s1.newView]
        rfl

theorem DeleteBook_action_spec {adb : AuditDB} {authorID bookID : Int} {v v' : Captured Int} {d d' : DB}
    {r : Option GoError} (h : DeleteBook.action adb authorID bookID v d = (r, v', d')) :
    ∃ ws, d.TxStep d' ws ∧
      (r = none →
        ws = [.insertEvent ⟨⟨d.txStart, 0⟩, adb.user, AUDIT_OP_DELETE, "books", some bookID⟩, .deleteBook bookID authorID] ∧
        v'.out = (Write.deleteBook bookID authorID).affected d.view) ∧
      (d.NoFaults → d.txDone = false → r = none) := by
  unfold DeleteBook.action at h
  rcases h1 : txInsertEvent adb.user "books" (some bookID) AUDIT_OP_DELETE d with ⟨r1, n1, d1⟩
  rw [h1] at h
  obtain ⟨e1, e2, e3⟩ := txInsertEvent_spec h1
  cases r1 with
  | some err =>
    simp only [Prod.mk.injEq] at h
    obtain ⟨rfl, rfl, rfl⟩ := h
    exact ⟨_, (e1 (by simp)).txStep, by simp, fun hn ht => absurd (e3 hn ht) (by simp)⟩
  | none =>
    obtain ⟨s1, ht1⟩ := e2 rfl
    simp only at h
    rcases h2 : txExec (.deleteBook bookID authorID) d1 with ⟨r2, n2, d2⟩
    rw [h2] at h
    obtain ⟨q1, q2, q3⟩ := txExec_spec h2
    have ht2 : d1.txDone = false := by rw [(TxStep_txStart s1).2.1]; exact ht1
    cases r2 with
    | some err =>
      simp only [Prod.mk.injEq] at h
      obtain ⟨rfl, rfl, rfl⟩ := h
      exact ⟨_, s1.append (q1 (by simp)).txStep, by simp,
        fun hn _ => absurd (q3 (s1.stillNoFaults hn) ht2) (by simp)⟩
    | none =>
      obtain ⟨s2, hn2, -⟩ := q2 rfl
      have s12 := s1.append s2
      simp only at h
      rcases h3 : RowsAffected n2 d2 with ⟨r3, n3, d3⟩
      rw [h3] at h
      obtain ⟨p1, p2, p3⟩ := RowsAffected_spec h3
      have s3 := s12.append p1.txStep
      cases r3 with
      | some err =>
        simp only [Prod.mk.injEq] at h
        obtain ⟨rfl, rfl, rfl⟩ := h
        exact ⟨_, s3, by simp, fun hn _ => absurd (p3 (s12.stillNoFaults hn)) (by simp)⟩
      | none =>
        simp only [Prod.mk.injEq] at h
        obtain ⟨rfl, rfl, rfl⟩ := h
        refine ⟨_, s3, fun _ => ⟨rfl, ?_⟩, fun _ _ => rfl⟩
        simp only
        rw [p2 rfl, hn2, s1.newView]
        rfl

theorem AllAuthors_action_spec {adb : AuditDB} {v v' : Captured (Option (List Author))} {d d' : DB}
    {r : Option GoError} (h : AllAuthors.action adb v d = (r, v', d')) :
    ∃ ws, d.TxStep d' ws ∧
      (r = none →
        ws = [.insertEvent ⟨⟨d.txStart, 0⟩, adb.user, AUDIT_OP_READ, "authors", none⟩] ∧
        v'.out = (Store.authors d.view).foldl goAppend v.out) ∧
      (d.NoFaults → d.txDone = false → r = none) := by
  unfold AllAuthors.action at h
  rcases h1 : txInsertEvent adb.user "authors" none AUDIT_OP_READ d with ⟨r1, n1, d1⟩
  rw [h1] at h
  obtain ⟨e1, e2, e3⟩ := txInsertEvent_spec h1
  cases r1 with
  | some err =>
    simp only [Prod.mk.injEq] at h
    obtain ⟨rfl, rfl, rfl⟩ := h
    exact ⟨_, (e1 (by simp)).txStep, by simp, fun hn ht => absurd (e3 hn ht) (by simp)⟩
  | none =>
    obtain ⟨s1, ht1⟩ := e2 rfl
    simp only at h
    rcases h2 : txQuery (fun s => Store.authors s) d1 with ⟨r2, rows, d2⟩
    rw [h2] at h
    obtain ⟨q1, q2, q3⟩ := txQuery_spec h2
    have ht2 : d1.txDone = false := by rw [(TxStep_txStart s1).2.1]; exact ht1
    have s2 := s1.append q1.txStep
    cases r2 with
    | some err =>
      simp only [Prod.mk.injEq] at h
      obtain ⟨rfl, rfl, rfl⟩ := h
      exact ⟨_, s2, by simp, fun hn _ => absurd (q3 (s1.stillNoFaults hn) ht2) (by simp)⟩
    | none =>
      simp only at h
      rcases h3 : scanAll rows v.out d2 with ⟨sc, d3⟩
      rw [h3] at h
      obtain ⟨p1, p2, p3⟩ := scanAll_spec _ _ _ _ _ h3
      have s3 := s2.append p1.txStep
      simp only at h
      cases hse : sc.scanErr with
      | some err =>
        rw [hse] at h
        simp only [Prod.mk.injEq] at h
        obtain ⟨rfl, rfl, rfl⟩ := h
        refine ⟨_, s3, by simp, fun hn _ => ?_⟩
        have := (p3 (s2.stillNoFaults hn)).1
        rw [hse] at this
        exact absurd this (by simp)
      | none =>
        rw [hse] at h
        simp only at h
        cases hre : sc.rowsErr with
        | some err =>
          rw [hre] at h
          simp only [Prod.mk.injEq] at h
          obtain ⟨rfl, rfl, rfl⟩ := h
          refine ⟨_, s3, by simp, fun hn _ => ?_⟩
          have := (p3 (s2.stillNoFaults hn)).2
          rw [hre] at this
          exact absurd this (by simp)
        | none =>
          rw [hre] at h
          simp only [Prod.mk.injEq] at h
          obtain ⟨rfl, rfl, rfl⟩ := h
          refine ⟨_, s3, fun _ => ⟨rfl, ?_⟩, fun _ _ => rfl⟩
          simp only
          rw [p2 hse hre, q2 rfl, s1.newView]
          rfl

theorem AllBooks_action_spec {adb : AuditDB} {v v' : Captured (Option (List Book))} {d d' : DB}
    {r : Option GoError} (h : AllBooks.action adb v d = (r, v', d')) :
    ∃ ws, d.TxStep d' ws ∧
      (r = none →
        ws = [.insertEvent ⟨⟨d.txStart, 0⟩, adb.user, AUDIT_OP_READ, "books", none⟩] ∧
        v'.out = ((fun s : Store => s.books.map (fun x => x.book)) d.view).foldl goAppend v.out) ∧
      (d.NoFaults → d.txDone = false → r = none) := by
  unfold AllBooks.action at h
  rcases h1 : txInsertEvent adb.user "books" none AUDIT_OP_READ d with ⟨r1, n1, d1⟩
  rw [h1] at h
  obtain ⟨e1, e2, e3⟩ := txInsertEvent_spec h1
  cases r1 with
  | some err =>
    simp only [Prod.mk.injEq] at h
    obtain ⟨rfl, rfl, rfl⟩ := h
    exact ⟨_, (e1 (by simp)).txStep, by simp, fun hn ht => absurd (e3 hn ht) (by simp)⟩
  | none =>
    obtain ⟨s1, ht1⟩ := e2 rfl
    simp only at h
    rcases h2 : txQuery (fun s => (fun s : Store => s.books.map (fun x => x.book)) s) d1 with ⟨r2, rows, d2⟩
    rw [h2] at h
    obtain ⟨q1, q2, q3⟩ := txQuery_spec h2
    have ht2 : d1.txDone = false := by rw [(TxStep_txStart s1).2.1]; exact ht1
    have s2 := s1.append q1.txStep
    cases r2 with
    | some err =>
      simp only [Prod.mk.injEq] at h
      obtain ⟨rfl, rfl, rfl⟩ := h
      exact ⟨_, s2, by simp, fun hn _ => absurd (q3 (s1.stillNoFaults hn) ht2) (by simp)⟩
    | none =>
      simp only at h
      rcases h3 : scanAll rows v.out d2 with ⟨sc, d3⟩
      rw [h3] at h
      obtain ⟨p1, p2, p3⟩ := scanAll_spec _ _ _ _ _ h3
      have s3 := s2.append p1.txStep
      simp only at h
      cases hse : sc.scanErr with
      | some err =>
        rw [hse] at h
        simp only [Prod.mk.injEq] at h
        obtain ⟨rfl, rfl, rfl⟩ := h
        refine ⟨_, s3, by simp, fun hn _ => ?_⟩
        have := (p3 (s2.stillNoFaults hn)).1
        rw [hse] at this
        exact absurd this (by simp)
      | none =>
        rw [hse] at h
        simp only at h
        cases hre : sc.rowsErr with
        | some err =>
          rw [hre] at h
          simp only [Prod.mk.injEq] at h
          obtain ⟨rfl, rfl, rfl⟩ := h
          refine ⟨_, s3, by simp, fun hn _ => ?_⟩
          have := (p3 (s2.stillNoFaults hn)).2
          rw [hre] at this
          exact absurd this (by simp)
        | none =>
          rw [hre] at h
          simp only [Prod.mk.injEq] at h
          obtain ⟨rfl, rfl, rfl⟩ := h
          refine ⟨_, s3, fun _ => ⟨rfl, ?_⟩, fun _ _ => rfl⟩
          simp only
          rw [p2 hse hre, q2 rfl, s1.newView]
          rfl

/-- What a repository call does to the committed tables, for each of the ten
methods: a success appends exactly one event; an error other than the bare
`ErrDoesNotExist` leaves the tables as they were; the bare `ErrDoesNotExist`
comes only from the row count of an update or delete, after the commit; a
failing action makes the call fail. -/
theorem Call.run_spec (c : Call) (adb : AuditDB) (db : DB) :
    ((c.run adb db).1 = none →
      ∃ e : Event, (c.run adb db).2.committed.events = db.committed.events ++ [e] ∧
        e.User = adb.user ∧ e.Operation = c.operation ∧ e.ObjType = c.objType ∧
        e.ID = c.objID adb db ∧ e.When = ⟨db.clock + 1, 0⟩) ∧
    (∀ err, (c.run adb db).1 = some err → err ≠ ErrDoesNotExist →
      (c.run adb db).2.committed = db.committed) ∧
    ((c.run adb db).1 = some ErrDoesNotExist →
      c.countsRows = true ∧
      (c.run adb db).2.committed.events = db.committed.events ++
        [⟨⟨db.clock + 1, 0⟩, adb.user, c.operation, c.objType, c.objID adb db⟩]) ∧
    (∀ d1, BeginTx db = (none, d1) → c.actionErr adb d1 ≠ none →
      (c.run adb db).1 ≠ none ∧ (c.run adb db).2.committed = db.committed) := by
  cases c with
  | addAuthor a =>
    simp only [Call.run, Call.actionErr, Call.operation, Call.objType, Call.objID, Call.countsRows,
      AddAuthor]
    rcases hw : wrapInTransaction (AddAuthor.action adb a) { out := 0, err := none } db with
      ⟨r, v1, db1⟩
    obtain ⟨w1, w2, w3⟩ := wrapInTransaction_tx
      (Q := fun d v1 ws => (∀ x ∈ d.view.authors, x.ID ≠ v1.out) ∧ ws = [.insertAuthor ⟨v1.out, a.Name, a.DateOfBirth⟩, .insertEvent ⟨⟨d.txStart, 0⟩, adb.user, AUDIT_OP_CREATE, "authors", some v1.out⟩]) (fun d r v1 d1 h => AddAuthor_action_spec h) hw
    cases r with
    | some err =>
      refine ⟨by simp, fun e he _ => w1 (by simp), by simp [ErrDoesNotExist, Errorf],
        fun d1 hb ha => ⟨by simp, w1 (by simp)⟩⟩
    | none =>
      obtain ⟨d1, ws, hb, hq, hc⟩ := w2 rfl
      obtain ⟨-, -, -, -, hb5, -⟩ := BeginTx_spec hb
      refine ⟨fun _ => ?_, by simp, by simp, fun d1 hb1 ha => absurd rfl (w3 d1 hb1 ha)⟩
      simp only
      rw [hc, hq.2]
      refine ⟨_, rfl, rfl, rfl, rfl, ?_, ?_⟩
      · rfl
      · simp only [(hb5 rfl).2.2.1]
  | getAuthor id =>
    simp only [Call.run, Call.actionErr, Call.operation, Call.objType, Call.objID, Call.countsRows,
      GetAuthor]
    rcases hw : wrapInTransaction (GetAuthor.action adb id) { out := none, err := none } db with
      ⟨r, v1, db1⟩
    obtain ⟨w1, w2, w3⟩ := wrapInTransaction_tx
      (Q := fun d v1 ws => ws = [.insertEvent ⟨⟨d.txStart, 0⟩, adb.user, AUDIT_OP_READ, "authors", some id⟩] ∧ v1.out = d.view.authors.find? (fun x => decide (x.ID = id)) ∧ v1.out ≠ none) (fun d r v1 d1 h => by
        obtain ⟨ws, a1, a2, -⟩ := GetAuthor_action_spec h
        exact ⟨ws, a1, a2⟩) hw
    cases r with
    | some err =>
      refine ⟨by simp, fun e he _ => w1 (by simp), by simp [ErrDoesNotExist, Errorf],
        fun d1 hb ha => ⟨by simp, w1 (by simp)⟩⟩
    | none =>
      obtain ⟨d1, ws, hb, hq, hc⟩ := w2 rfl
      obtain ⟨-, -, -, -, hb5, -⟩ := BeginTx_spec hb
      refine ⟨fun _ => ?_, by simp, by simp, fun d1 hb1 ha => absurd rfl (w3 d1 hb1 ha)⟩
      simp only
      rw [hc, hq.1]
      refine ⟨_, rfl, rfl, rfl, rfl, ?_, ?_⟩
      · rfl
      · simp only [(hb5 rfl).2.2.1]
  | updateAuthor a =>
    simp only [Call.run, Call.actionErr, Call.operation, Call.objType, Call.objID, Call.countsRows,
      UpdateAuthor]
    rcases hw : wrapInTransaction (UpdateAuthor.action adb a) { out := 0, err := none } db with
      ⟨r, v1, db1⟩
    obtain ⟨w1, w2, w3⟩ := wrapInTransaction_tx
      (Q := fun d v1 ws => ws = [.insertEvent ⟨⟨d.txStart, 0⟩, adb.user, AUDIT_OP_UPDATE, "authors", some a.ID⟩, .updateAuthor a.ID a.Name a.DateOfBirth] ∧ v1.out = (Write.updateAuthor a.ID a.Name a.DateOfBirth).affected d.view) (fun d r v1 d1 h => by
        obtain ⟨ws, a1, a2, -⟩ := UpdateAuthor_action_spec h
        exact ⟨ws, a1, a2⟩) hw
    cases r with
    | some err =>
      refine ⟨by simp, fun e he _ => w1 (by simp), by simp [ErrDoesNotExist, Errorf],
        fun d1 hb ha => ⟨by simp, w1 (by simp)⟩⟩
    | none =>
      obtain ⟨d1, ws, hb, hq, hc⟩ := w2 rfl
      obtain ⟨-, -, -, -, hb5, -⟩ := BeginTx_spec hb
      have hev : db1.committed.events = db.committed.events ++
          [⟨⟨db.clock + 1, 0⟩, adb.user, AUDIT_OP_UPDATE, "authors", some a.ID⟩] := by
        rw [hc, hq.1, (hb5 rfl).2.2.1]
        rfl
      simp only
      by_cases hz : v1.out = 0
      · simp only [hz, if_true]
        refine ⟨by simp, by simp, fun _ => ⟨trivial, hev⟩, fun d1 hb1 ha => absurd rfl (w3 d1 hb1 ha)⟩
      · simp only [hz, if_false]
        refine ⟨fun _ => ⟨_, hev, rfl, rfl, rfl, rfl, rfl⟩, by simp, by simp,
          fun d1 hb1 ha => absurd rfl (w3 d1 hb1 ha)⟩
  | allAuthors =>
    simp only [Call.run, Call.actionErr, Call.operation, Call.objType, Call.objID, Call.countsRows,
      AllAuthors]
    rcases hw : wrapInTransaction (AllAuthors.action adb) { out := none, err := none } db with
      ⟨r, v1, db1⟩
    obtain ⟨w1, w2, w3⟩ := wrapInTransaction_tx
      (Q := fun d v1 ws => ws = [.insertEvent ⟨⟨d.txStart, 0⟩, adb.user, AUDIT_OP_READ, "authors", none⟩] ∧ v1.out = (Store.authors d.view).foldl goAppend none) (fun d r v1 d1 h => by
        obtain ⟨ws, a1, a2, -⟩ := AllAuthors_action_spec h
        exact ⟨ws, a1, a2⟩) hw
    cases r with
    | some err =>
      refine ⟨by simp, fun e he _ => w1 (by simp), by simp [ErrDoesNotExist, Errorf],
        fun d1 hb ha => ⟨by simp, w1 (by simp)⟩⟩
    | none =>
      obtain ⟨d1, ws, hb, hq, hc⟩ := w2 rfl
      obtain ⟨-, -, -, -, hb5, -⟩ := BeginTx_spec hb
      refine ⟨fun _ => ?_, by simp, by simp, fun d1 hb1 ha => absurd rfl (w3 d1 hb1 ha)⟩
      simp only
      rw [hc, hq.1]
      refine ⟨_, rfl, rfl, rfl, rfl, ?_, ?_⟩
      · rfl
      · simp only [(hb5 rfl).2.2.1]
  | deleteAuthor id =>
    simp only [Call.run, Call.actionErr, Call.operation, Call.objType, Call.objID, Call.countsRows,
      DeleteAuthor]
    rcases hw : wrapInTransaction (DeleteAuthor.action adb id) { out := 0, err := none } db with
      ⟨r, v1, db1⟩
    obtain ⟨w1, w2, w3⟩ := wrapInTransaction_tx
      (Q := fun d v1 ws => ws = [.insertEvent ⟨⟨d.txStart, 0⟩, adb.user, AUDIT_OP_DELETE, "authors", some id⟩, .deleteAuthor id] ∧ v1.out = (Write.deleteAuthor id).affected d.view) (fun d r v1 d1 h => by
        obtain ⟨ws, a1, a2, -⟩ := DeleteAuthor_action_spec h
        exact ⟨ws, a1, a2⟩) hw
    cases r with
    | some err =>
      refine ⟨by simp, fun e he _ => w1 (by simp), by simp [ErrDoesNotExist, Errorf],
        fun d1 hb ha => ⟨by simp, w1 (by simp)⟩⟩
    | none =>
      obtain ⟨d1, ws, hb, hq, hc⟩ := w2 rfl
      obtain ⟨-, -, -, -, hb5, -⟩ := BeginTx_spec hb
      have hev : db1.committed.events = db.committed.events ++
          [⟨⟨db.clock + 1, 0⟩, adb.user, AUDIT_OP_DELETE, "authors", some id⟩] := by
        rw [hc, hq.1, (hb5 rfl).2.2.1]
        rfl
      simp only
      by_cases hz : v1.out = 0
      · simp only [hz, if_true]
        refine ⟨by simp, by simp, fun _ => ⟨trivial, hev⟩, fun d1 hb1 ha => absurd rfl (w3 d1 hb1 ha)⟩
      · simp only [hz, if_false]
        refine ⟨fun _ => ⟨_, hev, rfl, rfl, rfl, rfl, rfl⟩, by simp, by simp,
          fun d1 hb1 ha => absurd rfl (w3 d1 hb1 ha)⟩
  | addBook author b =>
    simp only [Call.run, Call.actionErr, Call.operation, Call.objType, Call.objID, Call.countsRows,
      AddBook]
    rcases hw : wrapInTransaction (AddBook.action adb author b) { out := 0, err := none } db with
      ⟨r, v1, db1⟩
    obtain ⟨w1, w2, w3⟩ := wrapInTransaction_tx
      (Q := fun d v1 ws => (∀ x ∈ d.view.books, x.book.ID ≠ v1.out) ∧ ws = [.insertBook ⟨author, ⟨v1.out, b.Title, b.Published⟩⟩, .insertEvent ⟨⟨d.txStart, 0⟩, adb.user, AUDIT_OP_CREATE, "books", some v1.out⟩]) (fun d r v1 d1 h => AddBook_action_spec h) hw
    cases r with
    | some err =>
      refine ⟨by simp, fun e he _ => w1 (by simp), by simp [ErrDoesNotExist, Errorf],
        fun d1 hb ha => ⟨by simp, w1 (by simp)⟩⟩
    | none =>
      obtain ⟨d1, ws, hb, hq, hc⟩ := w2 rfl
      obtain ⟨-, -, -, -, hb5, -⟩ := BeginTx_spec hb
      refine ⟨fun _ => ?_, by simp, by simp, fun d1 hb1 ha => absurd rfl (w3 d1 hb1 ha)⟩
      simp only
      rw [hc, hq.2]
      refine ⟨_, rfl, rfl, rfl, rfl, ?_, ?_⟩
      · rfl
      · simp only [(hb5 rfl).2.2.1]
  | getBook authorID bookID =>
    simp only [Call.run, Call.actionErr, Call.operation, Call.objType, Call.objID, Call.countsRows,
      GetBook]
    rcases hw : wrapInTransaction (GetBook.action adb authorID bookID) { out := none, err := none } db with
      ⟨r, v1, db1⟩
    obtain ⟨w1, w2, w3⟩ := wrapInTransaction_tx
      (Q := fun d v1 ws => ws = [.insertEvent ⟨⟨d.txStart, 0⟩, adb.user, AUDIT_OP_READ, "books", some bookID⟩] ∧ v1.out = (d.view.books.find? (fun x => decide (x.book.ID = bookID ∧ x.author_id = authorID))).map (fun x => x.book) ∧ v1.out ≠ none) (fun d r v1 d1 h => by
        obtain ⟨ws, a1, a2, -⟩ := GetBook_action_spec h
        exact ⟨ws, a1, a2⟩) hw
    cases r with
    | some err =>
      refine ⟨by simp, fun e he _ => w1 (by simp), by simp [ErrDoesNotExist, Errorf],
        fun d1 hb ha => ⟨by simp, w1 (by simp)⟩⟩
    | none =>
      obtain ⟨d1, ws, hb, hq, hc⟩ := w2 rfl
      obtain ⟨-, -, -, -, hb5, -⟩ := BeginTx_spec hb
      refine ⟨fun _ => ?_, by simp, by simp, fun d1 hb1 ha => absurd rfl (w3 d1 hb1 ha)⟩
      simp only
      rw [hc, hq.1]
      refine ⟨_, rfl, rfl, rfl, rfl, ?_, ?_⟩
      · rfl
      · simp only [(hb5 rfl).2.2.1]
  | updateBook authorID b =>
    simp only [Call.run, Call.actionErr, Call.operation, Call.objType, Call.objID, Call.countsRows,
      UpdateBook]
    rcases hw : wrapInTransaction (UpdateBook.action adb b) { out := 0, err := none } db with
      ⟨r, v1, db1⟩
    obtain ⟨w1, w2, w3⟩ := wrapInTransaction_tx
      (Q := fun d v1 ws => ws = [.insertEvent ⟨⟨d.txStart, 0⟩, adb.user, AUDIT_OP_UPDATE, "books", some b.ID⟩, .updateBook b.ID b.Title b.Published] ∧ v1.out = (Write.updateBook b.ID b.Title b.Published).affected d.view) (fun d r v1 d1 h => by
        obtain ⟨ws, a1, a2, -⟩ := UpdateBook_action_spec h
        exact ⟨ws, a1, a2⟩) hw
    cases r with
    | some err =>
      refine ⟨by simp, fun e he _ => w1 (by simp), by simp [ErrDoesNotExist, Errorf],
        fun d1 hb ha => ⟨by simp, w1 (by simp)⟩⟩
    | none =>
      obtain ⟨d1, ws, hb, hq, hc⟩ := w2 rfl
      obtain ⟨-, -, -, -, hb5, -⟩ := BeginTx_spec hb
      have hev : db1.committed.events = db.committed.events ++
          [⟨⟨db.clock + 1, 0⟩, adb.user, AUDIT_OP_UPDATE, "books", some b.ID⟩] := by
        rw [hc, hq.1, (hb5 rfl).2.2.1]
        rfl
      simp only
      by_cases hz : v1.out = 0
      · simp only [hz, if_true]
        refine ⟨by simp, by simp, fun _ => ⟨trivial, hev⟩, fun d1 hb1 ha => absurd rfl (w3 d1 hb1 ha)⟩
      · simp only [hz, if_false]
        refine ⟨fun _ => ⟨_, hev, rfl, rfl, rfl, rfl, rfl⟩, by simp, by simp,
          fun d1 hb1 ha => absurd rfl (w3 d1 hb1 ha)⟩
  | allBooks =>
    simp only [Call.run, Call.actionErr, Call.operation, Call.objType, Call.objID, Call.countsRows,
      AllBooks]
    rcases hw : wrapInTransaction (AllBooks.action adb) { out := none, err := none } db with
      ⟨r, v1, db1⟩
    obtain ⟨w1, w2, w3⟩ := wrapInTransaction_tx
      (Q := fun d v1 ws => ws = [.insertEvent ⟨⟨d.txStart, 0⟩, adb.user, AUDIT_OP_READ, "books", none⟩] ∧ v1.out = ((fun s : Store => s.books.map (fun x => x.book)) d.view).foldl goAppend none) (fun d r v1 d1 h => by
        obtain ⟨ws, a1, a2, -⟩ := AllBooks_action_spec h
        exact ⟨ws, a1, a2⟩) hw
    cases r with
    | some err =>
      refine ⟨by simp, fun e he _ => w1 (by simp), by simp [ErrDoesNotExist, Errorf],
        fun d1 hb ha => ⟨by simp, w1 (by simp)⟩⟩
    | none =>
      obtain ⟨d1, ws, hb, hq, hc⟩ := w2 rfl
      obtain ⟨-, -, -, -, hb5, -⟩ := BeginTx_spec hb
      refine ⟨fun _ => ?_, by simp, by simp, fun d1 hb1 ha => absurd rfl (w3 d1 hb1 ha)⟩
      simp only
      rw [hc, hq.1]
      refine ⟨_, rfl, rfl, rfl, rfl, ?_, ?_⟩
      · rfl
      · simp only [(hb5 rfl).2.2.1]
  | deleteBook authorID bookID =>
    simp only [Call.run, Call.actionErr, Call.operation, Call.objType, Call.objID, Call.countsRows,
      DeleteBook]
    rcases hw : wrapInTransaction (DeleteBook.action adb authorID bookID) { out := 0, err := none } db with
      ⟨r, v1, db1⟩
    obtain ⟨w1, w2, w3⟩ := wrapInTransaction_tx
      (Q := fun d v1 ws => ws = [.insertEvent ⟨⟨d.txStart, 0⟩, adb.user, AUDIT_OP_DELETE, "books", some bookID⟩, .deleteBook bookID authorID] ∧ v1.out = (Write.deleteBook bookID authorID).affected d.view) (fun d r v1 d1 h => by
        obtain ⟨ws, a1, a2, -⟩ := DeleteBook_action_spec h
        exact ⟨ws, a1, a2⟩) hw
    cases r with
    | some err =>
      refine ⟨by simp, fun e he _ => w1 (by simp), by simp [ErrDoesNotExist, Errorf],
        fun d1 hb ha => ⟨by simp, w1 (by simp)⟩⟩
    | none =>
      obtain ⟨d1, ws, hb, hq, hc⟩ := w2 rfl
      obtain ⟨-, -, -, -, hb5, -⟩ := BeginTx_spec hb
      have hev : db1.committed.events = db.committed.events ++
          [⟨⟨db.clock + 1, 0⟩, adb.user, AUDIT_OP_DELETE, "books", some bookID⟩] := by
        rw [hc, hq.1, (hb5 rfl).2.2.1]
        rfl
      simp only
      by_cases hz : v1.out = 0
      · simp only [hz, if_true]
        refine ⟨by simp, by simp, fun _ => ⟨trivial, hev⟩, fun d1 hb1 ha => absurd rfl (w3 d1 hb1 ha)⟩
      · simp only [hz, if_false]
        refine ⟨fun _ => ⟨_, hev, rfl, rfl, rfl, rfl, rfl⟩, by simp, by simp,
          fun d1 hb1 ha => absurd rfl (w3 d1 hb1 ha)⟩

theorem errorsIs_self (e : GoError) : errorsIs e e = true := by
  cases e <;> simp [errorsIs]

theorem errorsIs_Errorf (pre : String) (e : GoError) : errorsIs (Errorf pre e) e = true := by
  simp [Errorf, errorsIs, errorsIs_self]

theorem wrap_ne_cause (msg : String) (e : GoError) : GoError.wrap msg e ≠ e := by
  intro h
  have := congrArg sizeOf h
  simp at this

/-- What `authorize` does between `BeginTx` and its `return`, on a fresh
transaction handle. -/
theorem authorize.body_spec {user : String} {d d' : DB} {ok : Bool} {r : Option GoError}
    (h : authorize.body user d = (ok, r, d')) (hp : d.pending = []) (ht : d.txDone = false) :
    (r = none →
      d'.committed = (Write.insertEvent ⟨⟨d.clock + 1, 0⟩, user, AUDIT_OP_READ, "auth", none⟩).apply
        d.committed ∧
      d'.txDone = true ∧ (ok = true ↔ user ∈ d.committed.users)) ∧
    (r ≠ none → ok = false ∧
      (d'.committed = d.committed ∨
        d'.committed = (Write.insertEvent ⟨⟨d.clock + 1, 0⟩, user, AUDIT_OP_READ, "auth", none⟩).apply
          d.committed)) ∧
    (d.NoFaults → r = none) ∧
    d'.handle = d.handle ∧
    (∀ e, r = some e → ∃ pre c, e = Errorf pre c) := by
  unfold authorize.body at h
  rcases h1 : dbExec (fun now => Write.insertEvent
      { When := ⟨now, 0⟩, User := user, Operation := AUDIT_OP_READ, ObjType := "auth", ID := none })
      d with ⟨r1, d1⟩
  rw [h1] at h
  obtain ⟨e1, e2, e3⟩ := dbExec_spec h1
  cases r1 with
  | some err =>
    simp only [Prod.mk.injEq] at h
    obtain ⟨rfl, rfl, rfl⟩ := h
    obtain ⟨k, rfl⟩ := e1 (by simp)
    exact ⟨by simp, fun _ => ⟨rfl, Or.inl rfl⟩, fun hn => absurd (e3 hn) (by simp), rfl,
      fun e he => ⟨_, _, (Option.some.inj he).symm⟩⟩
  | none =>
    obtain ⟨k1, hd1⟩ := e2 rfl
    simp only at h
    rcases h2 : dbQuery (fun s => s.users) d1 with ⟨r2, rows, d2⟩
    rw [h2] at h
    obtain ⟨q1, q2, q3⟩ := dbQuery_spec h2
    have n1 : d.NoFaults → d1.NoFaults := fun hn => hn.drop k1 d1 (by rw [hd1])
    cases r2 with
    | some err =>
      simp only [Prod.mk.injEq] at h
      obtain ⟨rfl, rfl, rfl⟩ := h
      obtain ⟨k2, rfl⟩ := q1
      refine ⟨by simp, fun _ => ⟨rfl, Or.inr ?_⟩, fun hn => absurd (q3 (n1 hn)) (by simp), ?_,
        fun e he => ⟨_, _, (Option.some.inj he).symm⟩⟩
      · rw [hd1]
      · rw [hd1]
    | none =>
      simp only at h
      rcases h3 : authorize.loop user rows d2 with ⟨sc, d3⟩
      rw [h3] at h
      obtain ⟨p1, p2, p3, p4⟩ := authorize.loop_spec _ _ _ _ _ h3
      have q13 := q1.seq p1
      have hrows : rows = d.committed.users := by rw [q2 rfl, hd1]; rfl
      have n3 : d.NoFaults → d3.NoFaults := fun hn => q13.keepsNoFaults (n1 hn)
      have hd3 : d3.committed = (Write.insertEvent
          ⟨⟨d.clock + 1, 0⟩, user, AUDIT_OP_READ, "auth", none⟩).apply d.committed ∧
          d3.handle = d.handle ∧ d3.pending = [] ∧ d3.txDone = false := by
        obtain ⟨k3, rfl⟩ := q13
        rw [hd1]
        exact ⟨rfl, rfl, hp, ht⟩
      simp only at h
      cases hse : sc.scanErr with
      | some err =>
        rw [hse] at h
        simp only [Prod.mk.injEq] at h
        obtain ⟨rfl, rfl, rfl⟩ := h
        refine ⟨by simp, fun _ => ⟨rfl, Or.inr hd3.1⟩, fun hn => ?_, hd3.2.1,
          fun e he => ⟨_, _, (Option.some.inj he).symm⟩⟩
        have := (p4 (q1.keepsNoFaults (n1 hn))).1
        rw [hse] at this
        exact absurd this (by simp)
      | none =>
        rw [hse] at h
        simp only at h
        cases hre : sc.rowsErr with
        | some err =>
          rw [hre] at h
          simp only [Prod.mk.injEq] at h
          obtain ⟨rfl, rfl, rfl⟩ := h
          refine ⟨by simp, fun _ => ⟨rfl, Or.inr hd3.1⟩, fun hn => ?_, hd3.2.1,
            fun e he => ⟨_, _, (Option.some.inj he).symm⟩⟩
          have := (p4 (q1.keepsNoFaults (n1 hn))).2
          rw [hre] at this
          exact absurd this (by simp)
        | none =>
          rw [hre] at h
          simp only at h
          rcases h4 : Commit d3 with ⟨r4, d4⟩
          rw [h4] at h
          obtain ⟨-, c2, -, -, -, c6, c7, c8⟩ := Commit_spec h4
          have hview : d3.view = d3.committed := by
            unfold DB.view
            rw [hd3.2.2.1]
            rfl
          cases r4 with
          | some err =>
            simp only [Prod.mk.injEq] at h
            obtain ⟨rfl, rfl, rfl⟩ := h
            refine ⟨by simp, fun _ => ⟨rfl, Or.inr ?_⟩, fun hn => ?_, by rw [c2, hd3.2.1],
              fun e he => ⟨_, _, (Option.some.inj he).symm⟩⟩
            · rw [c6 (by simp), hd3.1]
            · exact absurd (c8 (n3 hn) hd3.2.2.2) (by simp)
          | none =>
            simp only [Prod.mk.injEq] at h
            obtain ⟨rfl, rfl, rfl⟩ := h
            refine ⟨fun _ => ⟨?_, (c7 rfl).2.2, ?_⟩, by simp, fun _ => rfl, by rw [c2, hd3.2.1],
              by simp⟩
            · rw [(c7 rfl).2.1, hview, hd3.1]
            · rw [← hrows]
              exact ⟨p2, p3 hse hre⟩

/-- The result of `authorize` in terms of the committed tables. -/
theorem authorize_spec {user : String} {db db' : DB} {ok : Bool} {r : Option GoError}
    (h : authorize db user = (ok, r, db')) :
    (r = none →
      db'.committed = (Write.insertEvent ⟨⟨db.clock + 2, 0⟩, user, AUDIT_OP_READ, "auth", none⟩).apply
        db.committed ∧
      (ok = true ↔ user ∈ db.committed.users)) ∧
    (r ≠ none → ok = false ∧
      (db'.committed = db.committed ∨
        db'.committed =
          (Write.insertEvent ⟨⟨db.clock + 2, 0⟩, user, AUDIT_OP_READ, "auth", none⟩).apply
            db.committed)) ∧
    (db.NoFaults → r = none) ∧
    db'.handle = db.handle ∧
    (∀ e, r = some e → ∃ pre c, e = Errorf pre c) := by
  unfold authorize at h
  rcases hb : BeginTx db with ⟨rb, d1⟩
  rw [hb] at h
  obtain ⟨b1, -, b3, ⟨k, hk⟩, b5, b6⟩ := BeginTx_spec hb
  cases rb with
  | some err =>
    simp only [Prod.mk.injEq] at h
    obtain ⟨rfl, rfl, rfl⟩ := h
    exact ⟨by simp, fun _ => ⟨rfl, Or.inl b1⟩, fun hn => absurd (b6 hn) (by simp), b3,
      fun e he => ⟨_, _, (Option.some.inj he).symm⟩⟩
  | none =>
    obtain ⟨t1, t2, -, t4⟩ := b5 rfl
    simp only at h
    rcases ha : authorize.body user d1 with ⟨ok1, r1, d2⟩
    rw [ha] at h
    obtain ⟨a1, a2, a3, a4, a5⟩ := authorize.body_spec ha t2 t1
    simp only at h
    rcases hr : Rollback d2 with ⟨r2, d3⟩
    rw [hr] at h
    obtain ⟨-, r2h, -, r4, r5, -⟩ := Rollback_spec hr
    simp only [Prod.mk.injEq] at h
    obtain ⟨rfl, rfl, rfl⟩ := h
    have hclock : d1.clock + 1 = db.clock + 2 := by rw [t4]; omega
    rw [hclock, b1] at a1 a2
    cases r1 with
    | some err =>
      have hdef : authorize.deferred (some err) r2 = some err := by
        unfold authorize.deferred
        rfl
      rw [hdef]
      refine ⟨by simp, fun _ => ?_, fun hn => absurd (a3 (hn.drop k d1 hk)) (by simp),
        by rw [r2h, a4, b3], fun e he => a5 e he⟩
      obtain ⟨x1, x2⟩ := a2 (by simp)
      exact ⟨x1, by rw [r4]; exact x2⟩
    | none =>
      obtain ⟨x1, x2, x3⟩ := a1 rfl
      have hr2 : r2 = some ErrTxDone := r5 x2
      have hdef : authorize.deferred none r2 = none := by
        rw [hr2]
        decide
      rw [hdef]
      exact ⟨fun _ => ⟨by rw [r4]; exact x1, x3⟩, by simp, fun _ => rfl, by rw [r2h, a4, b3],
        by simp⟩

theorem BeginTx_view {db d1 : DB} (hb : BeginTx db = (none, d1)) : d1.view = db.committed := by
  obtain ⟨h1, -, -, -, h5, -⟩ := BeginTx_spec hb
  unfold DB.view
  rw [(h5 rfl).2.1, h1]
  rfl

theorem foldl_goAppend_getD {α : Type} (l : List α) :
    ∀ acc : Option (List α), (l.foldl goAppend acc).getD [] = acc.getD [] ++ l := by
  induction l with
  | nil => intro acc; simp
  | cons x tl ih =>
    intro acc
    rw [List.foldl_cons, ih]
    simp [goAppend]

/-- Result of `AddAuthor` in terms of the committed tables. -/
theorem AddAuthor_spec {adb : AuditDB} {a : Author} {db db' : DB} {id : Int} {r : Option GoError}
    (h : AddAuthor adb a db = (id, r, db')) :
    (r = none →
      (∀ x ∈ db.committed.authors, x.ID ≠ id) ∧
      db'.committed = { db.committed with
        authors := db.committed.authors ++ [⟨id, a.Name, a.DateOfBirth⟩],
        events := db.committed.events ++
          [⟨⟨db.clock + 1, 0⟩, adb.user, AUDIT_OP_CREATE, "authors", some id⟩] }) ∧
    (r ≠ none → id = -1 ∧ db'.committed = db.committed) := by
  unfold AddAuthor at h
  rcases hw : wrapInTransaction (AddAuthor.action adb a) { out := 0, err := none } db with
    ⟨rw, v1, db1⟩
  rw [hw] at h
  obtain ⟨w1, w2, -⟩ := wrapInTransaction_tx (fun d r v1 d1 h => AddAuthor_action_spec h) hw
  cases rw with
  | some err =>
    simp only [Prod.mk.injEq] at h
    obtain ⟨rfl, rfl, rfl⟩ := h
    exact ⟨by simp, fun _ => ⟨rfl, w1 (by simp)⟩⟩
  | none =>
    simp only [Prod.mk.injEq] at h
    obtain ⟨rfl, rfl, rfl⟩ := h
    obtain ⟨d1, ws, hb, ⟨hfresh, hws⟩, hc⟩ := w2 rfl
    obtain ⟨-, -, -, -, hb5, -⟩ := BeginTx_spec hb
    rw [BeginTx_view hb] at hfresh
    refine ⟨fun _ => ⟨hfresh, ?_⟩, by simp⟩
    rw [hc, hws, (hb5 rfl).2.2.1]
    rfl

/-- Result of `AddBook` in terms of the committed tables. -/
theorem AddBook_spec {adb : AuditDB} {author : Int} {b : Book} {db db' : DB} {id : Int} {r : Option GoError}
    (h : AddBook adb author b db = (id, r, db')) :
    (r = none →
      (∀ x ∈ db.committed.books, x.book.ID ≠ id) ∧
      db'.committed = { db.committed with
        books := db.committed.books ++ [⟨author, ⟨id, b.Title, b.Published⟩⟩],
        events := db.committed.events ++
          [⟨⟨db.clock + 1, 0⟩, adb.user, AUDIT_OP_CREATE, "books", some id⟩] }) ∧
    (r ≠ none → id = -1 ∧ db'.committed = db.committed) := by
  unfold AddBook at h
  rcases hw : wrapInTransaction (AddBook.action adb author b) { out := 0, err := none } db with
    ⟨rw, v1, db1⟩
  rw [hw] at h
  obtain ⟨w1, w2, -⟩ := wrapInTransaction_tx (fun d r v1 d1 h => AddBook_action_spec h) hw
  cases rw with
  | some err =>
    simp only [Prod.mk.injEq] at h
    obtain ⟨rfl, rfl, rfl⟩ := h
    exact ⟨by simp, fun _ => ⟨rfl, w1 (by simp)⟩⟩
  | none =>
    simp only [Prod.mk.injEq] at h
    obtain ⟨rfl, rfl, rfl⟩ := h
    obtain ⟨d1, ws, hb, ⟨hfresh, hws⟩, hc⟩ := w2 rfl
    obtain ⟨-, -, -, -, hb5, -⟩ := BeginTx_spec hb
    rw [BeginTx_view hb] at hfresh
    refine ⟨fun _ => ⟨hfresh, ?_⟩, by simp⟩
    rw [hc, hws, (hb5 rfl).2.2.1]
    rfl

/-- Result of `GetAuthor` in terms of the committed tables. -/
theorem GetAuthor_spec {adb : AuditDB} {id : Int} {db db' : DB} {res : Option Author}
    {r : Option GoError} (h : GetAuthor adb id db = (res, r, db')) :
    (r = none → res = db.committed.authors.find? (fun x => decide (x.ID = id)) ∧ res ≠ none ∧
      db'.committed = { db.committed with
        events := db.committed.events ++
          [⟨⟨db.clock + 1, 0⟩, adb.user, AUDIT_OP_READ, "authors", some id⟩] }) ∧
    (r ≠ none → res = none ∧ db'.committed = db.committed) ∧
    (db.NoFaults → db.committed.authors.find? (fun x => decide (x.ID = id)) ≠ none → r = none) ∧
    (db.NoFaults → db.committed.authors.find? (fun x => decide (x.ID = id)) = none → r = some (Errorf "transaction: " ErrDoesNotExist)) := by
  have hact : ∀ (d : DB) (r : Option GoError) (v1 : Captured (Option Author)) (d1 : DB),
      GetAuthor.action adb id { out := none, err := none } d = (r, v1, d1) →
      ∃ ws, d.TxStep d1 ws ∧ (r = none →
        ws = [.insertEvent ⟨⟨d.txStart, 0⟩, adb.user, AUDIT_OP_READ, "authors", some id⟩] ∧
        v1.out = d.view.authors.find? (fun x => decide (x.ID = id)) ∧ v1.out ≠ none) := by
    intro d r v1 d1 h
    obtain ⟨ws, a1, a2, -⟩ := GetAuthor_action_spec h
    exact ⟨ws, a1, a2⟩
  unfold GetAuthor at h
  rcases hw : wrapInTransaction (GetAuthor.action adb id) { out := none, err := none } db with
    ⟨rw, v1, db1⟩
  rw [hw] at h
  obtain ⟨w1, w2, -⟩ := wrapInTransaction_tx hact hw
  have hok : db.NoFaults → db.committed.authors.find? (fun x => decide (x.ID = id)) ≠ none → rw = none := by
    intro hn hsel
    have := wrapInTransaction_ok hact hn (fun d1 hb hn1 => by
      rcases ha : GetAuthor.action adb id { out := none, err := none } d1 with ⟨ra, va, da⟩
      obtain ⟨ws, -, -, a3⟩ := GetAuthor_action_spec ha
      obtain ⟨-, -, -, -, hb5, -⟩ := BeginTx_spec hb
      rcases a3 hn1 (hb5 rfl).1 with h1 | ⟨-, h2⟩
      · exact h1
      · rw [BeginTx_view hb] at h2
        exact absurd h2 hsel)
    rw [hw] at this
    exact this
  have hmiss : db.NoFaults → db.committed.authors.find? (fun x => decide (x.ID = id)) = none → rw = some ErrDoesNotExist := by
    intro hn hsel
    rcases wrapInTransaction_cases hw with ⟨e, hb, -, -⟩ | ⟨d1, d2, err, rb, hb, ha, hr, rfl⟩ |
      ⟨d1, d2, hb, ha, hc⟩
    · obtain ⟨-, -, -, -, -, hb6⟩ := BeginTx_spec hb
      exact absurd (hb6 hn) (by simp)
    · obtain ⟨-, -, -, ⟨k, hk⟩, hb5, -⟩ := BeginTx_spec hb
      obtain ⟨ws, s1, -, a3⟩ := GetAuthor_action_spec ha
      have hn1 := hn.drop k d1 hk
      rcases a3 hn1 (hb5 rfl).1 with h1 | ⟨h1, -⟩
      · exact absurd h1 (by simp)
      · simp only [Option.some.injEq] at h1
        subst h1
        obtain ⟨-, -, -, -, -, r6⟩ := Rollback_spec hr
        have hrb : rb = none :=
          r6 (s1.stillNoFaults hn1) (by rw [(TxStep_txStart s1).2.1]; exact (hb5 rfl).1)
        subst hrb
        rfl
    · obtain ⟨ws, -, a2, -⟩ := GetAuthor_action_spec ha
      obtain ⟨-, h2, h3⟩ := a2 rfl
      rw [BeginTx_view hb] at h2
      rw [h2] at h3
      exact absurd hsel h3
  cases rw with
  | some err =>
    simp only [Prod.mk.injEq] at h
    obtain ⟨rfl, rfl, rfl⟩ := h
    refine ⟨by simp, fun _ => ⟨rfl, w1 (by simp)⟩, fun hn hs => absurd (hok hn hs) (by simp),
      fun hn hs => ?_⟩
    have := hmiss hn hs
    simp only [Option.some.injEq] at this
    rw [this]
  | none =>
    simp only [Prod.mk.injEq] at h
    obtain ⟨rfl, rfl, rfl⟩ := h
    obtain ⟨d1, ws, hb, ⟨hws, hout, hsome⟩, hc⟩ := w2 rfl
    obtain ⟨-, -, -, -, hb5, -⟩ := BeginTx_spec hb
    rw [BeginTx_view hb] at hout
    refine ⟨fun _ => ⟨hout, hsome, ?_⟩, by simp, fun _ _ => rfl,
      fun hn hs => absurd (hmiss hn hs) (by simp)⟩
    rw [hc, hws, (hb5 rfl).2.2.1]
    rfl

/-- Result of `GetBook` in terms of the committed tables. -/
theorem GetBook_spec {adb : AuditDB} {authorID bookID : Int} {db db' : DB} {res : Option Book}
    {r : Option GoError} (h : GetBook adb authorID bookID db = (res, r, db')) :
    (r = none → res = (db.committed.books.find? (fun x => decide (x.book.ID = bookID ∧ x.author_id = authorID))).map (fun x => x.book) ∧ res ≠ none ∧
      db'.committed = { db.committed with
        events := db.committed.events ++
          [⟨⟨db.clock + 1, 0⟩, adb.user, AUDIT_OP_READ, "books", some bookID⟩] }) ∧
    (r ≠ none → res = none ∧ db'.committed = db.committed) ∧
    (db.NoFaults → (db.committed.books.find? (fun x => decide (x.book.ID = bookID ∧ x.author_id = authorID))).map (fun x => x.book) ≠ none → r = none) ∧
    (db.NoFaults → (db.committed.books.find? (fun x => decide (x.book.ID = bookID ∧ x.author_id = authorID))).map (fun x => x.book) = none → r = some (Errorf "transaction: " ErrDoesNotExist)) := by
  have hact : ∀ (d : DB) (r : Option GoError) (v1 : Captured (Option Book)) (d1 : DB),
      GetBook.action adb authorID bookID { out := none, err := none } d = (r, v1, d1) →
      ∃ ws, d.TxStep d1 ws ∧ (r = none →
        ws = [.insertEvent ⟨⟨d.txStart, 0⟩, adb.user, AUDIT_OP_READ, "books", some bookID⟩] ∧
        v1.out = (d.view.books.find? (fun x => decide (x.book.ID = bookID ∧ x.author_id = authorID))).map (fun x => x.book) ∧ v1.out ≠ none) := by
    intro d r v1 d1 h
    obtain ⟨ws, a1, a2, -⟩ := GetBook_action_spec h
    exact ⟨ws, a1, a2⟩
  unfold GetBook at h
  rcases hw : wrapInTransaction (GetBook.action adb authorID bookID) { out := none, err := none } db with
    ⟨rw, v1, db1⟩
  rw [hw] at h
  obtain ⟨w1, w2, -⟩ := wrapInTransaction_tx hact hw
  have hok : db.NoFaults → (db.committed.books.find? (fun x => decide (x.book.ID = bookID ∧ x.author_id = authorID))).map (fun x => x.book) ≠ none → rw = none := by
    intro hn hsel
    have := wrapInTransaction_ok hact hn (fun d1 hb hn1 => by
      rcases ha : GetBook.action adb authorID bookID { out := none, err := none } d1 with ⟨ra, va, da⟩
      obtain ⟨ws, -, -, a3⟩ := GetBook_action_spec ha
      obtain ⟨-, -, -, -, hb5, -⟩ := BeginTx_spec hb
      rcases a3 hn1 (hb5 rfl).1 with h1 | ⟨-, h2⟩
      · exact h1
      · rw [BeginTx_view hb] at h2
        exact absurd h2 hsel)
    rw [hw] at this
    exact this
  have hmiss : db.NoFaults → (db.committed.books.find? (fun x => decide (x.book.ID = bookID ∧ x.author_id = authorID))).map (fun x => x.book) = none → rw = some ErrDoesNotExist := by
    intro hn hsel
    rcases wrapInTransaction_cases hw with ⟨e, hb, -, -⟩ | ⟨d1, d2, err, rb, hb, ha, hr, rfl⟩ |
      ⟨d1, d2, hb, ha, hc⟩
    · obtain ⟨-, -, -, -, -, hb6⟩ := BeginTx_spec hb
      exact absurd (hb6 hn) (by simp)
    · obtain ⟨-, -, -, ⟨k, hk⟩, hb5, -⟩ := BeginTx_spec hb
      obtain ⟨ws, s1, -, a3⟩ := GetBook_action_spec ha
      have hn1 := hn.drop k d1 hk
      rcases a3 hn1 (hb5 rfl).1 with h1 | ⟨h1, -⟩
      · exact absurd h1 (by simp)
      · simp only [Option.some.injEq] at h1
        subst h1
        obtain ⟨-, -, -, -, -, r6⟩ := Rollback_spec hr
        have hrb : rb = none :=
          r6 (s1.stillNoFaults hn1) (by rw [(TxStep_txStart s1).2.1]; exact (hb5 rfl).1)
        subst hrb
        rfl
    · obtain ⟨ws, -, a2, -⟩ := GetBook_action_spec ha
      obtain ⟨-, h2, h3⟩ := a2 rfl
      rw [BeginTx_view hb] at h2
      rw [h2] at h3
      exact absurd hsel h3
  cases rw with
  | some err =>
    simp only [Prod.mk.injEq] at h
    obtain ⟨rfl, rfl, rfl⟩ := h
    refine ⟨by simp, fun _ => ⟨rfl, w1 (by simp)⟩, fun hn hs => absurd (hok hn hs) (by simp),
      fun hn hs => ?_⟩
    have := hmiss hn hs
    simp only [Option.some.injEq] at this
    rw [this]
  | none =>
    simp only [Prod.mk.injEq] at h
    obtain ⟨rfl, rfl, rfl⟩ := h
    obtain ⟨d1, ws, hb, ⟨hws, hout, hsome⟩, hc⟩ := w2 rfl
    obtain ⟨-, -, -, -, hb5, -⟩ := BeginTx_spec hb
    rw [BeginTx_view hb] at hout
    refine ⟨fun _ => ⟨hout, hsome, ?_⟩, by simp, fun _ _ => rfl,
      fun hn hs => absurd (hmiss hn hs) (by simp)⟩
    rw [hc, hws, (hb5 rfl).2.2.1]
    rfl

/-- Result of `NewAuditDB` in terms of the committed tables. -/
theorem NewAuditDB_spec {user : String} {db db' : DB} {res : Option AuditDB} {r : Option GoError}
    (h : NewAuditDB db user = (res, r, db')) :
    (r = none → res = some { db := db.handle, user := user } ∧ user ∈ db.committed.users ∧
      db'.committed = (Write.insertEvent ⟨⟨db.clock + 2, 0⟩, user, AUDIT_OP_READ, "auth", none⟩).apply
        db.committed) ∧
    (r ≠ none → res = none) ∧
    (db.NoFaults →
      db'.committed = (Write.insertEvent ⟨⟨db.clock + 2, 0⟩, user, AUDIT_OP_READ, "auth", none⟩).apply
        db.committed ∧
      (user ∈ db.committed.users → r = none) ∧
      (user ∉ db.committed.users → r = some ErrUnauthorized)) := by
  unfold NewAuditDB at h
  rcases ha : authorize db user with ⟨ok, ra, d1⟩
  rw [ha] at h
  obtain ⟨a1, a2, a3, -, -⟩ := authorize_spec ha
  cases ra with
  | some err =>
    simp only [Prod.mk.injEq] at h
    obtain ⟨rfl, rfl, rfl⟩ := h
    exact ⟨by simp, fun _ => rfl, fun hn => absurd (a3 hn) (by simp)⟩
  | none =>
    obtain ⟨x1, x2⟩ := a1 rfl
    simp only at h
    cases ok with
    | true =>
      simp only [if_true, Prod.mk.injEq] at h
      obtain ⟨rfl, rfl, rfl⟩ := h
      have hm := x2.1 rfl
      exact ⟨fun _ => ⟨rfl, hm, x1⟩, by simp, fun _ => ⟨x1, fun _ => rfl, fun hn => absurd hm hn⟩⟩
    | false =>
      simp only [Bool.false_eq_true, if_false, Prod.mk.injEq] at h
      obtain ⟨rfl, rfl, rfl⟩ := h
      have hm : user ∉ db.committed.users := fun hm => by
        have := x2.2 hm
        exact absurd this (by simp)
      exact ⟨by simp, fun _ => rfl, fun _ => ⟨x1, fun hx => absurd hx hm, fun _ => rfl⟩⟩

/-- The unfiltered audit query returns the committed events and writes
nothing. -/
theorem QueryEvents_nil_spec {adb : AuditDB} {db db' : DB} {evs : Option (List Event)}
    {r : Option GoError} (h : QueryEvents adb [] db = (evs, r, db')) :
    db.Quiet db' ∧ (r = none → evs.getD [] = db.committed.events) ∧ (db.NoFaults → r = none) := by
  unfold QueryEvents at h
  simp only [List.foldl_nil, whereFilter.where_, List.length_nil, if_true] at h
  rcases hq : dbQueryEvents "" [] db with ⟨r1, rows, d1⟩
  rw [hq] at h
  have hq1 : db.Quiet d1 ∧ (r1 = none → rows = db.committed.events) ∧ (db.NoFaults → r1 = none) := by
    unfold dbQueryEvents at hq
    split at hq
    · next e d0 hf =>
      obtain ⟨q, hn⟩ := fault_spec hf
      simp only [Prod.mk.injEq] at hq
      obtain ⟨rfl, rfl, rfl⟩ := hq
      exact ⟨q, by simp, fun hd => absurd (hn hd) (by simp)⟩
    · next d0 hf =>
      obtain ⟨⟨k, rfl⟩, -⟩ := fault_spec hf
      simp only [if_true, Prod.mk.injEq] at hq
      obtain ⟨rfl, rfl, rfl⟩ := hq
      exact ⟨⟨k, rfl⟩, fun _ => rfl, fun _ => rfl⟩
  obtain ⟨q1, q2, q3⟩ := hq1
  cases r1 with
  | some err =>
    simp only [Prod.mk.injEq] at h
    obtain ⟨rfl, rfl, rfl⟩ := h
    exact ⟨q1, by simp, fun hn => absurd (q3 hn) (by simp)⟩
  | none =>
    simp only at h
    rcases hs : scanAll rows none d1 with ⟨sc, d2⟩
    rw [hs] at h
    obtain ⟨p1, p2, p3⟩ := scanAll_spec _ _ _ _ _ hs
    simp only at h
    cases hse : sc.scanErr with
    | some err =>
      rw [hse] at h
      simp only [Prod.mk.injEq] at h
      obtain ⟨rfl, rfl, rfl⟩ := h
      refine ⟨q1.seq p1, by simp, fun hn => ?_⟩
      have := (p3 (q1.keepsNoFaults hn)).1
      rw [hse] at this
      exact absurd this (by simp)
    | none =>
      rw [hse] at h
      simp only at h
      cases hre : sc.rowsErr with
      | some err =>
        rw [hre] at h
        simp only [Prod.mk.injEq] at h
        obtain ⟨rfl, rfl, rfl⟩ := h
        refine ⟨q1.seq p1, by simp, fun hn => ?_⟩
        have := (p3 (q1.keepsNoFaults hn)).2
        rw [hre] at this
        exact absurd this (by simp)
      | none =>
        rw [hre] at h
        simp only [Prod.mk.injEq] at h
        obtain ⟨rfl, rfl, rfl⟩ := h
        refine ⟨q1.seq p1, fun _ => ?_, fun _ => rfl⟩
        rw [p2 hse hre, foldl_goAppend_getD, q2 rfl]
        rfl

/-- A run of successful `AddAuthor` calls appends one event per call. -/
theorem addAuthors_events (adb : AuditDB) (authors : List Author) :
    ∀ (db db' : DB), addAuthors adb authors db = some db' →
      db'.committed.events.length = db.committed.events.length + authors.length := by
  induction authors with
  | nil =>
    intro db db' h
    simp only [addAuthors, Option.some.injEq] at h
    subst h
    simp
  | cons a rest ih =>
    intro db db' h
    unfold addAuthors at h
    rcases ha : AddAuthor adb a db with ⟨id, r, d1⟩
    rw [ha] at h
    cases r with
    | some err => simp at h
    | none =>
      simp only at h
      obtain ⟨s1, -⟩ := AddAuthor_spec ha
      rw [ih _ _ h, (s1 rfl).2]
      simp only [List.length_append, List.length_cons, List.length_nil]
      omega

/-! ## The claims -/

/-- C1. For each of the ten repository operations, every handle and every
storage state: if the transaction was opened and the transactional action of
the operation fails, the operation returns an error and the committed tables
are exactly what they were before the call. -/
theorem repository_action_failure_is_atomic (c : Call) (adb : AuditDB) (db d1 : DB)
    (hb : BeginTx db = (none, d1)) (hf : c.actionErr adb d1 ≠ none) :
    (c.run adb db).1 ≠ none ∧ (c.run adb db).2.committed = db.committed :=
  (Call.run_spec c adb db).2.2.2 d1 hb hf

/-- Witness for C1: `AddAuthor` whose event insert fails leaves no author
row. -/
theorem repository_action_failure_is_atomic_witness :
    (Call.addAuthor ⟨0, "Virginia Woolf", ⟨725000⟩⟩).actionErr sampleADB
        (BeginTx (sampleDB [none, none, none, some (.new "boom")])).2 =
      some (Errorf "insert event: " (.new "boom")) ∧
    ((Call.addAuthor ⟨0, "Virginia Woolf", ⟨725000⟩⟩).run sampleADB
        (sampleDB [none, none, none, some (.new "boom")])).1 ≠ none ∧
    ((Call.addAuthor ⟨0, "Virginia Woolf", ⟨725000⟩⟩).run sampleADB
        (sampleDB [none, none, none, some (.new "boom")])).2.committed =
      (sampleDB [none, none, none, some (.new "boom")]).committed :=
  ⟨rfl, repository_action_failure_is_atomic (Call.addAuthor ⟨0, "Virginia Woolf", ⟨725000⟩⟩)
    sampleADB (sampleDB [none, none, none, some (.new "boom")]) _ rfl (by decide)⟩

/-- C2. For every action, `wrapInTransaction` ends the transaction it opened
exactly once. If `BeginTx` fails, the result is the wrapped begin error with
the caller's variables and the storage as `BeginTx` left them (the action did
not run, no `Commit`, no `Rollback`). If the action returns nil, the only
boundary call after the action is one `Commit`, whose result is returned. If
the action returns an error, the only boundary call after it is one
`Rollback`, and an error is returned. -/
theorem wrapInTransaction_ends_transaction_once {σ : Type}
    (action : σ → DB → Option GoError × σ × DB) (v : σ) (db : DB) :
    match BeginTx db with
    | (some e, d1) =>
      wrapInTransaction action v db = (some (Errorf "create transaction: " e), v, d1) ∧
      d1.calls = db.calls ++ [TxCall.begin]
    | (none, d1) =>
      d1.calls = db.calls ++ [TxCall.begin] ∧
      match action v d1 with
      | (none, v1, d2) =>
        wrapInTransaction action v db = ((Commit d2).1, v1, (Commit d2).2) ∧
        (wrapInTransaction action v db).2.2.calls = d2.calls ++ [TxCall.commit]
      | (some _, v1, d2) =>
        (wrapInTransaction action v db).1 ≠ none ∧
        (wrapInTransaction action v db).2 = (v1, (Rollback d2).2) ∧
        (wrapInTransaction action v db).2.2.calls = d2.calls ++ [TxCall.rollback] := by
  rcases hb : BeginTx db with ⟨rb, d1⟩
  obtain ⟨-, b2, -⟩ := BeginTx_spec hb
  cases rb with
  | some e =>
    simp only
    refine ⟨?_, b2⟩
    unfold wrapInTransaction
    rw [hb]
  | none =>
    simp only
    refine ⟨b2, ?_⟩
    rcases ha : action v d1 with ⟨ra, v1, d2⟩
    cases ra with
    | none =>
      have hw : wrapInTransaction action v db = ((Commit d2).1, v1, (Commit d2).2) := by
        unfold wrapInTransaction
        rw [hb]
        simp only
        rw [ha]
      simp only
      rcases hc : Commit d2 with ⟨rc, d3⟩
      rw [hw, hc]
      exact ⟨rfl, (Commit_spec hc).1⟩
    | some err =>
      have hw : wrapInTransaction action v db =
          (match Rollback d2 with
            | (some rbErr, db3) =>
              (some (.wrap ("rollback failed because '" ++ rbErr.Error ++ "' after err: " ++
                err.Error) err), v1, db3)
            | (none, db3) => (some err, v1, db3)) := by
        unfold wrapInTransaction
        rw [hb]
        simp only
        rw [ha]
      simp only
      rcases hr : Rollback d2 with ⟨rr, d3⟩
      rw [hr] at hw
      rw [hw]
      cases rr with
      | none => exact ⟨by simp, rfl, (Rollback_spec hr).1⟩
      | some rbErr => exact ⟨by simp, rfl, (Rollback_spec hr).1⟩

/-- C3. For every action that fails with an error `e`, `wrapInTransaction`
returns an error `r` with `errors.Is(r, e)`: `r` is `e` itself when `Rollback`
succeeds; when `Rollback` fails with `rb`, `r` is a different error that wraps
`e` and whose text contains the text of `rb`. -/
theorem wrapInTransaction_propagates_action_error {σ : Type}
    (action : σ → DB → Option GoError × σ × DB) (v v1 : σ) (db d1 d2 : DB) (e : GoError)
    (hb : BeginTx db = (none, d1)) (ha : action v d1 = (some e, v1, d2)) :
    ∃ r, (wrapInTransaction action v db).1 = some r ∧ errorsIs r e = true ∧
      ((Rollback d2).1 = none → r = e) ∧
      (∀ rb, (Rollback d2).1 = some rb →
        r ≠ e ∧
        r = .wrap ("rollback failed because '" ++ rb.Error ++ "' after err: " ++ e.Error) e ∧
        rb.Error.data <:+: r.Error.data) := by
  unfold wrapInTransaction
  rw [hb]
  simp only
  rw [ha]
  simp only
  rcases hr : Rollback d2 with ⟨rr, d3⟩
  cases rr with
  | none => exact ⟨e, rfl, errorsIs_self e, fun _ => rfl, by simp⟩
  | some rbErr =>
    refine ⟨_, rfl, ?_, by simp, ?_⟩
    · simp [errorsIs, errorsIs_self]
    · intro rb hrb
      simp only [Option.some.injEq] at hrb
      subst hrb
      refine ⟨wrap_ne_cause _ _, rfl, ?_⟩
      refine ⟨"rollback failed because '".data, ("' after err: " ++ e.Error).data, ?_⟩
      simp [GoError.Error, String.data_append]

/-- Witness for C3: the action of `AddAuthor` fails at its insert and the
rollback fails as well. -/
theorem wrapInTransaction_propagates_action_error_witness :
    ∃ r, (wrapInTransaction (AddAuthor.action sampleADB ⟨0, "Virginia Woolf", ⟨725000⟩⟩)
        { out := 0, err := none }
        (sampleDB [none, some (.new "boom"), some (.new "gone")])).1 = some r ∧
      errorsIs r (.new "insert author: %!w(<nil>)") = true ∧
      r.Error = "rollback failed because 'gone' after err: insert author: %!w(<nil>)" := by
  obtain ⟨r, h1, h2, -, h4⟩ := wrapInTransaction_propagates_action_error
    (AddAuthor.action sampleADB ⟨0, "Virginia Woolf", ⟨725000⟩⟩) { out := 0, err := none }
    _ (sampleDB [none, some (.new "boom"), some (.new "gone")]) _ _ _ rfl rfl
  refine ⟨r, h1, h2, ?_⟩
  rw [(h4 (.new "gone") rfl).2.1]
  decide

/-- C4. Every repository call that returns no error appends exactly one audit
event to the committed events log: its username is the user of the handle, its
operation kind, object type and object identity are those of the call (the
identity returned by the call for the `Add` methods, none for the `All`
methods). Consequently, on a log that starts empty, an authorization followed
by `n` successful `AddAuthor` calls makes a successful unfiltered `QueryEvents`
return exactly `n + 1` events. -/
theorem successful_call_logs_one_event :
    (∀ (c : Call) (adb : AuditDB) (db : DB), (c.run adb db).1 = none →
      ∃ e : Event, (c.run adb db).2.committed.events = db.committed.events ++ [e] ∧
        e.User = adb.user ∧ e.Operation = c.operation ∧ e.ObjType = c.objType ∧
        e.ID = c.objID adb db) ∧
    (∀ (db db1 db2 db3 : DB) (user : String) (adb : AuditDB) (authors : List Author)
      (evs : Option (List Event)),
      db.committed.events = [] → NewAuditDB db user = (some adb, none, db1) →
      addAuthors adb authors db1 = some db2 → QueryEvents adb [] db2 = (evs, none, db3) →
      (evs.getD []).length = authors.length + 1) := by
  refine ⟨fun c adb db h => ?_, ?_⟩
  · obtain ⟨e, h1, h2, h3, h4, h5, -⟩ := (Call.run_spec c adb db).1 h
    exact ⟨e, h1, h2, h3, h4, h5⟩
  · intro db db1 db2 db3 user adb authors evs h0 hn ha hq
    obtain ⟨n1, -, -⟩ := NewAuditDB_spec hn
    obtain ⟨-, q2, -⟩ := QueryEvents_nil_spec hq
    rw [q2 rfl, addAuthors_events adb authors db1 db2 ha, (n1 rfl).2.2]
    simp only [Write.apply, h0, List.nil_append, List.length_singleton]
    omega

/-- Witness for C4: three authors added after an authorization give four
events, and a successful `AddAuthor` logs a CREATE event on `authors`. -/
theorem successful_call_logs_one_event_witness :
    ((QueryEvents sampleADB []
        (AddAuthor sampleADB ⟨0, "August Strindberg", ⟨675000⟩⟩
          (AddAuthor sampleADB ⟨0, "Leo Tolstoj", ⟨667000⟩⟩
            (AddAuthor sampleADB ⟨0, "Virginia Woolf", ⟨725000⟩⟩
              (NewAuditDB (sampleDB []) "bill").2.2).2.2).2.2).2.2).1.getD []).length = 3 + 1 ∧
    ∃ e : Event,
      ((Call.addAuthor ⟨0, "Virginia Woolf", ⟨725000⟩⟩).run sampleADB
        (sampleDB [])).2.committed.events = (sampleDB []).committed.events ++ [e] ∧
      e.User = "bill" ∧ e.Operation = "CREATE" ∧ e.ObjType = "authors" ∧ e.ID = some 1 :=
  ⟨successful_call_logs_one_event.2 (sampleDB []) _ _ _ "bill" sampleADB
      [⟨0, "Virginia Woolf", ⟨725000⟩⟩, ⟨0, "Leo Tolstoj", ⟨667000⟩⟩,
        ⟨0, "August Strindberg", ⟨675000⟩⟩] _ rfl rfl rfl rfl,
    successful_call_logs_one_event.1 (Call.addAuthor ⟨0, "Virginia Woolf", ⟨725000⟩⟩) sampleADB
      (sampleDB []) rfl⟩

/-- Counterexample to C5 as stated: `UpdateAuthor` for an identity that is not
stored returns the NotFound error, and the event of the attempt is in the
committed log, which was empty before the call. -/
theorem failed_update_keeps_event :
    (UpdateAuthor sampleADB ⟨3, "Virginia Woolf", ⟨725000⟩⟩ (sampleDB [])).1 =
      some ErrDoesNotExist ∧
    (UpdateAuthor sampleADB ⟨3, "Virginia Woolf", ⟨725000⟩⟩ (sampleDB [])).2.committed.events =
      [⟨⟨1, 0⟩, "bill", "UPDATE", "authors", some 3⟩] ∧
    (sampleDB []).committed.events = [] := by
  decide

/-- C5, amended. For every repository call that fails with an error other than
the bare NotFound error, the committed tables, hence the events log, equal
those before the call. The bare NotFound error is returned only by
`UpdateAuthor`, `DeleteAuthor`, `UpdateBook` and `DeleteBook`, after their
transaction was committed: then the log is the log before the call followed by
the one event of the attempt. -/
theorem failed_call_events (c : Call) (adb : AuditDB) (db : DB) (err : GoError)
    (h : (c.run adb db).1 = some err) :
    (err ≠ ErrDoesNotExist → (c.run adb db).2.committed = db.committed) ∧
    (err = ErrDoesNotExist → c.countsRows = true ∧
      (c.run adb db).2.committed.events = db.committed.events ++
        [⟨⟨db.clock + 1, 0⟩, adb.user, c.operation, c.objType, c.objID adb db⟩]) := by
  obtain ⟨-, h2, h3, -⟩ := Call.run_spec c adb db
  refine ⟨fun hne => h2 err h hne, fun he => ?_⟩
  subst he
  exact h3 h

/-- Witness for C5, amended: a `GetAuthor` that finds no row fails and leaves
the tables alone. -/
theorem failed_call_events_witness :
    ((Call.getAuthor 3).run sampleADB (sampleDB [])).1 =
      some (Errorf "transaction: " ErrDoesNotExist) ∧
    ((Call.getAuthor 3).run sampleADB (sampleDB [])).2.committed = (sampleDB []).committed :=
  ⟨rfl, (failed_call_events (Call.getAuthor 3) sampleADB (sampleDB [])
    (Errorf "transaction: " ErrDoesNotExist) rfl).1 (by decide)⟩

/-- C6. Absent storage failures, for every caller identity and every users
table: `NewAuditDB` returns a handle exactly when the identity is a name of
the users table, the handle is bound to that identity and to the given
connection and no error is returned; otherwise it returns no handle and an
error `e` with `errors.Is(e, ErrUnauthorized)`. -/
theorem NewAuditDB_admits_iff_registered (db : DB) (user : String) (hn : db.NoFaults) :
    ((NewAuditDB db user).1 ≠ none ↔ user ∈ db.committed.users) ∧
    (user ∈ db.committed.users →
      (NewAuditDB db user).1 = some { db := db.handle, user := user } ∧
      (NewAuditDB db user).2.1 = none) ∧
    (user ∉ db.committed.users →
      (NewAuditDB db user).1 = none ∧
      ∃ e, (NewAuditDB db user).2.1 = some e ∧ errorsIs e ErrUnauthorized = true) := by
  rcases h : NewAuditDB db user with ⟨res, r, db'⟩
  obtain ⟨s1, s2, s3⟩ := NewAuditDB_spec h
  obtain ⟨-, t2, t3⟩ := s3 hn
  simp only
  have hin : user ∈ db.committed.users → res = some { db := db.handle, user := user } ∧ r = none :=
    fun hm => ⟨(s1 (t2 hm)).1, t2 hm⟩
  have hout : user ∉ db.committed.users →
      res = none ∧ ∃ e, r = some e ∧ errorsIs e ErrUnauthorized = true := by
    intro hm
    refine ⟨s2 (by rw [t3 hm]; simp), ErrUnauthorized, t3 hm, errorsIs_self _⟩
  refine ⟨⟨fun hres => ?_, fun hm => by rw [(hin hm).1]; simp⟩, hin, hout⟩
  by_contra hm
  exact hres (hout hm).1

/-- Witness for C6: `bill` is registered, `someone-else` is not. -/
theorem NewAuditDB_admits_iff_registered_witness :
    (NewAuditDB (sampleDB []) "bill").1 = some { db := 7, user := "bill" } ∧
    (NewAuditDB (sampleDB []) "someone-else").1 = none ∧
    ∃ e, (NewAuditDB (sampleDB []) "someone-else").2.1 = some e ∧
      errorsIs e ErrUnauthorized = true :=
  ⟨((NewAuditDB_admits_iff_registered (sampleDB []) "bill" (by decide)).2.1 (by decide)).1,
    (NewAuditDB_admits_iff_registered (sampleDB []) "someone-else" (by decide)).2.2 (by decide)⟩

/-- C7. Every authorization attempt that completes without a storage failure
records exactly one audit event with operation READ, object type `auth`, no
object identity and the caller identity as username. Absent storage failures
the attempt does complete, and the event is in the committed log whether
`NewAuditDB` admits the caller or rejects it with `ErrUnauthorized`. -/
theorem authorization_records_one_event (db : DB) (user : String) :
    ((authorize db user).2.1 = none →
      (authorize db user).2.2.committed.events = db.committed.events ++
        [⟨⟨db.clock + 2, 0⟩, user, AUDIT_OP_READ, "auth", none⟩]) ∧
    (db.NoFaults →
      (authorize db user).2.1 = none ∧
      ((NewAuditDB db user).2.1 = none ∨ (NewAuditDB db user).2.1 = some ErrUnauthorized) ∧
      (NewAuditDB db user).2.2.committed.events = db.committed.events ++
        [⟨⟨db.clock + 2, 0⟩, user, AUDIT_OP_READ, "auth", none⟩]) := by
  rcases h : authorize db user with ⟨ok, r, db'⟩
  rcases h2 : NewAuditDB db user with ⟨res, r2, db2⟩
  obtain ⟨a1, -, a3, -, -⟩ := authorize_spec h
  obtain ⟨-, -, n3⟩ := NewAuditDB_spec h2
  simp only
  refine ⟨fun hr => by rw [(a1 hr).1]; rfl, fun hn => ⟨a3 hn, ?_, by rw [(n3 hn).1]; rfl⟩⟩
  by_cases hm : user ∈ db.committed.users
  · exact Or.inl ((n3 hn).2.1 hm)
  · exact Or.inr ((n3 hn).2.2 hm)

/-- Witness for C7: the rejected caller `someone-else` leaves its event. -/
theorem authorization_records_one_event_witness :
    (NewAuditDB (sampleDB []) "someone-else").2.1 = some ErrUnauthorized ∧
    (NewAuditDB (sampleDB []) "someone-else").2.2.committed.events =
      [⟨⟨2, 0⟩, "someone-else", "READ", "auth", none⟩] ∧
    (authorize (sampleDB []) "bill").2.2.committed.events =
      [⟨⟨2, 0⟩, "bill", "READ", "auth", none⟩] :=
  ⟨rfl,
    ((authorization_records_one_event (sampleDB []) "someone-else").2 (by decide)).2.2,
    (authorization_records_one_event (sampleDB []) "bill").1 rfl⟩

/-- C8, on the code: the users query of `authorize` fails after its event
insert succeeded. `authorize` returns the error of the query and rolls its
transaction back, yet the event is in the committed log, which was empty
before the call: the insert went through `db`, outside the transaction. -/
theorem authorize_failure_keeps_event :
    (authorize (sampleDB [none, none, some (.new "boom")]) "bill").2.1 =
      some (Errorf "query users: " (.new "boom")) ∧
    (authorize (sampleDB [none, none, some (.new "boom")]) "bill").2.2.calls =
      [TxCall.begin, TxCall.rollback] ∧
    (authorize (sampleDB [none, none, some (.new "boom")]) "bill").2.2.committed.events =
      [⟨⟨2, 0⟩, "bill", "READ", "auth", none⟩] ∧
    (sampleDB [none, none, some (.new "boom")]).committed.events = [] := by
  decide

/-- C9. In `authorize` the closing rollback never masks an earlier error. The
deferred function keeps a non-nil `err` whatever `Rollback` returns, and turns
a nil `err` into the rollback error only when that error is not
`sql.ErrTxDone`. Hence when a step of `authorize` failed, the error returned is
the error of that step; when all steps succeeded, the deferred `Rollback`
answers `sql.ErrTxDone` and `authorize` returns no error. Every error
`authorize` returns is a step error that wraps its cause. -/
theorem authorize_rollback_never_masks (db : DB) (user : String) :
    (∀ err err2, authorize.deferred (some err) err2 = some err) ∧
    (∀ err2 e, authorize.deferred none err2 = some e →
      err2 = some e ∧ errorsIs e ErrTxDone = false) ∧
    (∀ d1 d2 ok err, BeginTx db = (none, d1) → authorize.body user d1 = (ok, some err, d2) →
      (authorize db user).2.1 = some err) ∧
    (∀ d1 d2 ok, BeginTx db = (none, d1) → authorize.body user d1 = (ok, none, d2) →
      (Rollback d2).1 = some ErrTxDone ∧ (authorize db user).2.1 = none ∧
      (authorize db user).1 = ok) ∧
    (∀ e, (authorize db user).2.1 = some e →
      ∃ pre cause, e = Errorf pre cause ∧ errorsIs e cause = true) := by
  refine ⟨fun err err2 => rfl, ?_, ?_, ?_, ?_⟩
  · intro err2 e h
    unfold authorize.deferred at h
    cases err2 with
    | none => simp at h
    | some e2 =>
      simp only at h
      split at h
      · next hne =>
        simp only [Option.some.injEq] at h
        subst h
        exact ⟨rfl, by simpa using hne⟩
      · simp at h
  · intro d1 d2 ok err hb ha
    unfold authorize
    rw [hb]
    simp only
    rw [ha]
    rfl
  · intro d1 d2 ok hb ha
    obtain ⟨-, -, -, -, b5, -⟩ := BeginTx_spec hb
    obtain ⟨a1, -⟩ := authorize.body_spec ha (b5 rfl).2.1 (b5 rfl).1
    have hr : (Rollback d2).1 = some ErrTxDone := by
      rcases hr : Rollback d2 with ⟨r2, d3⟩
      exact (Rollback_spec hr).2.2.2.2.1 (a1 rfl).2.1
    have hau : authorize db user = (ok, authorize.deferred none (Rollback d2).1, (Rollback d2).2) := by
      unfold authorize
      rw [hb]
      simp only
      rw [ha]
    rw [hau, hr]
    refine ⟨rfl, ?_, rfl⟩
    show authorize.deferred none (some ErrTxDone) = none
    decide
  · intro e he
    rcases h : authorize db user with ⟨ok, r, db'⟩
    rw [h] at he
    obtain ⟨-, -, -, -, a5⟩ := authorize_spec h
    obtain ⟨pre, cause, hc⟩ := a5 e he
    exact ⟨pre, cause, hc, by rw [hc]; exact errorsIs_Errorf pre cause⟩

/-- Witness for C9: the users scan fails and then the rollback fails too; the
scan error is returned. After a run without failures no error is returned. -/
theorem authorize_rollback_never_masks_witness :
    (authorize (sampleDB [none, none, none, none, some (.new "bad row"), some (.new "gone")])
      "bill").2.1 = some (Errorf "scanning row: " (.new "bad row")) ∧
    (authorize (sampleDB []) "bill").2.1 = none :=
  ⟨(authorize_rollback_never_masks
      (sampleDB [none, none, none, none, some (.new "bad row"), some (.new "gone")]) "bill").2.2.1
      _ _ _ _ rfl rfl,
    ((authorize_rollback_never_masks (sampleDB []) "bill").2.2.2.1 _ _ _ rfl rfl).2.1⟩

/-- C10. Round trip. For every author `a` and every storage state, if
`AddAuthor(a)` succeeds and returns `id`, then an immediately following
`GetAuthor(id)` that succeeds returns `a` with its `ID` set to `id`, and absent
storage failures it does succeed. Likewise for every book `b`: if
`AddBook(authorID, b)` returns `id` then `GetBook(authorID, id)` returns `b`
with its `ID` set to `id`. -/
theorem add_then_get_round_trip (adb : AuditDB) :
    (∀ (a : Author) (db db1 : DB) (id : Int), AddAuthor adb a db = (id, none, db1) →
      ((GetAuthor adb id db1).2.1 = none →
        (GetAuthor adb id db1).1 = some { a with ID := id }) ∧
      (db1.NoFaults → (GetAuthor adb id db1).2.1 = none)) ∧
    (∀ (authorID : Int) (b : Book) (db db1 : DB) (id : Int),
      AddBook adb authorID b db = (id, none, db1) →
      ((GetBook adb authorID id db1).2.1 = none →
        (GetBook adb authorID id db1).1 = some { b with ID := id }) ∧
      (db1.NoFaults → (GetBook adb authorID id db1).2.1 = none)) := by
  constructor
  · intro a db db1 id h
    obtain ⟨s1, -⟩ := AddAuthor_spec h
    obtain ⟨hfresh, hc⟩ := s1 rfl
    have hfind : db1.committed.authors.find? (fun x => decide (x.ID = id)) =
        some ⟨id, a.Name, a.DateOfBirth⟩ := by
      rw [hc]
      simp only [List.find?_append]
      have : db.committed.authors.find? (fun x => decide (x.ID = id)) = none := by
        rw [List.find?_eq_none]
        intro x hx
        simpa using hfresh x hx
      rw [this]
      simp
    rcases hg : GetAuthor adb id db1 with ⟨res, r, db2⟩
    obtain ⟨g1, -, g3, -⟩ := GetAuthor_spec hg
    simp only
    refine ⟨fun hr => ?_, fun hn => g3 hn (by rw [hfind]; simp)⟩
    rw [(g1 hr).1, hfind]
  · intro authorID b db db1 id h
    obtain ⟨s1, -⟩ := AddBook_spec h
    obtain ⟨hfresh, hc⟩ := s1 rfl
    have hfind : (db1.committed.books.find?
        (fun x => decide (x.book.ID = id ∧ x.author_id = authorID))).map (fun x => x.book) =
        some ⟨id, b.Title, b.Published⟩ := by
      rw [hc]
      simp only [List.find?_append]
      have : db.committed.books.find?
          (fun x => decide (x.book.ID = id ∧ x.author_id = authorID)) = none := by
        rw [List.find?_eq_none]
        intro x hx
        have := hfresh x hx
        simp [this]
      rw [this]
      simp
    rcases hg : GetBook adb authorID id db1 with ⟨res, r, db2⟩
    obtain ⟨g1, -, g3, -⟩ := GetBook_spec hg
    simp only
    refine ⟨fun hr => ?_, fun hn => g3 hn (by rw [hfind]; simp)⟩
    rw [(g1 hr).1, hfind]

/-- Witness for C10: Virginia Woolf is added and read back, and so is a book
of hers. -/
theorem add_then_get_round_trip_witness :
    (GetAuthor sampleADB 1 (AddAuthor sampleADB ⟨0, "Virginia Woolf", ⟨725000⟩⟩ (sampleDB [])).2.2).1 =
      some ⟨1, "Virginia Woolf", ⟨725000⟩⟩ ∧
    (GetBook sampleADB 1 1 (AddBook sampleADB 1 ⟨0, "Orlando", ⟨703000⟩⟩ (sampleDB [])).2.2).1 =
      some ⟨1, "Orlando", ⟨703000⟩⟩ :=
  ⟨((add_then_get_round_trip sampleADB).1 ⟨0, "Virginia Woolf", ⟨725000⟩⟩ (sampleDB []) _ 1 rfl).1
      rfl,
    ((add_then_get_round_trip sampleADB).2 1 ⟨0, "Orlando", ⟨703000⟩⟩ (sampleDB []) _ 1 rfl).1 rfl⟩

theorem wrapInTransaction_suffix {σ : Type} {action : σ → DB → Option GoError × σ × DB}
    {v v' : σ} {db db' : DB} {r : Option GoError}
    (hact : ∀ d r v' d', action v d = (r, v', d') → ∃ ws, d.TxStep d' ws)
    (h : wrapInTransaction action v db = (r, v', db')) :
    ∃ k, db'.faults = db.faults.drop k := by
  rcases wrapInTransaction_cases h with ⟨e, hb, -, -⟩ | ⟨d1, d2, err, rb, hb, ha, hr, -⟩ |
    ⟨d1, d2, hb, ha, hc⟩
  · exact (BeginTx_spec hb).2.2.2.1
  · obtain ⟨k1, h1⟩ := (BeginTx_spec hb).2.2.2.1
    obtain ⟨ws, k2, a, b, rfl⟩ := hact _ _ _ _ ha
    obtain ⟨k3, h3⟩ := (Rollback_spec hr).2.2.1
    exact ⟨k1 + k2 + k3, by rw [h3]; simp only [h1, List.drop_drop]⟩
  · obtain ⟨k1, h1⟩ := (BeginTx_spec hb).2.2.2.1
    obtain ⟨ws, k2, a, b, rfl⟩ := hact _ _ _ _ ha
    obtain ⟨k3, h3⟩ := (Commit_spec hc).2.2.1
    exact ⟨k1 + k2 + k3, by rw [h3]; simp only [h1, List.drop_drop]⟩

/-- Result of `UpdateAuthor` in terms of the committed tables. -/
theorem UpdateAuthor_spec {adb : AuditDB} {a : Author} {db db' : DB} {r : Option GoError}
    (h : UpdateAuthor adb a db = (r, db')) :
    (∃ k, db'.faults = db.faults.drop k) ∧
    ((r = none ∨ r = some ErrDoesNotExist) →
      db'.committed = (Write.updateAuthor a.ID a.Name a.DateOfBirth).apply ((Write.insertEvent
        ⟨⟨db.clock + 1, 0⟩, adb.user, AUDIT_OP_UPDATE, "authors", some a.ID⟩).apply db.committed) ∧
      (r = some ErrDoesNotExist ↔ (Write.updateAuthor a.ID a.Name a.DateOfBirth).affected db.committed = 0)) ∧
    (¬ (r = none ∨ r = some ErrDoesNotExist) → db'.committed = db.committed) ∧
    (db.NoFaults → (r = none ∨ r = some ErrDoesNotExist)) := by
  have hact : ∀ (d : DB) (r : Option GoError) (v1 : Captured Int) (d1 : DB),
      UpdateAuthor.action adb a { out := 0, err := none } d = (r, v1, d1) →
      ∃ ws, d.TxStep d1 ws ∧ (r = none →
        ws = [.insertEvent ⟨⟨d.txStart, 0⟩, adb.user, AUDIT_OP_UPDATE, "authors", some a.ID⟩, Write.updateAuthor a.ID a.Name a.DateOfBirth] ∧
        v1.out = (Write.updateAuthor a.ID a.Name a.DateOfBirth).affected d.view) := by
    intro d r v1 d1 h
    obtain ⟨ws, a1, a2, -⟩ := UpdateAuthor_action_spec h
    exact ⟨ws, a1, a2⟩
  unfold UpdateAuthor at h
  rcases hw : wrapInTransaction (UpdateAuthor.action adb a) { out := 0, err := none } db with
    ⟨rw, v1, db1⟩
  rw [hw] at h
  obtain ⟨w1, w2, -⟩ := wrapInTransaction_tx hact hw
  have hsuf := wrapInTransaction_suffix (fun d r v' d' h => by
    obtain ⟨ws, a1, -⟩ := hact d r v' d' h
    exact ⟨ws, a1⟩) hw
  have hok : db.NoFaults → rw = none := by
    intro hn
    have := wrapInTransaction_ok hact hn (fun d1 hb hn1 => by
      rcases ha : UpdateAuthor.action adb a { out := 0, err := none } d1 with ⟨ra, va, da⟩
      obtain ⟨ws, -, -, a3⟩ := UpdateAuthor_action_spec ha
      exact a3 hn1 (((BeginTx_spec hb).2.2.2.2.1 rfl).1))
    rw [hw] at this
    exact this
  cases rw with
  | some err =>
    simp only [Prod.mk.injEq] at h
    obtain ⟨rfl, rfl⟩ := h
    refine ⟨hsuf, fun hr => ?_, fun _ => w1 (by simp), fun hn => absurd (hok hn) (by simp)⟩
    rcases hr with hr | hr
    · simp at hr
    · simp [Errorf, ErrDoesNotExist] at hr
  | none =>
    obtain ⟨d1, ws, hb, ⟨hws, hout⟩, hc⟩ := w2 rfl
    obtain ⟨-, -, -, -, hb5, -⟩ := BeginTx_spec hb
    rw [BeginTx_view hb] at hout
    have hcom : db1.committed = (Write.updateAuthor a.ID a.Name a.DateOfBirth).apply ((Write.insertEvent
        ⟨⟨db.clock + 1, 0⟩, adb.user, AUDIT_OP_UPDATE, "authors", some a.ID⟩).apply db.committed) := by
      rw [hc, hws, (hb5 rfl).2.2.1]
      rfl
    simp only at h
    by_cases hz : v1.out = 0
    · simp only [hz, if_true, Prod.mk.injEq] at h
      obtain ⟨rfl, rfl⟩ := h
      refine ⟨hsuf, fun _ => ⟨hcom, ?_⟩, fun hr => absurd (Or.inr rfl) hr, fun _ => Or.inr rfl⟩
      rw [← hout, hz]
      simp
    · simp only [hz, if_false, Prod.mk.injEq] at h
      obtain ⟨rfl, rfl⟩ := h
      refine ⟨hsuf, fun _ => ⟨hcom, ?_⟩, fun hr => absurd (Or.inl rfl) hr, fun _ => Or.inl rfl⟩
      rw [← hout]
      simp [hz]

/-- Result of `DeleteAuthor` in terms of the committed tables. -/
theorem DeleteAuthor_spec {adb : AuditDB} {id : Int} {db db' : DB} {r : Option GoError}
    (h : DeleteAuthor adb id db = (r, db')) :
    (∃ k, db'.faults = db.faults.drop k) ∧
    ((r = none ∨ r = some ErrDoesNotExist) →
      db'.committed = (Write.deleteAuthor id).apply ((Write.insertEvent
        ⟨⟨db.clock + 1, 0⟩, adb.user, AUDIT_OP_DELETE, "authors", some id⟩).apply db.committed) ∧
      (r = some ErrDoesNotExist ↔ (Write.deleteAuthor id).affected db.committed = 0)) ∧
    (¬ (r = none ∨ r = some ErrDoesNotExist) → db'.committed = db.committed) ∧
    (db.NoFaults → (r = none ∨ r = some ErrDoesNotExist)) := by
  have hact : ∀ (d : DB) (r : Option GoError) (v1 : Captured Int) (d1 : DB),
      DeleteAuthor.action adb id { out := 0, err := none } d = (r, v1, d1) →
      ∃ ws, d.TxStep d1 ws ∧ (r = none →
        ws = [.insertEvent ⟨⟨d.txStart, 0⟩, adb.user, AUDIT_OP_DELETE, "authors", some id⟩, Write.deleteAuthor id] ∧
        v1.out = (Write.deleteAuthor id).affected d.view) := by
    intro d r v1 d1 h
    obtain ⟨ws, a1, a2, -⟩ := DeleteAuthor_action_spec h
    exact ⟨ws, a1, a2⟩
  unfold DeleteAuthor at h
  rcases hw : wrapInTransaction (DeleteAuthor.action adb id) { out := 0, err := none } db with
    ⟨rw, v1, db1⟩
  rw [hw] at h
  obtain ⟨w1, w2, -⟩ := wrapInTransaction_tx hact hw
  have hsuf := wrapInTransaction_suffix (fun d r v' d' h => by
    obtain ⟨ws, a1, -⟩ := hact d r v' d' h
    exact ⟨ws, a1⟩) hw
  have hok : db.NoFaults → rw = none := by
    intro hn
    have := wrapInTransaction_ok hact hn (fun d1 hb hn1 => by
      rcases ha : DeleteAuthor.action adb id { out := 0, err := none } d1 with ⟨ra, va, da⟩
      obtain ⟨ws, -, -, a3⟩ := DeleteAuthor_action_spec ha
      exact a3 hn1 (((BeginTx_spec hb).2.2.2.2.1 rfl).1))
    rw [hw] at this
    exact this
  cases rw with
  | some err =>
    simp only [Prod.mk.injEq] at h
    obtain ⟨rfl, rfl⟩ := h
    refine ⟨hsuf, fun hr => ?_, fun _ => w1 (by simp), fun hn => absurd (hok hn) (by simp)⟩
    rcases hr with hr | hr
    · simp at hr
    · simp [Errorf, ErrDoesNotExist] at hr
  | none =>
    obtain ⟨d1, ws, hb, ⟨hws, hout⟩, hc⟩ := w2 rfl
    obtain ⟨-, -, -, -, hb5, -⟩ := BeginTx_spec hb
    rw [BeginTx_view hb] at hout
    have hcom : db1.committed = (Write.deleteAuthor id).apply ((Write.insertEvent
        ⟨⟨db.clock + 1, 0⟩, adb.user, AUDIT_OP_DELETE, "authors", some id⟩).apply db.committed) := by
      rw [hc, hws, (hb5 rfl).2.2.1]
      rfl
    simp only at h
    by_cases hz : v1.out = 0
    · simp only [hz, if_true, Prod.mk.injEq] at h
      obtain ⟨rfl, rfl⟩ := h
      refine ⟨hsuf, fun _ => ⟨hcom, ?_⟩, fun hr => absurd (Or.inr rfl) hr, fun _ => Or.inr rfl⟩
      rw [← hout, hz]
      simp
    · simp only [hz, if_false, Prod.mk.injEq] at h
      obtain ⟨rfl, rfl⟩ := h
      refine ⟨hsuf, fun _ => ⟨hcom, ?_⟩, fun hr => absurd (Or.inl rfl) hr, fun _ => Or.inl rfl⟩
      rw [← hout]
      simp [hz]

/-- Result of `UpdateBook` in terms of the committed tables. -/
theorem UpdateBook_spec {adb : AuditDB} {authorID : Int} {b : Book} {db db' : DB} {r : Option GoError}
    (h : UpdateBook adb authorID b db = (r, db')) :
    (∃ k, db'.faults = db.faults.drop k) ∧
    ((r = none ∨ r = some ErrDoesNotExist) →
      db'.committed = (Write.updateBook b.ID b.Title b.Published).apply ((Write.insertEvent
        ⟨⟨db.clock + 1, 0⟩, adb.user, AUDIT_OP_UPDATE, "books", some b.ID⟩).apply db.committed) ∧
      (r = some ErrDoesNotExist ↔ (Write.updateBook b.ID b.Title b.Published).affected db.committed = 0)) ∧
    (¬ (r = none ∨ r = some ErrDoesNotExist) → db'.committed = db.committed) ∧
    (db.NoFaults → (r = none ∨ r = some ErrDoesNotExist)) := by
  have hact : ∀ (d : DB) (r : Option GoError) (v1 : Captured Int) (d1 : DB),
      UpdateBook.action adb b { out := 0, err := none } d = (r, v1, d1) →
      ∃ ws, d.TxStep d1 ws ∧ (r = none →
        ws = [.insertEvent ⟨⟨d.txStart, 0⟩, adb.user, AUDIT_OP_UPDATE, "books", some b.ID⟩, Write.updateBook b.ID b.Title b.Published] ∧
        v1.out = (Write.updateBook b.ID b.Title b.Published).affected d.view) := by
    intro d r v1 d1 h
    obtain ⟨ws, a1, a2, -⟩ := UpdateBook_action_spec h
    exact ⟨ws, a1, a2⟩
  unfold UpdateBook at h
  rcases hw : wrapInTransaction (UpdateBook.action adb b) { out := 0, err := none } db with
    ⟨rw, v1, db1⟩
  rw [hw] at h
  obtain ⟨w1, w2, -⟩ := wrapInTransaction_tx hact hw
  have hsuf := wrapInTransaction_suffix (fun d r v' d' h => by
    obtain ⟨ws, a1, -⟩ := hact d r v' d' h
    exact ⟨ws, a1⟩) hw
  have hok : db.NoFaults → rw = none := by
    intro hn
    have := wrapInTransaction_ok hact hn (fun d1 hb hn1 => by
      rcases ha : UpdateBook.action adb b { out := 0, err := none } d1 with ⟨ra, va, da⟩
      obtain ⟨ws, -, -, a3⟩ := UpdateBook_action_spec ha
      exact a3 hn1 (((BeginTx_spec hb).2.2.2.2.1 rfl).1))
    rw [hw] at this
    exact this
  cases rw with
  | some err =>
    simp only [Prod.mk.injEq] at h
    obtain ⟨rfl, rfl⟩ := h
    refine ⟨hsuf, fun hr => ?_, fun _ => w1 (by simp), fun hn => absurd (hok hn) (by simp)⟩
    rcases hr with hr | hr
    · simp at hr
    · simp [Errorf, ErrDoesNotExist] at hr
  | none =>
    obtain ⟨d1, ws, hb, ⟨hws, hout⟩, hc⟩ := w2 rfl
    obtain ⟨-, -, -, -, hb5, -⟩ := BeginTx_spec hb
    rw [BeginTx_view hb] at hout
    have hcom : db1.committed = (Write.updateBook b.ID b.Title b.Published).apply ((Write.insertEvent
        ⟨⟨db.clock + 1, 0⟩, adb.user, AUDIT_OP_UPDATE, "books", some b.ID⟩).apply db.committed) := by
      rw [hc, hws, (hb5 rfl).2.2.1]
      rfl
    simp only at h
    by_cases hz : v1.out = 0
    · simp only [hz, if_true, Prod.mk.injEq] at h
      obtain ⟨rfl, rfl⟩ := h
      refine ⟨hsuf, fun _ => ⟨hcom, ?_⟩, fun hr => absurd (Or.inr rfl) hr, fun _ => Or.inr rfl⟩
      rw [← hout, hz]
      simp
    · simp only [hz, if_false, Prod.mk.injEq] at h
      obtain ⟨rfl, rfl⟩ := h
      refine ⟨hsuf, fun _ => ⟨hcom, ?_⟩, fun hr => absurd (Or.inl rfl) hr, fun _ => Or.inl rfl⟩
      rw [← hout]
      simp [hz]

/-- Result of `DeleteBook` in terms of the committed tables. -/
theorem DeleteBook_spec {adb : AuditDB} {authorID bookID : Int} {db db' : DB} {r : Option GoError}
    (h : DeleteBook adb authorID bookID db = (r, db')) :
    (∃ k, db'.faults = db.faults.drop k) ∧
    ((r = none ∨ r = some ErrDoesNotExist) →
      db'.committed = (Write.deleteBook bookID authorID).apply ((Write.insertEvent
        ⟨⟨db.clock + 1, 0⟩, adb.user, AUDIT_OP_DELETE, "books", some bookID⟩).apply db.committed) ∧
      (r = some ErrDoesNotExist ↔ (Write.deleteBook bookID authorID).affected db.committed = 0)) ∧
    (¬ (r = none ∨ r = some ErrDoesNotExist) → db'.committed = db.committed) ∧
    (db.NoFaults → (r = none ∨ r = some ErrDoesNotExist)) := by
  have hact : ∀ (d : DB) (r : Option GoError) (v1 : Captured Int) (d1 : DB),
      DeleteBook.action adb authorID bookID { out := 0, err := none } d = (r, v1, d1) →
      ∃ ws, d.TxStep d1 ws ∧ (r = none →
        ws = [.insertEvent ⟨⟨d.txStart, 0⟩, adb.user, AUDIT_OP_DELETE, "books", some bookID⟩, Write.deleteBook bookID authorID] ∧
        v1.out = (Write.deleteBook bookID authorID).affected d.view) := by
    intro d r v1 d1 h
    obtain ⟨ws, a1, a2, -⟩ := DeleteBook_action_spec h
    exact ⟨ws, a1, a2⟩
  unfold DeleteBook at h
  rcases hw : wrapInTransaction (DeleteBook.action adb authorID bookID) { out := 0, err := none } db with
    ⟨rw, v1, db1⟩
  rw [hw] at h
  obtain ⟨w1, w2, -⟩ := wrapInTransaction_tx hact hw
  have hsuf := wrapInTransaction_suffix (fun d r v' d' h => by
    obtain ⟨ws, a1, -⟩ := hact d r v' d' h
    exact ⟨ws, a1⟩) hw
  have hok : db.NoFaults → rw = none := by
    intro hn
    have := wrapInTransaction_ok hact hn (fun d1 hb hn1 => by
      rcases ha : DeleteBook.action adb authorID bookID { out := 0, err := none } d1 with ⟨ra, va, da⟩
      obtain ⟨ws, -, -, a3⟩ := DeleteBook_action_spec ha
      exact a3 hn1 (((BeginTx_spec hb).2.2.2.2.1 rfl).1))
    rw [hw] at this
    exact this
  cases rw with
  | some err =>
    simp only [Prod.mk.injEq] at h
    obtain ⟨rfl, rfl⟩ := h
    refine ⟨hsuf, fun hr => ?_, fun _ => w1 (by simp), fun hn => absurd (hok hn) (by simp)⟩
    rcases hr with hr | hr
    · simp at hr
    · simp [Errorf, ErrDoesNotExist] at hr
  | none =>
    obtain ⟨d1, ws, hb, ⟨hws, hout⟩, hc⟩ := w2 rfl
    obtain ⟨-, -, -, -, hb5, -⟩ := BeginTx_spec hb
    rw [BeginTx_view hb] at hout
    have hcom : db1.committed = (Write.deleteBook bookID authorID).apply ((Write.insertEvent
        ⟨⟨db.clock + 1, 0⟩, adb.user, AUDIT_OP_DELETE, "books", some bookID⟩).apply db.committed) := by
      rw [hc, hws, (hb5 rfl).2.2.1]
      rfl
    simp only at h
    by_cases hz : v1.out = 0
    · simp only [hz, if_true, Prod.mk.injEq] at h
      obtain ⟨rfl, rfl⟩ := h
      refine ⟨hsuf, fun _ => ⟨hcom, ?_⟩, fun hr => absurd (Or.inr rfl) hr, fun _ => Or.inr rfl⟩
      rw [← hout, hz]
      simp
    · simp only [hz, if_false, Prod.mk.injEq] at h
      obtain ⟨rfl, rfl⟩ := h
      refine ⟨hsuf, fun _ => ⟨hcom, ?_⟩, fun hr => absurd (Or.inl rfl) hr, fun _ => Or.inl rfl⟩
      rw [← hout]
      simp [hz]

theorem filter_eq_nil_of_forall_ne {α : Type} (l : List α) (p : α → Bool)
    (h : ∀ x ∈ l, p x = false) : l.filter p = [] := by
  rw [List.filter_eq_nil_iff]
  intro x hx
  simp [h x hx]

theorem filter_eq_self_of_forall {α : Type} (l : List α) (p : α → Bool)
    (h : ∀ x ∈ l, p x = true) : l.filter p = l := by
  rw [List.filter_eq_self]
  exact h

/-- C11. For every identity under which no author is stored, and absent
storage failures: `GetAuthor` returns no author and an error `e` with
`errors.Is(e, ErrDoesNotExist)`; `DeleteAuthor` returns such an error too and
the authors table (and the books table) is what it was. -/
theorem missing_author_is_not_found (adb : AuditDB) (id : Int) (db : DB)
    (hmiss : ∀ x ∈ db.committed.authors, x.ID ≠ id) (hn : db.NoFaults) :
    (GetAuthor adb id db).1 = none ∧
    (∃ e, (GetAuthor adb id db).2.1 = some e ∧ errorsIs e ErrDoesNotExist = true) ∧
    (∃ e, (DeleteAuthor adb id db).1 = some e ∧ errorsIs e ErrDoesNotExist = true) ∧
    (DeleteAuthor adb id db).2.committed.authors = db.committed.authors ∧
    (DeleteAuthor adb id db).2.committed.books = db.committed.books := by
  have hfind : db.committed.authors.find? (fun x => decide (x.ID = id)) = none := by
    rw [List.find?_eq_none]
    intro x hx
    simpa using hmiss x hx
  rcases hg : GetAuthor adb id db with ⟨res, r, db1⟩
  obtain ⟨-, g2, -, g4⟩ := GetAuthor_spec hg
  have hr := g4 hn hfind
  rcases hd : DeleteAuthor adb id db with ⟨r2, db2⟩
  obtain ⟨-, d2, -, d4⟩ := DeleteAuthor_spec hd
  obtain ⟨hc, hiff⟩ := d2 (d4 hn)
  have haff : (Write.deleteAuthor id).affected db.committed = 0 := by
    simp only [Write.affected]
    rw [filter_eq_nil_of_forall_ne _ _ (fun x hx => by simpa using hmiss x hx)]
    rfl
  simp only
  refine ⟨(g2 (by rw [hr]; simp)).1, ⟨_, hr, errorsIs_Errorf _ _⟩,
    ⟨_, hiff.2 haff, errorsIs_self _⟩, ?_, ?_⟩
  · rw [hc]
    simp only [Write.apply]
    exact filter_eq_self_of_forall _ _ (fun x hx => by simpa using hmiss x hx)
  · rw [hc]
    rfl

/-- Witness for C11: nothing is stored under the identities 123 and 1234. -/
theorem missing_author_is_not_found_witness :
    (GetAuthor sampleADB 123 (sampleDB [])).2.1 = some (Errorf "transaction: " ErrDoesNotExist) ∧
    (DeleteAuthor sampleADB 1234 (sampleDB [])).1 = some ErrDoesNotExist ∧
    (GetAuthor sampleADB 123 (sampleDB [])).1 = none :=
  ⟨rfl, rfl, (missing_author_is_not_found sampleADB 123 (sampleDB []) (by decide) (by decide)).1⟩

/-- Counterexample to C12 as stated: `GetAuthor` for an identity that matches
no row fails with NotFound and the events log, empty before the call, is still
empty; the transaction of the failed read was rolled back. -/
theorem missing_get_keeps_no_event :
    (GetAuthor sampleADB 123 (sampleDB [])).2.1 = some (Errorf "transaction: " ErrDoesNotExist) ∧
    (GetAuthor sampleADB 123 (sampleDB [])).2.2.calls = [TxCall.begin, TxCall.rollback] ∧
    (GetAuthor sampleADB 123 (sampleDB [])).2.2.committed.events = [] ∧
    (sampleDB []).committed.events = [] := by
  decide

/-- C12, amended. When `GetAuthor` (or `GetBook`) is called with an identity
that matches no row, absent storage failures, the call fails with an error `e`
with `errors.Is(e, ErrDoesNotExist)` and the committed tables, the events log
among them, are exactly what they were before the call: the READ event of the
attempt is rolled back with the transaction. -/
theorem missing_get_rolls_back (adb : AuditDB) (db : DB) (hn : db.NoFaults) :
    (∀ id : Int, (∀ x ∈ db.committed.authors, x.ID ≠ id) →
      (∃ e, (GetAuthor adb id db).2.1 = some e ∧ errorsIs e ErrDoesNotExist = true) ∧
      (GetAuthor adb id db).2.2.committed = db.committed) ∧
    (∀ authorID bookID : Int,
      (∀ x ∈ db.committed.books, ¬ (x.book.ID = bookID ∧ x.author_id = authorID)) →
      (∃ e, (GetBook adb authorID bookID db).2.1 = some e ∧ errorsIs e ErrDoesNotExist = true) ∧
      (GetBook adb authorID bookID db).2.2.committed = db.committed) := by
  constructor
  · intro id hmiss
    have hfind : db.committed.authors.find? (fun x => decide (x.ID = id)) = none := by
      rw [List.find?_eq_none]
      intro x hx
      simpa using hmiss x hx
    rcases hg : GetAuthor adb id db with ⟨res, r, db1⟩
    obtain ⟨-, g2, -, g4⟩ := GetAuthor_spec hg
    have hr := g4 hn hfind
    exact ⟨⟨_, hr, errorsIs_Errorf _ _⟩, (g2 (by rw [hr]; simp)).2⟩
  · intro authorID bookID hmiss
    have hfind : (db.committed.books.find?
        (fun x => decide (x.book.ID = bookID ∧ x.author_id = authorID))).map (fun x => x.book) =
        none := by
      rw [Option.map_eq_none', List.find?_eq_none]
      intro x hx
      simpa using hmiss x hx
    rcases hg : GetBook adb authorID bookID db with ⟨res, r, db1⟩
    obtain ⟨-, g2, -, g4⟩ := GetBook_spec hg
    have hr := g4 hn hfind
    exact ⟨⟨_, hr, errorsIs_Errorf _ _⟩, (g2 (by rw [hr]; simp)).2⟩

/-- Witness for C12, amended. -/
theorem missing_get_rolls_back_witness :
    (GetAuthor sampleADB 123 (sampleDB [])).2.2.committed = (sampleDB []).committed ∧
    (GetBook sampleADB 123 456 (sampleDB [])).2.2.committed = (sampleDB []).committed :=
  ⟨((missing_get_rolls_back sampleADB (sampleDB []) (by decide)).1 123 (by decide)).2,
    ((missing_get_rolls_back sampleADB (sampleDB []) (by decide)).2 123 456 (by decide)).2⟩

theorem find_map_overwrite (l : List Author) (a : Author) (h : ∃ x ∈ l, x.ID = a.ID) :
    (l.map (fun x => if x.ID = a.ID then a else x)).find? (fun x => decide (x.ID = a.ID)) =
      some a := by
  induction l with
  | nil =>
    obtain ⟨x, hx, -⟩ := h
    simp at hx
  | cons y tl ih =>
    by_cases hy : y.ID = a.ID
    · simp [hy]
    · obtain ⟨x, hx, hid⟩ := h
      have hmem : x ∈ tl := by
        rcases List.mem_cons.1 hx with h1 | h1
        · rw [h1] at hid
          exact absurd hid hy
        · exact h1
      simp only [List.map_cons, hy, if_false, List.find?_cons, decide_False]
      exact ih ⟨x, hmem, hid⟩

/-- C13. For every author value whose `ID` matches no stored row, and absent
storage failures, `UpdateAuthor` returns `ErrDoesNotExist`, the authors table
(hence every author stored under another identity) and the books and users
tables are unchanged, and the events log grows by exactly the UPDATE event of
the attempt. -/
theorem update_missing_author (adb : AuditDB) (a : Author) (db : DB)
    (hmiss : ∀ x ∈ db.committed.authors, x.ID ≠ a.ID) (hn : db.NoFaults) :
    (UpdateAuthor adb a db).1 = some ErrDoesNotExist ∧
    (UpdateAuthor adb a db).2.committed.authors = db.committed.authors ∧
    (UpdateAuthor adb a db).2.committed.books = db.committed.books ∧
    (UpdateAuthor adb a db).2.committed.users = db.committed.users ∧
    (UpdateAuthor adb a db).2.committed.events = db.committed.events ++
      [⟨⟨db.clock + 1, 0⟩, adb.user, AUDIT_OP_UPDATE, "authors", some a.ID⟩] := by
  rcases hu : UpdateAuthor adb a db with ⟨r, db1⟩
  obtain ⟨-, u2, -, u4⟩ := UpdateAuthor_spec hu
  obtain ⟨hc, hiff⟩ := u2 (u4 hn)
  have haff : (Write.updateAuthor a.ID a.Name a.DateOfBirth).affected db.committed = 0 := by
    simp only [Write.affected]
    rw [filter_eq_nil_of_forall_ne _ _ (fun x hx => by simpa using hmiss x hx)]
    rfl
  simp only
  refine ⟨hiff.2 haff, ?_, by rw [hc]; rfl, by rw [hc]; rfl, by rw [hc]; rfl⟩
  rw [hc]
  simp only [Write.apply]
  conv_rhs => rw [← List.map_id db.committed.authors]
  apply List.map_congr_left
  intro x hx
  simp [hmiss x hx]

/-- Witness for C13: `UpdateAuthor` for the identity 1234 on a storage without
authors. -/
theorem update_missing_author_witness :
    (UpdateAuthor sampleADB ⟨1234, "Virginia Woolf", ⟨0⟩⟩ (sampleDB [])).1 = some ErrDoesNotExist ∧
    (UpdateAuthor sampleADB ⟨1234, "Virginia Woolf", ⟨0⟩⟩ (sampleDB [])).2.committed.events =
      [⟨⟨1, 0⟩, "bill", "UPDATE", "authors", some 1234⟩] :=
  ⟨(update_missing_author sampleADB ⟨1234, "Virginia Woolf", ⟨0⟩⟩ (sampleDB []) (by decide)
      (by decide)).1,
    (update_missing_author sampleADB ⟨1234, "Virginia Woolf", ⟨0⟩⟩ (sampleDB []) (by decide)
      (by decide)).2.2.2.2⟩

/-- C14. Update overwrites the whole row: for every author value `a` whose `ID`
is the identity of a stored author, absent storage failures, `UpdateAuthor(a)`
succeeds (whatever the stored fields are, also when they equal those of `a`), a
following `GetAuthor(a.ID)` succeeds and returns exactly `a`, and the rows
stored under another identity are unchanged. -/
theorem update_overwrites_row (adb : AuditDB) (a : Author) (db : DB)
    (hstored : ∃ x ∈ db.committed.authors, x.ID = a.ID) (hn : db.NoFaults) :
    (UpdateAuthor adb a db).1 = none ∧
    (UpdateAuthor adb a db).2.committed.authors =
      db.committed.authors.map (fun x => if x.ID = a.ID then a else x) ∧
    (GetAuthor adb a.ID (UpdateAuthor adb a db).2).2.1 = none ∧
    (GetAuthor adb a.ID (UpdateAuthor adb a db).2).1 = some a ∧
    (UpdateAuthor adb a db).2.committed.authors.filter (fun x => decide (x.ID ≠ a.ID)) =
      db.committed.authors.filter (fun x => decide (x.ID ≠ a.ID)) := by
  rcases hu : UpdateAuthor adb a db with ⟨r, db1⟩
  obtain ⟨⟨k, hk⟩, u2, -, u4⟩ := UpdateAuthor_spec hu
  obtain ⟨hc, hiff⟩ := u2 (u4 hn)
  obtain ⟨x0, hx0, hid0⟩ := hstored
  have haff : (Write.updateAuthor a.ID a.Name a.DateOfBirth).affected db.committed ≠ 0 := by
    simp only [Write.affected]
    intro h0
    have hnil : db.committed.authors.filter (fun r => decide (r.ID = a.ID)) = [] :=
      List.length_eq_zero.1 (by exact_mod_cast h0)
    rw [List.filter_eq_nil_iff] at hnil
    exact hnil x0 hx0 (by simpa using hid0)
  have hr : r = none := by
    rcases u4 hn with h | h
    · exact h
    · exact absurd (hiff.1 h) haff
  have hauth : db1.committed.authors =
      db.committed.authors.map (fun x => if x.ID = a.ID then a else x) := by
    rw [hc]
    simp only [Write.apply]
    apply List.map_congr_left
    intro x _
    by_cases hx : x.ID = a.ID
    · simp only [hx, if_true]
    · simp only [hx, if_false]
  have hfind : db1.committed.authors.find? (fun x => decide (x.ID = a.ID)) = some a := by
    rw [hauth]
    exact find_map_overwrite _ a ⟨x0, hx0, hid0⟩
  have hn1 : db1.NoFaults := hn.drop k db1 hk
  rcases hg : GetAuthor adb a.ID db1 with ⟨res, rg, db2⟩
  obtain ⟨g1, -, g3, -⟩ := GetAuthor_spec hg
  have hrg : rg = none := g3 hn1 (by rw [hfind]; simp)
  simp only
  refine ⟨hr, hauth, hrg, by rw [(g1 hrg).1, hfind], ?_⟩
  rw [hauth, List.filter_map]
  conv_rhs => rw [← List.map_id (List.filter _ db.committed.authors)]
  have hfil : List.filter ((fun x => decide (x.ID ≠ a.ID)) ∘ fun x => if x.ID = a.ID then a else x)
      db.committed.authors = List.filter (fun x => decide (x.ID ≠ a.ID)) db.committed.authors := by
    apply List.filter_congr
    intro x _
    by_cases hx : x.ID = a.ID <;> simp [hx]
  rw [hfil]
  apply List.map_congr_left
  intro x hx
  have := (List.mem_filter.1 hx).2
  simp only [ne_eq, decide_not, Bool.not_eq_true', decide_eq_false_iff_not] at this
  simp [this]

/-- Witness for C14: Virginia Woolf is stored under the identity 1 and is
overwritten, first with the same values and then with new ones. -/
theorem update_overwrites_row_witness :
    (UpdateAuthor sampleADB ⟨1, "Virginia Woolf", ⟨725000⟩⟩
      (AddAuthor sampleADB ⟨0, "Virginia Woolf", ⟨725000⟩⟩ (sampleDB [])).2.2).1 = none ∧
    (GetAuthor sampleADB 1 (UpdateAuthor sampleADB ⟨1, "V. Woolf", ⟨730000⟩⟩
      (AddAuthor sampleADB ⟨0, "Virginia Woolf", ⟨725000⟩⟩ (sampleDB [])).2.2).2).1 =
      some ⟨1, "V. Woolf", ⟨730000⟩⟩ :=
  ⟨(update_overwrites_row sampleADB ⟨1, "Virginia Woolf", ⟨725000⟩⟩
      (AddAuthor sampleADB ⟨0, "Virginia Woolf", ⟨725000⟩⟩ (sampleDB [])).2.2 (by decide)
      (by decide)).1,
    (update_overwrites_row sampleADB ⟨1, "V. Woolf", ⟨730000⟩⟩
      (AddAuthor sampleADB ⟨0, "Virginia Woolf", ⟨725000⟩⟩ (sampleDB [])).2.2 (by decide)
      (by decide)).2.2.2.1⟩

/-- C15. `GetBook(authorID, bookID)` and `DeleteBook(authorID, bookID)` act only
on a book whose identity is `bookID` and whose author is `authorID`: for every
store without such a row (the book is missing, or stored under another
author), `DeleteBook` leaves the books table unchanged, and absent storage
failures both calls return an error `e` with `errors.Is(e, ErrDoesNotExist)`. -/
theorem book_of_other_author_is_not_found (adb : AuditDB) (authorID bookID : Int) (db : DB)
    (hmiss : ∀ x ∈ db.committed.books, ¬ (x.book.ID = bookID ∧ x.author_id = authorID)) :
    (DeleteBook adb authorID bookID db).2.committed.books = db.committed.books ∧
    (db.NoFaults →
      (GetBook adb authorID bookID db).1 = none ∧
      (∃ e, (GetBook adb authorID bookID db).2.1 = some e ∧ errorsIs e ErrDoesNotExist = true) ∧
      (∃ e, (DeleteBook adb authorID bookID db).1 = some e ∧
        errorsIs e ErrDoesNotExist = true)) := by
  rcases hd : DeleteBook adb authorID bookID db with ⟨r2, db2⟩
  obtain ⟨-, d2, d3, d4⟩ := DeleteBook_spec hd
  have haff : (Write.deleteBook bookID authorID).affected db.committed = 0 := by
    simp only [Write.affected]
    rw [filter_eq_nil_of_forall_ne _ _ (fun x hx => by simpa using hmiss x hx)]
    rfl
  simp only
  constructor
  · by_cases hr : r2 = none ∨ r2 = some ErrDoesNotExist
    · rw [(d2 hr).1]
      simp only [Write.apply]
      exact filter_eq_self_of_forall _ _ (fun x hx => decide_eq_true (hmiss x hx))
    · rw [d3 hr]
  · intro hn
    have hfind : (db.committed.books.find?
        (fun x => decide (x.book.ID = bookID ∧ x.author_id = authorID))).map (fun x => x.book) =
        none := by
      rw [Option.map_eq_none', List.find?_eq_none]
      intro x hx
      simpa using hmiss x hx
    rcases hg : GetBook adb authorID bookID db with ⟨res, r, db1⟩
    obtain ⟨-, g2, -, g4⟩ := GetBook_spec hg
    have hr := g4 hn hfind
    exact ⟨(g2 (by rw [hr]; simp)).1, ⟨_, hr, errorsIs_Errorf _ _⟩,
      ⟨_, ((d2 (d4 hn)).2).2 haff, errorsIs_self _⟩⟩

/-- Witness for C15: the book 1 is stored under the author 1 and is asked for
under the author 123. -/
theorem book_of_other_author_is_not_found_witness :
    (DeleteBook sampleADB 123 1
      (AddBook sampleADB 1 ⟨0, "To the Lighthouse", ⟨703000⟩⟩ (sampleDB [])).2.2).1 =
      some ErrDoesNotExist ∧
    (DeleteBook sampleADB 123 1
      (AddBook sampleADB 1 ⟨0, "To the Lighthouse", ⟨703000⟩⟩ (sampleDB [])).2.2).2.committed.books =
      [⟨1, ⟨1, "To the Lighthouse", ⟨703000⟩⟩⟩] ∧
    (GetBook sampleADB 123 1
      (AddBook sampleADB 1 ⟨0, "To the Lighthouse", ⟨703000⟩⟩ (sampleDB [])).2.2).1 = none :=
  ⟨rfl,
    (book_of_other_author_is_not_found sampleADB 123 1
      (AddBook sampleADB 1 ⟨0, "To the Lighthouse", ⟨703000⟩⟩ (sampleDB [])).2.2 (by decide)).1,
    ((book_of_other_author_is_not_found sampleADB 123 1
      (AddBook sampleADB 1 ⟨0, "To the Lighthouse", ⟨703000⟩⟩ (sampleDB [])).2.2 (by decide)).2
      (by decide)).1⟩

theorem intercalate_go_append (p x s : String) (l : List String) :
    String.intercalate.go (p ++ x) s l = p ++ String.intercalate.go x s l := by
  induction l generalizing x with
  | nil => rfl
  | cons a tl ih =>
    simp only [String.intercalate.go]
    rw [String.append_assoc p x s, String.append_assoc p (x ++ s) a]
    exact ih (x ++ s ++ a)

theorem intercalate_cons_cons (s c c1 : String) (cs : List String) :
    String.intercalate s (c :: c1 :: cs) = c ++ s ++ String.intercalate s (c1 :: cs) := by
  simp only [String.intercalate, String.intercalate.go]
  exact intercalate_go_append (c ++ s) c1 s cs

theorem build_eq_go (l : List String) :
    ∀ (i : Nat) (b : String), i ≠ 0 →
      whereFilter.build i l b = l.foldl (fun acc c => acc ++ " AND " ++ c) b := by
  induction l with
  | nil => intro i b _; rfl
  | cons c tl ih =>
    intro i b hi
    simp only [whereFilter.build, hi, ne_eq, not_false_eq_true, if_true, List.foldl_cons]
    exact ih (i + 1) _ (by omega)

theorem go_eq_foldl (l : List String) :
    ∀ (b s : String), String.intercalate.go b s l = l.foldl (fun acc c => acc ++ s ++ c) b := by
  induction l with
  | nil => intro b s; rfl
  | cons c tl ih =>
    intro b s
    simp only [String.intercalate.go, List.foldl_cons]
    exact ih _ _

/-- The text `where` builds from a non-empty list of clauses. -/
theorem build_eq_intercalate (c : String) (cs : List String) :
    whereFilter.build 0 (c :: cs) "WHERE " = "WHERE " ++ String.intercalate " AND " (c :: cs) := by
  simp only [whereFilter.build, ne_eq, not_true_eq_false, if_false]
  rw [build_eq_go cs 1 _ (by omega)]
  simp only [String.intercalate]
  rw [← intercalate_go_append, go_eq_foldl]

theorem applyFilters_foldl (specs : List FilterSpec) :
    ∀ (wf : whereFilter),
      (specs.map FilterSpec.filter).foldl (fun w f => f w) wf =
        { lhs := wf.lhs ++ clausesFrom (wf.lhs.length + 1) specs,
          rhs := wf.rhs ++ specs.map (fun f => f.time.UTC) } := by
  induction specs with
  | nil => intro wf; simp [clausesFrom]
  | cons f fs ih =>
    intro wf
    simp only [List.map_cons, List.foldl_cons]
    rw [ih]
    cases f <;>
      simp [FilterSpec.filter, EventsAfter, EventsBefore, clausesFrom, FilterSpec.clause,
        FilterSpec.time]

/-- The accumulator after filters built with `EventsAfter` and `EventsBefore`:
one clause and one parameter per filter, in application order. -/
theorem applyFilters_specs (specs : List FilterSpec) :
    applyFilters (specs.map FilterSpec.filter) =
      { lhs := clausesFrom 1 specs, rhs := specs.map (fun f => f.time.UTC) } := by
  unfold applyFilters
  rw [applyFilters_foldl]
  simp

theorem clausesFrom_length (specs : List FilterSpec) :
    ∀ i, (clausesFrom i specs).length = specs.length := by
  induction specs with
  | nil => intro i; rfl
  | cons f fs ih => intro i; simp [clausesFrom, ih]

theorem clausesFrom_getElem? (specs : List FilterSpec) :
    ∀ (i k : Nat) (f : FilterSpec), specs[k]? = some f →
      (clausesFrom i specs)[k]? = some (f.clause (i + k)) := by
  induction specs with
  | nil => intro i k f h; simp at h
  | cons g gs ih =>
    intro i k f h
    cases k with
    | zero =>
      simp only [List.getElem?_cons_zero, Option.some.injEq] at h
      subst h
      simp [clausesFrom]
    | succ k =>
      simp only [List.getElem?_cons_succ] at h
      simp only [clausesFrom, List.getElem?_cons_succ]
      rw [ih (i + 1) k f h]
      congr 2
      omega

/-- C16. For every list of filters applied in order to an empty accumulator:
`where` returns the empty string and no parameters when the list is empty (and
whenever no clause was appended); otherwise it returns the clauses of the
accumulator, which are in application order, separated by " AND " after the
text "WHERE ", together with the parameters; a single clause has no " AND ".
For filters built with `EventsAfter` and `EventsBefore` the clauses are those
of the filters, numbered from 1. -/
theorem where_builds_conjunction (filters : List Filter) :
    (filters = [] → (applyFilters filters).where_ = ("", [])) ∧
    ((applyFilters filters).lhs = [] → (applyFilters filters).where_ = ("", [])) ∧
    ((applyFilters filters).lhs ≠ [] →
      (applyFilters filters).where_ =
        ("WHERE " ++ String.intercalate " AND " (applyFilters filters).lhs,
          (applyFilters filters).rhs)) ∧
    (∀ c, (applyFilters filters).lhs = [c] → (applyFilters filters).where_.1 = "WHERE " ++ c) ∧
    (∀ specs : List FilterSpec, filters = specs.map FilterSpec.filter → specs ≠ [] →
      (applyFilters filters).where_ =
        ("WHERE " ++ String.intercalate " AND " (clausesFrom 1 specs),
          specs.map (fun f => f.time.UTC))) := by
  have hne : ∀ wf : whereFilter, wf.lhs ≠ [] →
      wf.where_ = ("WHERE " ++ String.intercalate " AND " wf.lhs, wf.rhs) := by
    intro wf h
    cases hl : wf.lhs with
    | nil => exact absurd hl h
    | cons c cs =>
      unfold whereFilter.where_
      rw [hl]
      simp only [List.length_cons, Nat.add_one_ne_zero, if_false]
      rw [build_eq_intercalate]
  have hnil : ∀ wf : whereFilter, wf.lhs = [] → wf.where_ = ("", []) := by
    intro wf h
    unfold whereFilter.where_
    rw [h]
    rfl
  refine ⟨fun h => ?_, hnil _, hne _, fun c hc => ?_, fun specs hs hn => ?_⟩
  · subst h
    rfl
  · rw [hne _ (by rw [hc]; simp), hc]
    rfl
  · subst hs
    have hl : (applyFilters (specs.map FilterSpec.filter)).lhs ≠ [] := by
      rw [applyFilters_specs]
      cases specs with
      | nil => exact absurd rfl hn
      | cons f fs => simp [clausesFrom]
    rw [hne _ hl, applyFilters_specs]

/-- Witness for C16: no filter, one filter, two filters. -/
theorem where_builds_conjunction_witness :
    (applyFilters []).where_ = ("", []) ∧
    (applyFilters [EventsBefore ⟨30, 0⟩]).where_.1 = "WHERE ts < $1" ∧
    (applyFilters [EventsAfter ⟨10, 3⟩, EventsBefore ⟨30, 0⟩]).where_ =
      ("WHERE ts > $1::timestamp AND ts < $2", [⟨10, 0⟩, ⟨30, 0⟩]) :=
  ⟨(where_builds_conjunction []).1 rfl,
    (where_builds_conjunction [EventsBefore ⟨30, 0⟩]).2.2.2.1 "ts < $1" (by decide),
    (where_builds_conjunction [EventsAfter ⟨10, 3⟩, EventsBefore ⟨30, 0⟩]).2.2.2.2
      [.after ⟨10, 3⟩, .before ⟨30, 0⟩] rfl (by decide)⟩

/-- C17. For every list of `N` filters built with `EventsAfter` and
`EventsBefore` and applied in order to an empty accumulator: there are `N`
clauses and `N` bound parameters; the `i`-th clause refers to the placeholder
`$i` (`ts > $i::timestamp` for `EventsAfter`, `ts < $i` for `EventsBefore`) and
the `i`-th parameter is the time given to the `i`-th filter in UTC. Two times
that denote the same instant give the same parameter, hence the same filter. -/
theorem filters_bind_positionally (specs : List FilterSpec) :
    (applyFilters (specs.map FilterSpec.filter)).lhs.length = specs.length ∧
    (applyFilters (specs.map FilterSpec.filter)).rhs.length = specs.length ∧
    (∀ (k : Nat) (f : FilterSpec), specs[k]? = some f →
      (applyFilters (specs.map FilterSpec.filter)).lhs[k]? = some (f.clause (k + 1)) ∧
      (applyFilters (specs.map FilterSpec.filter)).rhs[k]? = some f.time.UTC) ∧
    (∀ (i : Nat) (t : Time),
      (FilterSpec.after t).clause i = "ts > $" ++ toString i ++ "::timestamp" ∧
      (FilterSpec.before t).clause i = "ts < $" ++ toString i) ∧
    (∀ t t1 : Time, t.unix = t1.unix →
      t.UTC = t1.UTC ∧ EventsAfter t = EventsAfter t1 ∧ EventsBefore t = EventsBefore t1) := by
  rw [applyFilters_specs]
  refine ⟨clausesFrom_length specs 1, by simp, fun k f h => ⟨?_, ?_⟩, fun i t => ⟨rfl, rfl⟩,
    fun t t1 h => ?_⟩
  · simp only
    rw [clausesFrom_getElem? specs 1 k f h, Nat.add_comm]
  · simp only [List.getElem?_map, h, Option.map_some']
  · have hu : t.UTC = t1.UTC := by
      cases t
      cases t1
      simp only [Time.UTC] at h ⊢
      rw [h]
    refine ⟨hu, ?_, ?_⟩
    · funext wf
      simp only [EventsAfter, hu]
    · funext wf
      simp only [EventsBefore, hu]

/-- Witness for C17: the second of two filters is bound to `$2`, and the same
instant given in two zones binds the same parameter. -/
theorem filters_bind_positionally_witness :
    (applyFilters [EventsAfter ⟨10, 3⟩, EventsBefore ⟨30, 0⟩]).lhs[1]? = some "ts < $2" ∧
    (applyFilters [EventsAfter ⟨10, 3⟩, EventsBefore ⟨30, 0⟩]).rhs[0]? = some ⟨10, 0⟩ ∧
    (⟨10, 3⟩ : Time).UTC = (⟨10, -5⟩ : Time).UTC :=
  ⟨((filters_bind_positionally [.after ⟨10, 3⟩, .before ⟨30, 0⟩]).2.2.1 1 (.before ⟨30, 0⟩)
      rfl).1,
    ((filters_bind_positionally [.after ⟨10, 3⟩, .before ⟨30, 0⟩]).2.2.1 0 (.after ⟨10, 3⟩)
      rfl).2,
    ((filters_bind_positionally []).2.2.2.2 ⟨10, 3⟩ ⟨10, -5⟩ rfl).1⟩

theorem stripPrefix_append (p rest : List Char) : stripPrefix? p (p ++ rest) = some rest := by
  unfold stripPrefix?
  have h : p.isPrefixOf (p ++ rest) = true := by
    rw [List.isPrefixOf_iff_prefix]
    exact List.prefix_append p rest
  simp [h]

theorem stripPrefix_after_before (x y : String) (rest : List Char) :
    stripPrefix? ("ts > $" ++ x).data (("ts < $" ++ y).data ++ rest) = none := by
  unfold stripPrefix?
  have h : ("ts > $" ++ x).data.isPrefixOf (("ts < $" ++ y).data ++ rest) = false := by
    simp only [String.data_append]
    simp [List.isPrefixOf]
  simp [h]

theorem matchClauses_cons (i : Nat) (f : FilterSpec) (ts : List Time) (rest : List Char) :
    matchClauses i (f.time.UTC :: ts) ((f.clause i).data ++ rest) =
      (match rest, ts with
        | [], [] => some (fun e => f.holds e)
        | [], _ :: _ => none
        | _ :: _, _ =>
          match stripPrefix? " AND ".data rest with
          | none => none
          | some rest1 =>
            match matchClauses (i + 1) ts rest1 with
            | none => none
            | some q => some (fun e => f.holds e && q e)) := by
  cases f with
  | after t =>
    conv_lhs => unfold matchClauses
    simp only [FilterSpec.clause, FilterSpec.time, stripPrefix_append]
    rfl
  | before t =>
    conv_lhs => unfold matchClauses
    simp only [FilterSpec.clause, FilterSpec.time, stripPrefix_after_before, stripPrefix_append]
    rfl

/-- The storage reads the conjunction built from `EventsAfter` and
`EventsBefore` filters as the conjunction of their predicates. -/
theorem matchClauses_specs (fs : List FilterSpec) :
    ∀ (f : FilterSpec) (i : Nat), ∃ p,
      matchClauses i ((f :: fs).map (fun g => g.time.UTC))
        (String.intercalate " AND " (clausesFrom i (f :: fs))).data = some p ∧
      ∀ e, p e = (f :: fs).all (fun g => g.holds e) := by
  induction fs with
  | nil =>
    intro f i
    refine ⟨fun e => f.holds e, ?_, fun e => by simp⟩
    have ht : (String.intercalate " AND " (clausesFrom i [f])).data = (f.clause i).data ++ [] := by
      simp [clausesFrom, String.intercalate, String.intercalate.go]
    rw [ht]
    simp only [List.map_cons, List.map_nil]
    rw [matchClauses_cons]
  | cons g gs ih =>
    intro f i
    obtain ⟨q, hq, hqe⟩ := ih g (i + 1)
    refine ⟨fun e => f.holds e && q e, ?_, fun e => by simp only [hqe e, List.all_cons]⟩
    have ht : (String.intercalate " AND " (clausesFrom i (f :: g :: gs))).data =
        (f.clause i).data ++ (' ' :: ('A' :: 'N' :: 'D' :: ' ' ::
          (String.intercalate " AND " (clausesFrom (i + 1) (g :: gs))).data)) := by
      simp only [clausesFrom]
      rw [intercalate_cons_cons]
      simp [String.data_append]
    have hs : stripPrefix? " AND ".data (' ' :: ('A' :: 'N' :: 'D' :: ' ' ::
          (String.intercalate " AND " (clausesFrom (i + 1) (g :: gs))).data)) =
        some (String.intercalate " AND " (clausesFrom (i + 1) (g :: gs))).data :=
      stripPrefix_append " AND ".data _
    rw [ht]
    simp only [List.map_cons]
    rw [matchClauses_cons]
    simp only [hs]
    simp only [List.map_cons] at hq
    rw [hq]

theorem dbQueryEvents_spec {clause : String} {args : List Time} {d d1 : DB} {r : Option GoError}
    {rows : List Event} (h : dbQueryEvents clause args d = (r, rows, d1)) :
    d.Quiet d1 ∧
    (r = none → ∃ p, readWhere clause args = some p ∧ rows = d.committed.events.filter p) ∧
    (d.NoFaults → (readWhere clause args).isSome → r = none) := by
  unfold dbQueryEvents at h
  unfold readWhere
  split at h
  · next e d0 hf =>
    obtain ⟨q, hn⟩ := fault_spec hf
    simp only [Prod.mk.injEq] at h
    obtain ⟨rfl, rfl, rfl⟩ := h
    exact ⟨q, by simp, fun hd => absurd (hn hd) (by simp)⟩
  · next d0 hf =>
    obtain ⟨⟨k, rfl⟩, -⟩ := fault_spec hf
    split at h
    · next hc =>
      split at h
      · next ha =>
        simp only [Prod.mk.injEq] at h
        obtain ⟨rfl, rfl, rfl⟩ := h
        refine ⟨⟨k, rfl⟩, fun _ => ⟨fun _ => true, by simp [hc, ha], by simp⟩, fun _ _ => rfl⟩
      · next ha =>
        simp only [Prod.mk.injEq] at h
        obtain ⟨rfl, rfl, rfl⟩ := h
        exact ⟨⟨k, rfl⟩, by simp, by simp [hc, ha]⟩
    · next hc =>
      simp only [hc, if_false]
      split at h
      · next hs =>
        simp only [Prod.mk.injEq] at h
        obtain ⟨rfl, rfl, rfl⟩ := h
        exact ⟨⟨k, rfl⟩, by simp, by simp [hs]⟩
      · next rest hs =>
        simp only [hs]
        split at h
        · next hm =>
          simp only [Prod.mk.injEq] at h
          obtain ⟨rfl, rfl, rfl⟩ := h
          exact ⟨⟨k, rfl⟩, by simp, by simp [hm]⟩
        · next p hm =>
          simp only [Prod.mk.injEq] at h
          obtain ⟨rfl, rfl, rfl⟩ := h
          exact ⟨⟨k, rfl⟩, fun _ => ⟨p, hm, rfl⟩, fun _ _ => rfl⟩

/-- What `QueryEvents` returns and leaves, for any filters: only entries of
the fault plan are taken, and a result without error holds the committed
events that satisfy the predicate read from the text `where` built. -/
theorem QueryEvents_spec {adb : AuditDB} {filters : List Filter} {db db' : DB}
    {evs : Option (List Event)} {r : Option GoError}
    (h : QueryEvents adb filters db = (evs, r, db')) :
    db.Quiet db' ∧
    (r = none → ∃ p,
      readWhere (applyFilters filters).where_.1 (applyFilters filters).where_.2 = some p ∧
      evs = (db.committed.events.filter p).foldl goAppend none) ∧
    (db.NoFaults →
      (readWhere (applyFilters filters).where_.1 (applyFilters filters).where_.2).isSome →
      r = none) := by
  unfold QueryEvents at h
  simp only at h
  have hw : List.foldl (fun w f => f w) { lhs := [], rhs := [] } filters = applyFilters filters :=
    rfl
  rw [hw] at h
  rcases hwh : (applyFilters filters).where_ with ⟨clause, args⟩
  rw [hwh] at h
  simp only at h ⊢
  rcases hq : dbQueryEvents clause args db with ⟨r1, rows, d1⟩
  rw [hq] at h
  obtain ⟨q1, q2, q3⟩ := dbQueryEvents_spec hq
  cases r1 with
  | some err =>
    simp only [Prod.mk.injEq] at h
    obtain ⟨rfl, rfl, rfl⟩ := h
    exact ⟨q1, by simp, fun hn hs => absurd (q3 hn hs) (by simp)⟩
  | none =>
    obtain ⟨p, hp, hrows⟩ := q2 rfl
    simp only at h
    rcases hs : scanAll rows none d1 with ⟨sc, d2⟩
    rw [hs] at h
    obtain ⟨p1, p2, p3⟩ := scanAll_spec _ _ _ _ _ hs
    simp only at h
    cases hse : sc.scanErr with
    | some err =>
      rw [hse] at h
      simp only [Prod.mk.injEq] at h
      obtain ⟨rfl, rfl, rfl⟩ := h
      refine ⟨q1.seq p1, by simp, fun hn _ => ?_⟩
      have := (p3 (q1.keepsNoFaults hn)).1
      rw [hse] at this
      exact absurd this (by simp)
    | none =>
      rw [hse] at h
      simp only at h
      cases hre : sc.rowsErr with
      | some err =>
        rw [hre] at h
        simp only [Prod.mk.injEq] at h
        obtain ⟨rfl, rfl, rfl⟩ := h
        refine ⟨q1.seq p1, by simp, fun hn _ => ?_⟩
        have := (p3 (q1.keepsNoFaults hn)).2
        rw [hre] at this
        exact absurd this (by simp)
      | none =>
        rw [hre] at h
        simp only [Prod.mk.injEq] at h
        obtain ⟨rfl, rfl, rfl⟩ := h
        exact ⟨q1.seq p1, fun _ => ⟨p, hp, by rw [p2 hse hre, hrows]⟩, fun _ _ => rfl⟩

theorem where_specs (f : FilterSpec) (fs : List FilterSpec) :
    (applyFilters ((f :: fs).map FilterSpec.filter)).where_ =
      ("WHERE " ++ String.intercalate " AND " (clausesFrom 1 (f :: fs)),
        (f :: fs).map (fun g => g.time.UTC)) := by
  rw [applyFilters_specs]
  unfold whereFilter.where_
  simp only [clausesFrom, List.length_cons, Nat.add_one_ne_zero, if_false]
  rw [build_eq_intercalate]

/-- The text and parameters built from `EventsAfter` and `EventsBefore`
filters are read by the storage as the conjunction of their predicates. -/
theorem readWhere_specs (specs : List FilterSpec) :
    ∃ p, readWhere (applyFilters (specs.map FilterSpec.filter)).where_.1
        (applyFilters (specs.map FilterSpec.filter)).where_.2 = some p ∧
      ∀ e, p e = specs.all (fun g => g.holds e) := by
  cases specs with
  | nil => exact ⟨fun _ => true, rfl, fun e => rfl⟩
  | cons f fs =>
    obtain ⟨p, hp, hpe⟩ := matchClauses_specs fs f 1
    refine ⟨p, ?_, hpe⟩
    rw [where_specs f fs]
    unfold readWhere
    have hne : ("WHERE " ++ String.intercalate " AND " (clausesFrom 1 (f :: fs))) ≠ "" := by
      intro h
      have := congrArg String.data h
      simp [String.data_append] at this
    simp only [hne, if_false, String.data_append, stripPrefix_append]
    exact hp

theorem all_holds_perm {specs specs1 : List FilterSpec} (h : specs1.Perm specs) (e : Event) :
    specs1.all (fun g => g.holds e) = specs.all (fun g => g.holds e) := by
  rw [Bool.eq_iff_iff]
  simp only [List.all_eq_true]
  exact ⟨fun h1 x hx => h1 x (h.mem_iff.2 hx), fun h1 x hx => h1 x (h.mem_iff.1 hx)⟩

/-- C18. For every events log and every list of filters built with
`EventsAfter` and `EventsBefore`, a `QueryEvents` that returns no error returns
exactly the committed events whose timestamp satisfies every filter, in the
order of the log, and absent storage failures it returns no error. The
comparisons are strict: after `t` is timestamp > `t`, before `t` is timestamp <
`t`, and after `s` with before `t` is strictly inside `(s, t)`. The events
returned are the same for every permutation of the filter list. -/
theorem QueryEvents_filters_by_time (adb : AuditDB) (specs : List FilterSpec) (db : DB) :
    ((QueryEvents adb (specs.map FilterSpec.filter) db).2.1 = none →
      (QueryEvents adb (specs.map FilterSpec.filter) db).1.getD [] =
        db.committed.events.filter (fun e => specs.all (fun g => g.holds e))) ∧
    (db.NoFaults → (QueryEvents adb (specs.map FilterSpec.filter) db).2.1 = none) ∧
    (∀ (t : Time) (e : Event),
      ((FilterSpec.after t).holds e = true ↔ e.When.unix > t.unix) ∧
      ((FilterSpec.before t).holds e = true ↔ e.When.unix < t.unix)) ∧
    (∀ (s t : Time) (e : Event),
      [FilterSpec.after s, FilterSpec.before t].all (fun g => g.holds e) = true ↔
        s.unix < e.When.unix ∧ e.When.unix < t.unix) ∧
    (∀ specs1 : List FilterSpec, specs1.Perm specs → db.NoFaults →
      (QueryEvents adb (specs1.map FilterSpec.filter) db).2.1 = none ∧
      (QueryEvents adb (specs1.map FilterSpec.filter) db).1 =
        (QueryEvents adb (specs.map FilterSpec.filter) db).1) := by
  have key : ∀ (sp : List FilterSpec) (evs : Option (List Event)) (r : Option GoError) (db' : DB),
      QueryEvents adb (sp.map FilterSpec.filter) db = (evs, r, db') →
      (r = none → evs = (db.committed.events.filter
        (fun e => sp.all (fun g => g.holds e))).foldl goAppend none) ∧
      (db.NoFaults → r = none) := by
    intro sp evs r db' h
    obtain ⟨-, q2, q3⟩ := QueryEvents_spec h
    obtain ⟨p, hp, hpe⟩ := readWhere_specs sp
    refine ⟨fun hr => ?_, fun hn => q3 hn (by rw [hp]; rfl)⟩
    obtain ⟨p1, hp1, hevs⟩ := q2 hr
    rw [hp] at hp1
    simp only [Option.some.injEq] at hp1
    subst hp1
    rw [hevs]
    congr 1
    exact List.filter_congr (fun e _ => hpe e)
  rcases h : QueryEvents adb (specs.map FilterSpec.filter) db with ⟨evs, r, db'⟩
  obtain ⟨k1, k2⟩ := key specs evs r db' h
  simp only
  refine ⟨fun hr => ?_, k2, fun t e => ?_, fun s t e => ?_, fun specs1 hperm hn => ?_⟩
  · rw [k1 hr, foldl_goAppend_getD]
    rfl
  · simp [FilterSpec.holds]
  · simp [FilterSpec.holds]
  · rcases h1 : QueryEvents adb (specs1.map FilterSpec.filter) db with ⟨evs1, r1, db1⟩
    obtain ⟨j1, j2⟩ := key specs1 evs1 r1 db1 h1
    simp only
    refine ⟨j2 hn, ?_⟩
    rw [j1 (j2 hn), k1 (k2 hn)]
    congr 1
    exact List.filter_congr (fun e _ => all_holds_perm hperm e)

/-- Witness for C18: on the log with events at the instants 10, 20 and 30, the
window strictly inside (10, 30) holds the event at 20, whichever filter comes
first. -/
theorem QueryEvents_filters_by_time_witness :
    (QueryEvents sampleADB [EventsAfter ⟨10, 3⟩, EventsBefore ⟨30, 0⟩] (sampleLog [])).1.getD [] =
      [⟨⟨20, 0⟩, "bill", "CREATE", "authors", some 1⟩] ∧
    (QueryEvents sampleADB [EventsBefore ⟨30, 0⟩, EventsAfter ⟨10, 3⟩] (sampleLog [])).1 =
      (QueryEvents sampleADB [EventsAfter ⟨10, 3⟩, EventsBefore ⟨30, 0⟩] (sampleLog [])).1 :=
  ⟨(QueryEvents_filters_by_time sampleADB [.after ⟨10, 3⟩, .before ⟨30, 0⟩] (sampleLog [])).1 rfl,
    ((QueryEvents_filters_by_time sampleADB [.after ⟨10, 3⟩, .before ⟨30, 0⟩]
      (sampleLog [])).2.2.2.2 [.before ⟨30, 0⟩, .after ⟨10, 3⟩]
      (List.Perm.swap _ _ []) (by decide)).2⟩

/-- C19. For every storage state and every list of filters, `QueryEvents`
writes nothing: the committed tables (events, authors, books, users) are after
the call what they were before. Hence a second identical query that succeeds
after a first one that succeeded returns the same events, and absent storage
failures it does succeed. -/
theorem QueryEvents_writes_nothing (adb : AuditDB) (filters : List Filter) (db : DB) :
    (QueryEvents adb filters db).2.2.committed = db.committed ∧
    ((QueryEvents adb filters db).2.1 = none →
      (QueryEvents adb filters (QueryEvents adb filters db).2.2).2.1 = none →
      (QueryEvents adb filters (QueryEvents adb filters db).2.2).1 =
        (QueryEvents adb filters db).1) ∧
    (db.NoFaults → (QueryEvents adb filters db).2.1 = none →
      (QueryEvents adb filters (QueryEvents adb filters db).2.2).2.1 = none) := by
  rcases h : QueryEvents adb filters db with ⟨evs, r, db'⟩
  rcases h2 : QueryEvents adb filters db' with ⟨evs2, r2, db2⟩
  obtain ⟨q1, q2, -⟩ := QueryEvents_spec h
  obtain ⟨-, s2, s3⟩ := QueryEvents_spec h2
  have hc : db'.committed = db.committed := by
    obtain ⟨k, rfl⟩ := q1
    rfl
  simp only
  refine ⟨hc, fun hr hr2 => ?_, fun hn hr => ?_⟩
  · obtain ⟨p, hp, he⟩ := q2 hr
    obtain ⟨p2, hp2, he2⟩ := s2 hr2
    rw [hp] at hp2
    simp only [Option.some.injEq] at hp2
    subst hp2
    rw [he, he2, hc]
  · obtain ⟨p, hp, -⟩ := q2 hr
    exact s3 (q1.keepsNoFaults hn) (by rw [hp]; rfl)

/-- Witness for C19: the same query twice on the log of three events. -/
theorem QueryEvents_writes_nothing_witness :
    (QueryEvents sampleADB [EventsAfter ⟨10, 0⟩]
      (QueryEvents sampleADB [EventsAfter ⟨10, 0⟩] (sampleLog [])).2.2).1 =
      (QueryEvents sampleADB [EventsAfter ⟨10, 0⟩] (sampleLog [])).1 ∧
    (QueryEvents sampleADB [EventsAfter ⟨10, 0⟩] (sampleLog [])).2.2.committed =
      (sampleLog []).committed :=
  ⟨(QueryEvents_writes_nothing sampleADB [EventsAfter ⟨10, 0⟩] (sampleLog [])).2.1 rfl rfl,
    (QueryEvents_writes_nothing sampleADB [EventsAfter ⟨10, 0⟩] (sampleLog [])).1⟩

/-- C20, on the code: the `INSERT ... RETURNING` of `AddAuthor` (and of
`AddBook`) fails with the storage error `boom`. The error returned is built
from the captured `err`, which is nil at that point, so it names the statement
but does not wrap the cause: `errors.Is(result, boom)` is false. A failing
event insert of the same call does wrap its cause. -/
theorem failed_insert_loses_cause :
    (AddAuthor sampleADB ⟨0, "Virginia Woolf", ⟨725000⟩⟩
      (sampleDB [none, some (.new "boom")])).2.1 =
      some (Errorf "transaction: " (.new "insert author: %!w(<nil>)")) ∧
    errorsIs (Errorf "transaction: " (.new "insert author: %!w(<nil>)")) (.new "boom") = false ∧
    (AddBook sampleADB 1 ⟨0, "To the Lighthouse", ⟨703000⟩⟩
      (sampleDB [none, some (.new "boom")])).2.1 =
      some (Errorf "transaction: " (.new "insert book: %!w(<nil>)")) ∧
    errorsIs (Errorf "transaction: " (.new "insert book: %!w(<nil>)")) (.new "boom") = false ∧
    (AddAuthor sampleADB ⟨0, "Virginia Woolf", ⟨725000⟩⟩
      (sampleDB [none, none, none, some (.new "boom")])).2.1 =
      some (Errorf "transaction: " (Errorf "insert event: " (.new "boom"))) ∧
    errorsIs (Errorf "transaction: " (Errorf "insert event: " (.new "boom"))) (.new "boom") =
      true := by
  decide

/-- C26 (evaluation of the failing input): on a store whose only book, 1, is
kept under author 1, `UpdateBook` called for author 123 returns no error and
overwrites the row of book 1, while `GetBook` and `DeleteBook` for the same
pair of identities report `ErrDoesNotExist` and `DeleteBook` leaves the books
table as it was. -/
theorem UpdateBook_ignores_authorID :
    (sampleShelf []).committed.books = [⟨1, ⟨1, "To the Lighthouse", ⟨703500⟩⟩⟩] ∧
    (UpdateBook sampleADB 123 ⟨1, "Orlando", ⟨703900⟩⟩ (sampleShelf [])).1 = none ∧
    (UpdateBook sampleADB 123 ⟨1, "Orlando", ⟨703900⟩⟩ (sampleShelf [])).2.committed.books =
      [⟨1, ⟨1, "Orlando", ⟨703900⟩⟩⟩] ∧
    ((GetBook sampleADB 123 1 (sampleShelf [])).2.1.elim false (errorsIs · ErrDoesNotExist)) = true ∧
    (DeleteBook sampleADB 123 1 (sampleShelf [])).1 = some ErrDoesNotExist ∧
    (DeleteBook sampleADB 123 1 (sampleShelf [])).2.committed.books =
      (sampleShelf []).committed.books := by
  decide

theorem String_length_eq_zero_iff (s : String) : s.length = 0 ↔ s = "" := by
  constructor
  · intro h
    have hd : s.data = [] := List.length_eq_zero.mp h
    exact String.ext hd
  · rintro rfl
    rfl

theorem Validate_loop_none (isLetter : Char → Bool) (cs : List Char) :
    Author.Validate.loop isLetter cs = none ↔
      ∀ r ∈ cs, isLetter r = true ∨ r = ' ' ∨ r = '.' := by
  induction cs with
  | nil => simp [Author.Validate.loop]
  | cons c rest ih =>
    unfold Author.Validate.loop
    by_cases h1 : isLetter c = true
    · simp [h1, ih]
    · by_cases h2 : c = ' ' ∨ c = '.'
      · simp [h1, h2, ih]
      · simp [h1, h2]

theorem Validate_loop_some (isLetter : Char → Bool) (cs : List Char) (e : GoError)
    (h : Author.Validate.loop isLetter cs = some e) :
    ∃ r ∈ cs, ¬ (isLetter r = true ∨ r = ' ' ∨ r = '.') ∧
      e = .new ("name contains unexpected rune: " ++ String.singleton r) := by
  induction cs with
  | nil => simp [Author.Validate.loop] at h
  | cons c rest ih =>
    unfold Author.Validate.loop at h
    by_cases h1 : isLetter c = true
    · rw [if_pos h1] at h
      obtain ⟨r, hr, hx⟩ := ih h
      exact ⟨r, List.mem_cons_of_mem _ hr, hx⟩
    · rw [if_neg h1] at h
      by_cases h2 : c = ' ' ∨ c = '.'
      · rw [if_pos h2] at h
        obtain ⟨r, hr, hx⟩ := ih h
        exact ⟨r, List.mem_cons_of_mem _ hr, hx⟩
      · rw [if_neg h2] at h
        refine ⟨c, List.mem_cons_self _ _, ?_, ?_⟩
        · rintro (h3 | h3)
          · exact h1 h3
          · exact h2 h3
        · exact (Option.some.inj h).symm

/-- C21. `Author.Validate` returns no error exactly when the name is not empty,
every rune of the name is a letter, a space or a period, and the date of birth
is not the zero date. An empty name is rejected with the error `name empty`, and
a name that is not empty and holds another rune is rejected with the error
`name contains unexpected rune: r` for such a rune `r` of the name. -/
theorem Author_Validate_accepts_iff (isLetter : Char → Bool) (a : Author) :
    (a.Validate isLetter = none ↔
      a.Name ≠ "" ∧ (∀ r ∈ a.Name.data, isLetter r = true ∨ r = ' ' ∨ r = '.') ∧
        a.DateOfBirth.wall ≠ 0) ∧
    (a.Name = "" → a.Validate isLetter = some (.new "name empty")) ∧
    (a.Name ≠ "" → (∃ r ∈ a.Name.data, ¬ (isLetter r = true ∨ r = ' ' ∨ r = '.')) →
      ∃ r ∈ a.Name.data, ¬ (isLetter r = true ∨ r = ' ' ∨ r = '.') ∧
        a.Validate isLetter =
          some (.new ("name contains unexpected rune: " ++ String.singleton r))) := by
  have hlen := String_length_eq_zero_iff a.Name
  refine ⟨?_, ?_, ?_⟩
  · unfold Author.Validate
    by_cases hn : a.Name = ""
    · simp [hlen.mpr hn, hn]
    · have hl : ¬ a.Name.length = 0 := fun h => hn (hlen.mp h)
      rw [if_neg hl]
      rcases hloop : Author.Validate.loop isLetter a.Name.data with _ | e
      · have hall := (Validate_loop_none isLetter a.Name.data).mp hloop
        by_cases hz : a.DateOfBirth.wall = 0
        · simp [Date.IsZero, hz]
        · simp only [Date.IsZero, hz, decide_False, Bool.false_eq_true, if_false, true_iff]
          exact ⟨hn, hall, hz⟩
      · obtain ⟨r, hr, hbad, -⟩ := Validate_loop_some isLetter _ e hloop
        constructor
        · intro h
          cases h
        · rintro ⟨-, hall, -⟩
          exact absurd (hall r hr) hbad
  · intro hn
    unfold Author.Validate
    rw [if_pos (hlen.mpr hn)]
  · intro hn hex
    have hl : ¬ a.Name.length = 0 := fun h => hn (hlen.mp h)
    unfold Author.Validate
    rw [if_neg hl]
    rcases hloop : Author.Validate.loop isLetter a.Name.data with _ | e
    · obtain ⟨r, hr, hbad⟩ := hex
      exact absurd ((Validate_loop_none isLetter a.Name.data).mp hloop r hr) hbad
    · obtain ⟨r, hr, hbad, he⟩ := Validate_loop_some isLetter _ e hloop
      exact ⟨r, hr, hbad, by rw [he]⟩

/-- Witness for C21, with the ASCII letters as letters: `E. M. Forster` born on
a date that is not zero is accepted, the empty name is rejected with
`name empty`, and `Foo#Bar` is rejected with an error on an unexpected rune. -/
theorem Author_Validate_accepts_iff_witness :
    Author.Validate Char.isAlpha ⟨0, "E. M. Forster", ⟨686000⟩⟩ = none ∧
    Author.Validate Char.isAlpha ⟨0, "", ⟨686000⟩⟩ = some (.new "name empty") ∧
    ∃ r ∈ "Foo#Bar".data, ¬ (Char.isAlpha r = true ∨ r = ' ' ∨ r = '.') ∧
      Author.Validate Char.isAlpha ⟨0, "Foo#Bar", ⟨686000⟩⟩ =
        some (.new ("name contains unexpected rune: " ++ String.singleton r)) :=
  ⟨(Author_Validate_accepts_iff Char.isAlpha ⟨0, "E. M. Forster", ⟨686000⟩⟩).1.mpr
      ⟨by decide, by decide, by decide⟩,
    (Author_Validate_accepts_iff Char.isAlpha ⟨0, "", ⟨686000⟩⟩).2.1 rfl,
    (Author_Validate_accepts_iff Char.isAlpha ⟨0, "Foo#Bar", ⟨686000⟩⟩).2.2 (by decide)
      ⟨'#', by decide, by decide⟩⟩

/-- C23. `Controller.UpdateBook` is a stub: for every request and every state
of the response it adds nothing to the body and leaves the data layer and the
list of calls made on it as they were, and on a response nothing was written to
it sets the status 503 and nothing else, a status other than 404 and 500. -/
theorem UpdateBook_handler_is_stub {σ : Type} (w : ResponseWriter) (r : Request σ)
    (world : World σ) :
    (Controller.UpdateBook w r world).1.body = w.body ∧
    (Controller.UpdateBook w r world).1.header = w.header ∧
    (Controller.UpdateBook w r world).2 = world ∧
    (Controller.UpdateBook .fresh r world).1 = { status := some 503, header := [], body := "" } ∧
    (Controller.UpdateBook .fresh r world).1.status ≠ some 404 ∧
    (Controller.UpdateBook .fresh r world).1.status ≠ some 500 := by
  refine ⟨?_, ?_, rfl, rfl, by simp [Controller.UpdateBook, ResponseWriter.WriteHeader, ResponseWriter.fresh],
    by simp [Controller.UpdateBook, ResponseWriter.WriteHeader, ResponseWriter.fresh]⟩
  · unfold Controller.UpdateBook ResponseWriter.WriteHeader
    cases w.status <;> rfl
  · unfold Controller.UpdateBook ResponseWriter.WriteHeader
    cases w.status <;> rfl

/-- C25. `AuthMiddleware` calls `Dial` with the `user` header of the request.
When `Dial` returns no error, the outcome is that of the wrapped handler run on
the same response, with the request whose context carries the `Databaser` that
`Dial` returned. When `Dial` returns an error, the outcome is the same for
every wrapped handler, so none is run: the body gets the line
`specify approved user in header`, no call other than `Dial` is made, and a
response nothing was written to before gets the status 401. -/
theorem AuthMiddleware_gates_on_dial {σ : Type} (api : Controller σ) (next : Handler σ)
    (w : ResponseWriter) (r : Request σ) (world : World σ) :
    ((api.dial (r.header "user") world.st).2.1 = none →
      api.AuthMiddleware next w r world =
        next w { r with db := (api.dial (r.header "user") world.st).1 }
          (world.did (.dial (r.header "user")) (api.dial (r.header "user") world.st).2.2)) ∧
    ((api.dial (r.header "user") world.st).2.1 ≠ none →
      (∀ other : Handler σ, api.AuthMiddleware next w r world = api.AuthMiddleware other w r world) ∧
      api.AuthMiddleware next w r world =
        (http.Error w "specify approved user in header" 401,
          world.did (.dial (r.header "user")) (api.dial (r.header "user") world.st).2.2) ∧
      (api.AuthMiddleware next w r world).1.status = some (w.status.getD 401) ∧
      (api.AuthMiddleware next .fresh r world).1.status = some 401) := by
  have key : ∀ (nx : Handler σ) (w0 : ResponseWriter),
      (api.dial (r.header "user") world.st).2.1 ≠ none →
      api.AuthMiddleware nx w0 r world =
        (http.Error w0 "specify approved user in header" 401,
          world.did (.dial (r.header "user")) (api.dial (r.header "user") world.st).2.2) := by
    intro nx w0 h
    rcases hd : api.dial (r.header "user") world.st with ⟨db, err, st1⟩
    rw [hd] at h
    cases err with
    | none => exact absurd rfl h
    | some e => simp only [Controller.AuthMiddleware, hd]
  have hst : ∀ w0 : ResponseWriter,
      (http.Error w0 "specify approved user in header" 401).status = some (w0.status.getD 401) := by
    intro w0
    unfold http.Error ResponseWriter.Write ResponseWriter.WriteHeader ResponseWriter.Set
    cases hs : w0.status <;> simp
  refine ⟨fun h => ?_, fun h => ⟨fun other => ?_, key next w h, ?_, ?_⟩⟩
  · rcases hd : api.dial (r.header "user") world.st with ⟨db, err, st1⟩
    rw [hd] at h
    cases err with
    | none => simp only [Controller.AuthMiddleware, hd]
    | some e => cases h
  · rw [key next w h, key other w h]
  · rw [key next w h]
    exact hst w
  · rw [key next .fresh h]
    exact hst .fresh

/-- Witness for C25, with `NewAuditDB` behind `Dial` and `ReadAuthor` as the
wrapped handler: the request of `bill` reaches the handler, which lists the
authors through the handle of `bill`; the request of `someone-else` gets the
status 401 and no call but `Dial` is made. -/
theorem AuthMiddleware_gates_on_dial_witness :
    (Controller.AuthMiddleware ⟨dial⟩ (Controller.ReadAuthor sampleLib) .fresh
        (sampleRequest "bill" [] "") (sampleWorld (sampleDB []))) =
      Controller.ReadAuthor sampleLib .fresh
        { sampleRequest "bill" [] "" with db := (dial "bill" (sampleDB [])).1 }
        ((sampleWorld (sampleDB [])).did (.dial "bill") (dial "bill" (sampleDB [])).2.2) ∧
    (Controller.AuthMiddleware ⟨dial⟩ (Controller.ReadAuthor sampleLib) .fresh
        (sampleRequest "someone-else" [] "") (sampleWorld (sampleDB []))).1.status = some 401 :=
  ⟨(AuthMiddleware_gates_on_dial ⟨dial⟩ (Controller.ReadAuthor sampleLib) .fresh
      (sampleRequest "bill" [] "") (sampleWorld (sampleDB []))).1 (by decide),
    ((AuthMiddleware_gates_on_dial ⟨dial⟩ (Controller.ReadAuthor sampleLib) .fresh
      (sampleRequest "someone-else" [] "") (sampleWorld (sampleDB []))).2 (by decide)).2.2.2⟩

theorem WriteJsonError_status (lib : Lib) (w : ResponseWriter) (cause : GoError) (code : Nat) :
    (WriteJsonError lib w cause code).status = some (w.status.getD code) := by
  obtain ⟨st, hd, bd⟩ := w
  cases st <;>
    simp [WriteJsonError, ResponseWriter.Write, ResponseWriter.WriteHeader, ResponseWriter.Set]

theorem WriteJsonError_body (lib : Lib) (w : ResponseWriter) (cause : GoError) (code : Nat) :
    (WriteJsonError lib w cause code).body = w.body ++ (lib.errorObject cause.Error ++ "\n") := by
  obtain ⟨st, hd, bd⟩ := w
  cases st <;>
    simp [WriteJsonError, ResponseWriter.Write, ResponseWriter.WriteHeader, ResponseWriter.Set]

theorem WriteJson_status (lib : Lib) (w : ResponseWriter) (item : Item) (code : Nat) :
    (WriteJson lib w item code).status = some (w.status.getD code) := by
  obtain ⟨st, hd, bd⟩ := w
  cases st <;> cases he : lib.encode item <;>
    simp [WriteJson, ResponseWriter.Write, ResponseWriter.WriteHeader, ResponseWriter.Set, he]

theorem WriteJson_body (lib : Lib) (w : ResponseWriter) (item : Item) (code : Nat) :
    (WriteJson lib w item code).body =
      w.body ++ ((lib.encode item).map (· ++ "\n")).getD "" := by
  obtain ⟨st, hd, bd⟩ := w
  cases st <;> cases he : lib.encode item <;>
    simp [WriteJson, ResponseWriter.Write, ResponseWriter.WriteHeader, ResponseWriter.Set, he]

/-- C24. In the `UpdateAuthor` handler, when `GetAuthor` for the identity of
the URL returns the stored author `s` and the body decodes to the name `n` and
the date of birth `d`, let `merged` be the record with the identity of `s`, the
name `n` unless `n` is empty and the date of birth `d` unless `d` is the zero
date. If `merged` does not validate, the handler answers with the validation
error and the status 400 (on a response nothing was written to before) and the
only call on the data layer is `GetAuthor`. If `merged` validates, the calls on
the data layer are `GetAuthor` and then `UpdateAuthor` with `merged`. -/
theorem UpdateAuthor_handler_merges {σ : Type} (lib : Lib) (w : ResponseWriter) (r : Request σ)
    (world : World σ) (db : Databaser σ) (id : Int) (s merged : Author) (n : String) (d : Date)
    (hid : GetIntFromRequest r "authorID" = (id, none))
    (hdb : r.db = some db)
    (hget : (db.GetAuthor id world.st).1 = some s)
    (hok : (db.GetAuthor id world.st).2.1 = none)
    (hbody : jsonDecode lib.decodeChanges r.body = .ok (n, d))
    (hm : merged = { ID := s.ID, Name := if n ≠ "" then n else s.Name,
                     DateOfBirth := if d.wall ≠ 0 then d else s.DateOfBirth }) :
    (∀ err, merged.Validate lib.IsLetter = some err →
      Controller.UpdateAuthor lib w r world =
        (WriteJsonError lib w err 400,
          world.did (.getAuthor id) (db.GetAuthor id world.st).2.2) ∧
      (Controller.UpdateAuthor lib w r world).1.status = some (w.status.getD 400) ∧
      (Controller.UpdateAuthor lib w r world).2.calls = world.calls ++ [.getAuthor id]) ∧
    (merged.Validate lib.IsLetter = none →
      (Controller.UpdateAuthor lib w r world).2.calls =
        world.calls ++ [.getAuthor id, .updateAuthor merged] ∧
      (Controller.UpdateAuthor lib w r world).2.st =
        (db.UpdateAuthor merged (db.GetAuthor id world.st).2.2).2) := by
  rcases hg : db.GetAuthor id world.st with ⟨a, e, st1⟩
  rw [hg] at hget hok
  simp only at hget hok
  subst hget hok
  have hmerge : (if !d.IsZero then
        { (if n ≠ "" then { s with Name := n } else s : Author) with DateOfBirth := d }
      else (if n ≠ "" then { s with Name := n } else s : Author)) = merged := by
    rw [hm]
    by_cases h1 : n = "" <;> by_cases h2 : d.wall = 0 <;> simp [Date.IsZero, h1, h2]
  refine ⟨fun err hv => ?_, fun hv => ?_⟩
  · have hrun : Controller.UpdateAuthor lib w r world =
        (WriteJsonError lib w err 400, world.did (.getAuthor id) st1) := by
      simp only [Controller.UpdateAuthor, hid, hdb, hg, hbody, hmerge, hv]
    rw [hrun]
    exact ⟨rfl, WriteJsonError_status _ _ _ _, rfl⟩
  · rcases hu : db.UpdateAuthor merged st1 with ⟨ue, st2⟩
    cases ue with
    | none =>
      have hrun : Controller.UpdateAuthor lib w r world =
          (WriteJson lib w (.author (some merged)) 200,
            (world.did (.getAuthor id) st1).did (.updateAuthor merged) st2) := by
        simp only [Controller.UpdateAuthor, hid, hdb, hg, hbody, hmerge, hv, World.did, hu]
      rw [hrun]
      exact ⟨by simp [World.did], rfl⟩
    | some ue =>
      by_cases hnf : errorsIs ue ErrDoesNotExist = true
      · have hrun : Controller.UpdateAuthor lib w r world =
            (WriteJsonError lib w ue 404,
              (world.did (.getAuthor id) st1).did (.updateAuthor merged) st2) := by
          simp only [Controller.UpdateAuthor, hid, hdb, hg, hbody, hmerge, hv, World.did, hu, hnf,
            if_true]
        rw [hrun]
        exact ⟨by simp [World.did], rfl⟩
      · have hrun : Controller.UpdateAuthor lib w r world =
            (WriteJson lib w (.error ue) 500,
              (world.did (.getAuthor id) st1).did (.updateAuthor merged) st2) := by
          simp only [Controller.UpdateAuthor, hid, hdb, hg, hbody, hmerge, hv, World.did, hu, hnf,
            Bool.false_eq_true, if_false]
        rw [hrun]
        exact ⟨by simp [World.did], rfl⟩

/-- Witness for C24, on a store that holds the author 1: a body that renames
the author to `V. Woolf` is handed to `UpdateAuthor` with the stored identity
and date of birth, and a body with the name `Woolf 2` is answered with the
status 400 after the one call `GetAuthor`. -/
theorem UpdateAuthor_handler_merges_witness :
    (Controller.UpdateAuthor sampleLib .fresh
        (billRequest [("authorID", "1")] "\x7b\"name\": \"V. Woolf\"\x7d")
        (sampleWorld (sampleShelf []))).2.calls =
      [] ++ [.getAuthor 1, .updateAuthor ⟨1, "V. Woolf", ⟨702000⟩⟩] ∧
    (Controller.UpdateAuthor sampleLib .fresh
        (billRequest [("authorID", "1")] "\x7b\"name\": \"Woolf 2\"\x7d")
        (sampleWorld (sampleShelf []))).1.status = some 400 ∧
    (Controller.UpdateAuthor sampleLib .fresh
        (billRequest [("authorID", "1")] "\x7b\"name\": \"Woolf 2\"\x7d")
        (sampleWorld (sampleShelf []))).2.calls = [] ++ [.getAuthor 1] :=
  ⟨((UpdateAuthor_handler_merges sampleLib .fresh
      (billRequest [("authorID", "1")] "\x7b\"name\": \"V. Woolf\"\x7d")
      (sampleWorld (sampleShelf [])) sampleADB.Databaser 1 ⟨1, "Virginia Woolf", ⟨702000⟩⟩
      ⟨1, "V. Woolf", ⟨702000⟩⟩ "V. Woolf" ⟨0⟩ (by decide) rfl (by decide) (by decide) rfl
      (by decide)).2 (by decide)).1,
    ((UpdateAuthor_handler_merges sampleLib .fresh
      (billRequest [("authorID", "1")] "\x7b\"name\": \"Woolf 2\"\x7d")
      (sampleWorld (sampleShelf [])) sampleADB.Databaser 1 ⟨1, "Virginia Woolf", ⟨702000⟩⟩
      ⟨1, "Woolf 2", ⟨702000⟩⟩ "Woolf 2" ⟨0⟩ (by decide) rfl (by decide) (by decide) rfl
      (by decide)).1 (.new "name contains unexpected rune: 2") (by decide)).2⟩

/-- The list branch of `ReadAuthor`: a successful `AllAuthors` that holds no
rows, nil or empty, is answered on a response nothing was written to before
with the status 200 and the body `[]` and a newline. -/
theorem ReadAuthor_empty_list {σ : Type} (lib : Lib) (r : Request σ) (world : World σ)
    (db : Databaser σ) (hdb : r.db = some db) (hlist : r.vars.lookup "authorID" = none)
    (hok : (db.AllAuthors world.st).2.1 = none)
    (hrows : (db.AllAuthors world.st).1 = none ∨ (db.AllAuthors world.st).1 = some []) :
    (Controller.ReadAuthor lib .fresh r world).1.status = some 200 ∧
    (Controller.ReadAuthor lib .fresh r world).1.body = "[]\n" := by
  rcases hg : db.AllAuthors world.st with ⟨l, e, st1⟩
  rw [hg] at hok hrows
  simp only at hok hrows
  subst hok
  rcases hrows with rfl | rfl <;>
    simp [Controller.ReadAuthor, hdb, hlist, hg, WriteJson, Lib.encode, ResponseWriter.Write,
      ResponseWriter.WriteHeader, ResponseWriter.Set, ResponseWriter.fresh]

/-- The list branch of `ReadBook` when the route variable `authorID` parses: a
successful `AllBooks` that holds no rows, nil or empty, is answered on a
response nothing was written to before with the status 200 and the body `[]`
and a newline. -/
theorem ReadBook_empty_list {σ : Type} (lib : Lib) (r : Request σ) (world : World σ)
    (db : Databaser σ) (hdb : r.db = some db) (hlist : r.vars.lookup "bookID" = none)
    (hid : (GetIntFromRequest r "authorID").2 = none)
    (hok : (db.AllBooks world.st).2.1 = none)
    (hrows : (db.AllBooks world.st).1 = none ∨ (db.AllBooks world.st).1 = some []) :
    (Controller.ReadBook lib .fresh r world).1.status = some 200 ∧
    (Controller.ReadBook lib .fresh r world).1.body = "[]\n" := by
  rcases hg : db.AllBooks world.st with ⟨l, e, st1⟩
  rcases hi : GetIntFromRequest r "authorID" with ⟨id, ie⟩
  rw [hg] at hok hrows
  rw [hi] at hid
  simp only at hok hrows hid
  subst hok hid
  rcases hrows with rfl | rfl <;>
    simp [Controller.ReadBook, hdb, hlist, hg, hi, WriteJson, Lib.encode, ResponseWriter.Write,
      ResponseWriter.WriteHeader, ResponseWriter.Set, ResponseWriter.fresh]

/-- C22 (evaluation of the failing input): `bill` lists the books of the author
`99999999999999999999` on a store without books. The route variable does not
fit an `int`, `AllBooks` is called all the same and succeeds with a nil slice,
and the response has the status 500 and a body of two documents, the error
object of `Atoi` and then `[]`. -/
theorem ReadBook_list_after_bad_authorID (lib : Lib) :
    (AllBooks sampleADB (sampleDB [])).1 = none ∧
    (AllBooks sampleADB (sampleDB [])).2.1 = none ∧
    (Controller.ReadBook lib .fresh (billRequest [("authorID", "99999999999999999999")] "")
        (sampleWorld (sampleDB []))).2.calls.length = 1 ∧
    (Controller.ReadBook lib .fresh (billRequest [("authorID", "99999999999999999999")] "")
        (sampleWorld (sampleDB []))).1.status = some 500 ∧
    (Controller.ReadBook lib .fresh (billRequest [("authorID", "99999999999999999999")] "")
        (sampleWorld (sampleDB []))).1.body =
      lib.errorObject "strconv.Atoi: parsing \"99999999999999999999\": value out of range" ++
        "\n" ++ "[]\n" := by
  have hint : GetIntFromRequest (billRequest [("authorID", "99999999999999999999")] "")
      "authorID" = (9223372036854775807,
        some (strconv.NumError "99999999999999999999" strconv.ErrRange)) := by
    decide
  have hall : AllBooks sampleADB (sampleDB []) =
      (none, none, (AllBooks sampleADB (sampleDB [])).2.2) :=
    Prod.ext (by decide) (Prod.ext (by decide) rfl)
  have hrun : Controller.ReadBook lib .fresh
      (billRequest [("authorID", "99999999999999999999")] "") (sampleWorld (sampleDB [])) =
      (WriteJson lib (WriteJsonError lib .fresh
          (strconv.NumError "99999999999999999999" strconv.ErrRange) 500) (.books (some [])) 200,
        (sampleWorld (sampleDB [])).did .allBooks (AllBooks sampleADB (sampleDB [])).2.2) := by
    have hdb : (billRequest [("authorID", "99999999999999999999")] "").db =
        some sampleADB.Databaser := rfl
    have hv : (billRequest [("authorID", "99999999999999999999")] "").vars.lookup "bookID" =
        none := by decide
    have hall2 : sampleADB.Databaser.AllBooks (sampleWorld (sampleDB [])).st =
        (none, none, (AllBooks sampleADB (sampleDB [])).2.2) := hall
    simp only [Controller.ReadBook, hdb, hint, hv, hall2, Option.isSome_none, Bool.false_eq_true,
      if_false, Option.isNone_none, if_true]
  refine ⟨by decide, by decide, ?_, ?_, ?_⟩
  · rw [hrun]
    rfl
  · rw [hrun, WriteJson_status, WriteJsonError_status]
    rfl
  · rw [hrun, WriteJson_body, WriteJsonError_body]
    simp [Lib.encode, ResponseWriter.fresh, strconv.NumError, strconv.ErrRange, GoError.Error]

/-- C27 (evaluation of the failing input): `bill` asks for the events with an
empty body on a storage whose events query fails with `boom`. `QueryEvents`
returns an error and a nil list, and the response has the status 500 and a body
of two documents, the error object and then `null`, the encoding of the nil
list. -/
theorem Events_writes_list_after_error (lib : Lib) :
    (QueryEvents sampleADB [] (sampleLog [some (.new "boom")])).1 = none ∧
    (QueryEvents sampleADB [] (sampleLog [some (.new "boom")])).2.1 =
      some (Errorf "select events: " (.new "boom")) ∧
    (Controller.Events lib .fresh (billRequest [] "")
        (sampleWorld (sampleLog [some (.new "boom")]))).1.status = some 500 ∧
    (Controller.Events lib .fresh (billRequest [] "")
        (sampleWorld (sampleLog [some (.new "boom")]))).1.body =
      lib.errorObject "select events: boom" ++ "\n" ++ "null\n" := by
  have hq : QueryEvents sampleADB [] (sampleLog [some (.new "boom")]) =
      (none, some (Errorf "select events: " (.new "boom")),
        (QueryEvents sampleADB [] (sampleLog [some (.new "boom")])).2.2) :=
    Prod.ext (by decide) (Prod.ext (by decide) rfl)
  have hrun : Controller.Events lib .fresh (billRequest [] "")
      (sampleWorld (sampleLog [some (.new "boom")])) =
      (WriteJson lib (WriteJsonError lib .fresh (Errorf "select events: " (.new "boom")) 500)
          (.events none) 200,
        (sampleWorld (sampleLog [some (.new "boom")])).did (.queryEvents [])
          (QueryEvents sampleADB [] (sampleLog [some (.new "boom")])).2.2) := by
    have hdb : (billRequest [] "").db = some sampleADB.Databaser := rfl
    have hf : Controller.Events.filters lib (billRequest [] "").body = .ok [] := by
      simp [Controller.Events.filters, jsonDecode, billRequest, sampleRequest]
    have hq2 : sampleADB.Databaser.QueryEvents [] (sampleWorld (sampleLog [some (.new "boom")])).st =
        (none, some (Errorf "select events: " (.new "boom")),
          (QueryEvents sampleADB [] (sampleLog [some (.new "boom")])).2.2) := hq
    simp only [Controller.Events, hdb, hf, hq2]
  refine ⟨by decide, by decide, ?_, ?_⟩
  · rw [hrun, WriteJson_status, WriteJsonError_status]
    rfl
  · rw [hrun, WriteJson_body, WriteJsonError_body]
    simp [Lib.encode, ResponseWriter.fresh, Errorf, GoError.Error]

end Krud
